import Mathlib

/-!
# GScript interpreter (`src/scripting/gscript/g-interpreter.js`)

A shallow embedding of `GInterpreter.run`: the single-pass scanner that reads a
script character by character, assembles instructions and dispatches them to
the external command executor `GExecutor`.

* JavaScript strings are lists of characters (`Str`).
* The local variables of `run` are the fields of `St`; the closures `_exec`,
  `_finalizeBuffer`, ... are functions on `St`.
* `GExecutor` (module `./g-executor`, not part of the sources) is a parameter:
  a record of functions over an arbitrary executor state `σ`.
* Every call into the executor is appended to the ghost field `St.calls`.
* A JavaScript `throw` is the constructor `thrown`, which keeps the state at the
  moment of the throw (so the calls made before it can still be inspected).
-/

namespace GInterpreter

/-- JavaScript strings, as lists of characters. -/
abbrev Str := List Char

/-! ## Values handed to and returned by the executor -/

/-- The JavaScript values the interpreter can see. An object is opaque to the
interpreter: it is known by its identity and by whether `JSON.stringify` accepts
it (it throws a `TypeError` when the object is circular or holds a BigInt). -/
inductive JSValue where
  | undefined
  | null
  | bool (b : Bool)
  | num (n : Int)
  | bigint (n : Int)
  | str (s : Str)
  | obj (ref : Nat) (serializable : Bool)
  deriving DecidableEq, Repr

/-- JavaScript truthiness, the `!!v` of the source. -/
def JSValue.truthy : JSValue → Bool
  | .undefined => false
  | .null => false
  | .bool b => b
  | .num n => decide (n ≠ 0)
  | .bigint n => decide (n ≠ 0)
  | .str s => decide (s ≠ [])
  | .obj _ _ => true

/-- Whether `JSON.stringify(v)` returns: it throws a `TypeError` for a BigInt and
for an object it cannot serialise, and returns for every other value. -/
def JSValue.canStringify : JSValue → Bool
  | .bigint _ => false
  | .obj _ ok => ok
  | _ => true

/-- Whether `JSON.stringify(instr)` returns for the array `instr`: it does when it
does for every element. -/
def canStringifyAll (instr : List JSValue) : Bool := instr.all JSValue.canStringify

/-- The two-field result of `GExecutor.executeCommand`. -/
structure ExecResult where
  opResult : JSValue
  abortExecution : Bool
  deriving DecidableEq, Repr

/-- The external command executor `GExecutor`, over its own state `σ`. -/
structure GExecutor (σ : Type) where
  reset : σ → σ
  getVariable : σ → Str → JSValue × σ
  executeCommand : σ → List JSValue → ExecResult × σ

/-- A call made into the executor during a run. -/
inductive Call where
  | getVariable (name : Str)
  | executeCommand (instr : List JSValue)
  deriving DecidableEq, Repr

/-- The instructions handed to `executeCommand`, in call order. -/
def execCalls : List Call → List (List JSValue)
  | [] => []
  | .executeCommand i :: cs => i :: execCalls cs
  | .getVariable _ :: cs => execCalls cs

/-- The names handed to `getVariable`, in call order. -/
def varCalls : List Call → List Str
  | [] => []
  | .getVariable n :: cs => n :: varCalls cs
  | .executeCommand _ :: cs => varCalls cs

/-- What a JavaScript `throw` carries: `new Error(message)` of the source, the
`ReferenceError` the engine raises when an undeclared identifier is evaluated, or
the `TypeError` of `JSON.stringify` (its message depends on the value). -/
inductive JSError where
  | error (message : Str)
  | referenceError (message : Str)
  | typeError
  deriving DecidableEq, Repr

/-! ## Lexical constants -/

abbrev T_SPACE : Char := ' '
abbrev T_COMMENT : Char := '#'
abbrev T_CONTEXT_OPEN : Char := '{'
abbrev T_CONTEXT_CLOSE : Char := '}'
abbrev T_INSTRUCTION_END : Char := ';'
abbrev T_STRING_DOUBLE_QUOTE : Char := '"'
abbrev T_STRING_SINGLE_QUOTE : Char := Char.ofNat 39
abbrev T_RETURN : Char := '\r'
abbrev T_NEW_LINE : Char := '\n'
abbrev T_ESCAPE : Char := '\\'
abbrev T_VARIABLE_INDICATOR : Char := '$'
abbrev T_TAB : Char := '\t'

/-! ## Preprocessing -/

/-- The characters `String.prototype.trim` strips: ECMAScript WhiteSpace and
LineTerminator code points. -/
def isWhiteSpace (c : Char) : Bool :=
  let n := c.toNat
  n == 0x09 || n == 0x0A || n == 0x0B || n == 0x0C || n == 0x0D || n == 0x20 ||
  n == 0xA0 || n == 0x1680 || (decide (0x2000 ≤ n) && decide (n ≤ 0x200A)) ||
  n == 0x2028 || n == 0x2029 || n == 0x202F || n == 0x205F || n == 0x3000 ||
  n == 0xFEFF

/-- The function `String.prototype.trimStart`. -/
def trimStart (s : Str) : Str := s.dropWhile isWhiteSpace

/-- The function `String.prototype.trimEnd`. -/
def trimEnd (s : Str) : Str := (s.reverse.dropWhile isWhiteSpace).reverse

/-- The function `String.prototype.trim`. -/
def trim (s : Str) : Str := trimEnd (trimStart s)

/-- Replacement of every TAB by SPACE: `replace(new RegExp("\\t", "g"), T_SPACE)`. -/
def replaceTabs (s : Str) : Str := s.map (fun c => if c = T_TAB then T_SPACE else c)

/-- The static method `_preProcess`: trim, then replace all TAB with SPACE. -/
def _preProcess (scriptText : Str) : Str := replaceTabs (trim scriptText)

/-! ## Interpreter state -/

/-- The local variables of `run`, plus the executor state and the call log. -/
structure St (σ : Type) where
  readingComment : Bool
  readingLiteral : Bool
  literalInEscapeSequence : Bool
  literalOpenChar : Option Char
  readingVariable : Bool
  currentInstructionComponents : List JSValue
  interpretingInstruction : Bool
  buffer : List Char
  bufferIdx : Nat
  /-- The array `contextStack`; the head of the list is the top (last pushed). -/
  contextStack : List Nat
  /-- The object `contextActivations`; the first pair with a key is its entry. -/
  contextActivations : List (Nat × Bool)
  currentContextId : Nat
  contextIdGenerator : Nat
  contextIsActive : Bool
  abort : Bool
  ex : σ
  calls : List Call

/-- The state set up at the top of `run`. -/
def initialState {σ : Type} (ex : σ) : St σ :=
  { readingComment := false
    readingLiteral := false
    literalInEscapeSequence := false
    literalOpenChar := none
    readingVariable := false
    currentInstructionComponents := []
    interpretingInstruction := false
    buffer := []
    bufferIdx := 0
    contextStack := [0]
    contextActivations := [(0, true)]
    currentContextId := 0
    contextIdGenerator := 1
    contextIsActive := true
    abort := false
    ex := ex
    calls := [] }

/-- Property read `contextActivations[id]`; `none` is JavaScript `undefined`. -/
def lookupActivation (m : List (Nat × Bool)) (id : Nat) : Option Bool :=
  match m with
  | [] => none
  | (k, v) :: rest => if k = id then some v else lookupActivation rest id

/-- Outcome of one loop iteration or of the whole run. -/
inductive Res (σ : Type) where
  | ok (s : St σ)
  | thrown (e : JSError) (s : St σ)

/-- Outcome of a helper that returns a value. -/
inductive Ret (α σ : Type) where
  | ret (a : α) (s : St σ)
  | thrown (e : JSError) (s : St σ)

/-- The state an outcome ends in. -/
def Res.state {σ : Type} : Res σ → St σ
  | .ok s => s
  | .thrown _ s => s

/-- The error an outcome carries, if any. -/
def Res.error {σ : Type} : Res σ → Option JSError
  | .ok _ => none
  | .thrown e _ => some e

/-- The state a helper ends in. -/
def Ret.state {α σ : Type} : Ret α σ → St σ
  | .ret _ s => s
  | .thrown _ s => s

/-- A helper call used as a statement: the returned value is dropped. -/
def Ret.toRes {α σ : Type} : Ret α σ → Res σ
  | .ret _ s => Res.ok s
  | .thrown e s => Res.thrown e s

/-! ## Error messages -/

def msgReference (variableName : Str) : Str :=
  "Reference error. Referenced variable ".toList ++ [T_VARIABLE_INDICATOR] ++ variableName ++
    " is not defined.".toList

def msgComment : Str :=
  "Syntax error. Unexpected \"#\": cannot start a comment within an instruction.".toList

def msgContextOpen : Str :=
  "Syntax error. Unexpected \"\x7b\" - no preceding conditional statement.".toList

def msgContextClose : Str :=
  "Syntax error. Unexpected \"\x7d\" - not in a context block.".toList

def msgVariable : Str := "Syntax error. Unexpected variable declaration.".toList

def msgLiteral : Str :=
  ("Syntax error: Unexpected end of script - unterminated string literal. " ++
    "Did you forget a closing quote character?").toList

def msgInstruction : Str :=
  ("Syntax error: Unexpected end of script - unterminated instruction. " ++
    "Did you forget a semicolon (;)?").toList

/-- The engine's message for the undeclared identifier `Logger` (line 125). -/
def msgLogger : Str := "Logger is not defined".toList

/-! ## The helper closures of `run` -/

/-- The closure `_exec`. The debug log serialises the instruction with
`JSON.stringify` (line 59) before the context is tested, and the result of the
executor (line 72) before it is interpreted; either call can throw a `TypeError`.
Then: skip when the context is inactive (returns `null`), else call the executor
and interpret its result. -/
def _exec {σ : Type} (E : GExecutor σ) (s : St σ) (instr : List JSValue)
    (conditional : Bool) : Ret JSValue σ :=
  if canStringifyAll instr = false then Ret.thrown JSError.typeError s
  else if s.contextIsActive = false then Ret.ret JSValue.null s
  else
    let r := E.executeCommand s.ex instr
    let s1 : St σ := { s with ex := r.2, calls := s.calls ++ [Call.executeCommand instr] }
    if r.1.opResult.canStringify = false then Ret.thrown JSError.typeError s1
    else if r.1.abortExecution = true then
      if conditional = true then Ret.ret (JSValue.bool false) s1
      else Ret.ret (JSValue.bool false) { s1 with abort := true }
    else Ret.ret (JSValue.bool r.1.opResult.truthy) s1

/-- The closure `_getJoinedBuffer`. -/
def _getJoinedBuffer {σ : Type} (s : St σ) : Str := trim s.buffer

/-- The closure `_finalizeBuffer`. -/
def _finalizeBuffer {σ : Type} (s : St σ) (flushToInstruction : Bool) : St σ :=
  let s1 : St σ :=
    if flushToInstruction = true ∧ (_getJoinedBuffer s).length ≠ 0 then
      { s with
        currentInstructionComponents :=
          s.currentInstructionComponents ++ [JSValue.str (_getJoinedBuffer s)]
        interpretingInstruction := true }
    else s
  { s1 with
    buffer := []
    bufferIdx := 0
    readingComment := false
    readingLiteral := false
    literalInEscapeSequence := false
    literalOpenChar := none }

/-- The closure `_eatBuffer`. -/
def _eatBuffer {σ : Type} (s : St σ) : Str × St σ := (s.buffer, _finalizeBuffer s false)

/-- The closure `_finalizeInstructionToExec`. The `else` branch evaluates the
undeclared identifier `Logger`, which throws a `ReferenceError`. -/
def _finalizeInstructionToExec {σ : Type} (E : GExecutor σ) (s : St σ)
    (conditional : Bool) : Ret JSValue σ :=
  if s.interpretingInstruction = true then
    match _exec E s s.currentInstructionComponents conditional with
    | Ret.ret execReturnValue s1 =>
      Ret.ret execReturnValue
        { s1 with currentInstructionComponents := [], interpretingInstruction := false }
    | Ret.thrown e s1 => Ret.thrown e s1
  else Ret.thrown (JSError.referenceError msgLogger) s

/-! ## One iteration of the scan loop -/

/-- The statements `buffer.push(char); bufferIdx++` that end the loop body. -/
def writeToBuffer {σ : Type} (s : St σ) (char : Char) : St σ :=
  { s with buffer := s.buffer ++ [char], bufferIdx := s.bufferIdx + 1 }

/-- The local `lastChar`: `buffer[bufferIdx - 1]` when the buffer is non-empty, else
`null`. An index outside the array reads `undefined`, which equals no character. -/
def lastChar {σ : Type} (s : St σ) : Option Char :=
  if s.buffer.length ≠ 0 ∧ s.bufferIdx ≠ 0 then s.buffer.get? (s.bufferIdx - 1) else none

/-- Lines 161-184: the end of a variable reference (a space or `;` in variable mode). -/
def stepVariableEnd {σ : Type} (E : GExecutor σ) (s : St σ) (char : Char) : Res σ :=
  let eaten := _eatBuffer { s with readingLiteral := false }
  let variableName := eaten.1
  let got := E.getVariable eaten.2.ex variableName
  let s2 : St σ :=
    { eaten.2 with ex := got.2, calls := eaten.2.calls ++ [Call.getVariable variableName] }
  if got.1 = JSValue.undefined then Res.thrown (JSError.error (msgReference variableName)) s2
  else
    let s3 : St σ :=
      { s2 with currentInstructionComponents := s2.currentInstructionComponents ++ [got.1] }
    if char = T_INSTRUCTION_END then (_finalizeInstructionToExec E s3 false).toRes
    else Res.ok s3

/-- Lines 234-258: a context-open delimiter in free mode. -/
def stepContextOpen {σ : Type} (E : GExecutor σ) (s : St σ) : Res σ :=
  if s.interpretingInstruction = false then Res.thrown (JSError.error msgContextOpen) s
  else
    match _finalizeInstructionToExec E s true with
    | Ret.thrown e s1 => Res.thrown e s1
    | Ret.ret returnValue s1 =>
      let newContextId := s1.contextIdGenerator
      let newContextActive := returnValue.truthy
      Res.ok (_finalizeBuffer
        { s1 with
          contextIdGenerator := s1.contextIdGenerator + 1
          contextStack := s1.currentContextId :: s1.contextStack
          contextActivations := (newContextId, newContextActive) :: s1.contextActivations
          currentContextId := newContextId
          contextIsActive := newContextActive } false)

/-- Lines 259-275: a context-close delimiter in free mode. A missing entry of
`contextActivations` reads `undefined`, which is falsy wherever the flag is used. -/
def stepContextClose {σ : Type} (s : St σ) : Res σ :=
  match s.contextStack with
  | [] => Res.thrown (JSError.error msgContextClose) s
  | newContextId :: rest =>
    Res.ok (_finalizeBuffer
      { s with
        contextStack := rest
        currentContextId := newContextId
        contextIsActive := (lookupActivation s.contextActivations newContextId).getD false }
      false)

/-- Lines 212-299: one character in free mode. -/
def stepFree {σ : Type} (E : GExecutor σ) (s : St σ) (char : Char) : Res σ :=
  if char = T_INSTRUCTION_END then
    (_finalizeInstructionToExec E (_finalizeBuffer s true) false).toRes
  else if char = T_NEW_LINE then
    if lastChar s = some T_SPACE then Res.ok s else Res.ok (writeToBuffer s T_SPACE)
  else if char = T_COMMENT then
    if s.interpretingInstruction = true then Res.thrown (JSError.error msgComment) s
    else Res.ok { s with readingComment := true }
  else if char = T_CONTEXT_OPEN then stepContextOpen E s
  else if char = T_CONTEXT_CLOSE then stepContextClose s
  else if char = T_STRING_DOUBLE_QUOTE ∨ char = T_STRING_SINGLE_QUOTE then
    Res.ok { s with readingLiteral := true, literalOpenChar := some char }
  else if char = T_SPACE then Res.ok (_finalizeBuffer s true)
  else if char = T_VARIABLE_INDICATOR then
    if s.bufferIdx = 0 then Res.ok { s with readingVariable := true }
    else Res.thrown (JSError.error msgVariable) s
  else Res.ok (writeToBuffer s char)

/-- The body of the `for` loop (lines 140-299) for one character. -/
def step {σ : Type} (E : GExecutor σ) (s : St σ) (char : Char) : Res σ :=
  if s.readingLiteral = false ∧
      ((lastChar s = some T_SPACE ∧ char = T_SPACE) ∨ char = T_RETURN) then Res.ok s
  else if s.readingVariable = true then
    if char = T_SPACE ∨ char = T_INSTRUCTION_END then stepVariableEnd E s char
    else Res.ok (writeToBuffer s char)
  else if s.readingLiteral = true then
    if s.literalInEscapeSequence = true then
      Res.ok (writeToBuffer { s with literalInEscapeSequence := false } char)
    else if char = T_ESCAPE then Res.ok { s with literalInEscapeSequence := true }
    else if some char = s.literalOpenChar then
      Res.ok (_finalizeBuffer { s with readingLiteral := false } true)
    else Res.ok (writeToBuffer s char)
  else if s.readingComment = true then
    if char = T_NEW_LINE then Res.ok (_finalizeBuffer s false)
    else Res.ok (writeToBuffer s char)
  else stepFree E s char

/-! ## The scan loop and `run` -/

/-- The `for` loop over the script text: stop at the first throw, `break` once
`abort` is set. -/
def scanLoop {σ : Type} (E : GExecutor σ) : St σ → Str → Res σ
  | s, [] => Res.ok s
  | s, char :: rest =>
    if s.abort = true then Res.ok s
    else
      match step E s char with
      | Res.ok s1 => scanLoop E s1 rest
      | Res.thrown e s1 => Res.thrown e s1

/-- Lines 303-316: the check of the state the loop ended in. -/
def evaluateState {σ : Type} (s : St σ) : Res σ :=
  if (s.buffer.length ≠ 0 ∨ s.interpretingInstruction = true) ∧
      s.readingComment = false ∧ s.abort = false then
    if s.readingLiteral = true then Res.thrown (JSError.error msgLiteral) s
    else Res.thrown (JSError.error msgInstruction) s
  else Res.ok s

/-- The static method `run`, from the executor state `ex0` the run starts in. -/
def run {σ : Type} (E : GExecutor σ) (ex0 : σ) (scriptText : Str) : Res σ :=
  match scanLoop E (initialState (E.reset ex0)) (_preProcess scriptText) with
  | Res.ok s => evaluateState s
  | Res.thrown e s => Res.thrown e s

/-! ## Auxiliary definitions used by the statements -/

/-- Free mode: none of the three reading flags is set. -/
def FreeMode {σ : Type} (s : St σ) : Prop :=
  s.readingVariable = false ∧ s.readingLiteral = false ∧ s.readingComment = false

instance {σ : Type} (s : St σ) : Decidable (FreeMode s) := by
  unfold FreeMode; infer_instance

/-- The context part of the state: stack, activation table, current identifier,
identifier generator and current activation flag. -/
def ctxOf {σ : Type} (s : St σ) : List Nat × List (Nat × Bool) × Nat × Nat × Bool :=
  (s.contextStack, s.contextActivations, s.currentContextId, s.contextIdGenerator,
    s.contextIsActive)

/-- The state `t` results from `s` by opening a context with activation `b`. -/
def OpenedFrom {σ : Type} (s t : St σ) (b : Bool) : Prop :=
  t.contextStack = s.currentContextId :: s.contextStack ∧
  t.contextActivations = (s.contextIdGenerator, b) :: s.contextActivations ∧
  t.currentContextId = s.contextIdGenerator ∧
  t.contextIdGenerator = s.contextIdGenerator + 1 ∧
  t.contextIsActive = b

/-- The state `t` results from `s` by closing the current context. -/
def ClosedFrom {σ : Type} (s t : St σ) : Prop :=
  ∃ p rest, s.contextStack = p :: rest ∧
    t.contextStack = rest ∧
    t.contextActivations = s.contextActivations ∧
    t.currentContextId = p ∧
    t.contextIdGenerator = s.contextIdGenerator ∧
    t.contextIsActive = (lookupActivation s.contextActivations p).getD false

/-- While the scan stays at depth `d` or deeper, everything above depth `d` is an
inactive context: the current flag is off and so is every recorded activation of
the current context and of the stack entries above depth `d`. -/
def InactiveRegion {σ : Type} (d : Nat) (s : St σ) : Prop :=
  s.contextIsActive = false ∧
  lookupActivation s.contextActivations s.currentContextId = some false ∧
  s.currentContextId < s.contextIdGenerator ∧
  d ≤ s.contextStack.length ∧
  ∀ id ∈ s.contextStack.take (s.contextStack.length - d),
    lookupActivation s.contextActivations id = some false ∧ id < s.contextIdGenerator

/-- A character a bareword may hold: no whitespace and none of `; # \x7b \x7d " ' $`. -/
def isBarewordChar (c : Char) : Bool :=
  !isWhiteSpace c && c != T_INSTRUCTION_END && c != T_COMMENT && c != T_CONTEXT_OPEN &&
    c != T_CONTEXT_CLOSE && c != T_STRING_DOUBLE_QUOTE && c != T_STRING_SINGLE_QUOTE &&
    c != T_VARIABLE_INDICATOR

/-- A bareword: a non-empty string of bareword characters. -/
def Bareword (w : Str) : Prop := w ≠ [] ∧ ∀ c ∈ w, isBarewordChar c = true

instance (w : Str) : Decidable (Bareword w) := by
  unfold Bareword; infer_instance

/-- The text of `k` spaces. -/
def spaces (k : Nat) : Str := List.replicate k T_SPACE

/-- Words, each followed by one or more spaces: the pair `(w, k)` stands for the
word `w` followed by `k + 1` spaces. -/
def spacedWords : List (Str × Nat) → Str
  | [] => []
  | (w, k) :: rest => w ++ spaces (k + 1) ++ spacedWords rest

/-- The state after the characters `w` have been written to the buffer. -/
def writeAll {σ : Type} (s : St σ) (w : Str) : St σ :=
  { s with buffer := s.buffer ++ w, bufferIdx := s.bufferIdx + w.length }

/-- The state after a token has been flushed into the instruction as the
component `v` by `_finalizeBuffer`. -/
def withComponent {σ : Type} (s : St σ) (v : JSValue) : St σ :=
  { s with
    currentInstructionComponents := s.currentInstructionComponents ++ [v]
    interpretingInstruction := true
    buffer := []
    bufferIdx := 0
    readingComment := false
    readingLiteral := false
    literalInEscapeSequence := false
    literalOpenChar := none }

/-- The state after `_finalizeInstructionToExec` has handed the instruction under
assembly to the executor in an active context. -/
def dispatched {σ : Type} (E : GExecutor σ) (s : St σ) (conditional : Bool) : St σ :=
  { s with
    ex := (E.executeCommand s.ex s.currentInstructionComponents).2
    calls := s.calls ++ [Call.executeCommand s.currentInstructionComponents]
    abort :=
      if (E.executeCommand s.ex s.currentInstructionComponents).1.abortExecution = true ∧
        conditional = false then true else s.abort
    currentInstructionComponents := []
    interpretingInstruction := false }

/-- The state at the throw of line 72: the executor has been called with the
instruction under assembly, and its result cannot be serialised. -/
def called {σ : Type} (E : GExecutor σ) (s : St σ) : St σ :=
  { s with
    ex := (E.executeCommand s.ex s.currentInstructionComponents).2
    calls := s.calls ++ [Call.executeCommand s.currentInstructionComponents] }

/-- The outcome of handing the instruction under assembly to the executor in an
active context: the dispatch when the result can be serialised for the debug log,
the `TypeError` of line 72 when it cannot. -/
def dispatchedRes {σ : Type} (E : GExecutor σ) (s : St σ) (conditional : Bool) : Res σ :=
  if (E.executeCommand s.ex s.currentInstructionComponents).1.opResult.canStringify = true then
    Res.ok (dispatched E s conditional)
  else Res.thrown JSError.typeError (called E s)

/-- The state after the components `vs` have been flushed into the instruction. -/
def withComponents {σ : Type} (s : St σ) (vs : List JSValue) : St σ :=
  { s with
    currentInstructionComponents := s.currentInstructionComponents ++ vs
    interpretingInstruction := s.interpretingInstruction || decide (vs ≠ []) }

/-- The state after the variable name in the buffer has been looked up (lines 162-168). -/
def lookedUp {σ : Type} (E : GExecutor σ) (s : St σ) : St σ :=
  { s with
    buffer := []
    bufferIdx := 0
    readingComment := false
    readingLiteral := false
    literalInEscapeSequence := false
    literalOpenChar := none
    ex := (E.getVariable s.ex s.buffer).2
    calls := s.calls ++ [Call.getVariable s.buffer] }

/-- The state after the looked-up value has been pushed as a component (line 175). -/
def resolved {σ : Type} (E : GExecutor σ) (s : St σ) : St σ :=
  { lookedUp E s with
    currentInstructionComponents :=
      s.currentInstructionComponents ++ [(E.getVariable s.ex s.buffer).1] }

/-- A character a variable name may hold so that the name is read whole: not a
space, not `;`, not a carriage return and not a tab (which preprocessing turns
into a space). -/
def isNameChar (c : Char) : Bool :=
  c != T_SPACE && c != T_INSTRUCTION_END && c != T_RETURN && c != T_TAB

/-- The state after `_finalizeInstructionToExec` has skipped the instruction under
assembly in an inactive context. -/
def skipped {σ : Type} (s : St σ) : St σ :=
  { s with currentInstructionComponents := [], interpretingInstruction := false }

/-- The state after a context-open delimiter whose guard produced the
activation `active` (lines 246-257). -/
def enterContext {σ : Type} (s : St σ) (active : Bool) : St σ :=
  { s with
    contextIdGenerator := s.contextIdGenerator + 1
    contextStack := s.currentContextId :: s.contextStack
    contextActivations := (s.contextIdGenerator, active) :: s.contextActivations
    currentContextId := s.contextIdGenerator
    contextIsActive := active
    buffer := []
    bufferIdx := 0
    readingComment := false
    readingLiteral := false
    literalInEscapeSequence := false
    literalOpenChar := none }

/-- The state after a context-close delimiter that pops `p` and leaves `rest`
on the stack (lines 266-274). -/
def leaveContext {σ : Type} (s : St σ) (p : Nat) (rest : List Nat) : St σ :=
  { s with
    contextStack := rest
    currentContextId := p
    contextIsActive := (lookupActivation s.contextActivations p).getD false
    buffer := []
    bufferIdx := 0
    readingComment := false
    readingLiteral := false
    literalInEscapeSequence := false
    literalOpenChar := none }

/-- Well-formed context bookkeeping: every recorded identifier is below the
generator, the current flag is the recorded activation of the current context,
every stack entry has a recorded activation, and the root is recorded active. -/
def ContextsWellFormed {σ : Type} (s : St σ) : Prop :=
  (∀ id b, lookupActivation s.contextActivations id = some b → id < s.contextIdGenerator) ∧
  lookupActivation s.contextActivations s.currentContextId = some s.contextIsActive ∧
  (∀ id ∈ s.contextStack, ∃ b, lookupActivation s.contextActivations id = some b) ∧
  lookupActivation s.contextActivations 0 = some true

/-- The reference unescape function, written from the specification's words: the
body is read left to right; a backslash that is not itself escaped is dropped and
the character after it is kept verbatim; every other character is kept. The flag
tells whether the previous character was an escaping backslash. -/
def unescapeFrom : Bool → Str → Str
  | _, [] => []
  | true, c :: cs => c :: unescapeFrom false cs
  | false, c :: cs =>
    if c = T_ESCAPE then unescapeFrom true cs else c :: unescapeFrom false cs

/-- The reference unescape of a whole literal body. -/
def unescape (b : Str) : Str := unescapeFrom false b

/-- The number of escaping backslashes of a body (those not themselves escaped). -/
def escapesFrom : Bool → Str → Nat
  | _, [] => 0
  | true, _ :: cs => escapesFrom false cs
  | false, c :: cs => if c = T_ESCAPE then 1 + escapesFrom true cs else escapesFrom false cs

/-- The body holds no unescaped quote `q` and does not end in an unescaped
backslash. -/
def closedFrom (q : Char) : Bool → Str → Bool
  | e, [] => !e
  | true, _ :: cs => closedFrom q false cs
  | false, c :: cs =>
    if c = T_ESCAPE then closedFrom q true cs else (c != q) && closedFrom q false cs

/-- The state inside a literal opened by `q`, with escape flag `e` and the
characters `buf` buffered so far. -/
def inLiteral {σ : Type} (base : St σ) (q : Char) (e : Bool) (buf : Str) : St σ :=
  { base with
    readingLiteral := true
    literalOpenChar := some q
    literalInEscapeSequence := e
    buffer := buf
    bufferIdx := buf.length }

/-- The reading-mode part of the state: the three mode flags, the escape flag, the
remembered opening quote, the buffer and its index. -/
def modeOf {σ : Type} (s : St σ) : Bool × Bool × Bool × Bool × Option Char × List Char × Nat :=
  (s.readingComment, s.readingLiteral, s.readingVariable, s.literalInEscapeSequence,
    s.literalOpenChar, s.buffer, s.bufferIdx)

/-- Reading-mode exclusivity and its companions: at most one of `readingComment`,
`readingLiteral`, `readingVariable` is set; the escape flag is set only in literal
mode; an opening quote is remembered exactly in literal mode; `bufferIdx` is the
length of the buffer. -/
def ModeInvariant {σ : Type} (s : St σ) : Prop :=
  (s.readingComment && s.readingLiteral) = false ∧
  (s.readingComment && s.readingVariable) = false ∧
  (s.readingLiteral && s.readingVariable) = false ∧
  (s.literalInEscapeSequence = true → s.readingLiteral = true) ∧
  (s.literalOpenChar ≠ none ↔ s.readingLiteral = true) ∧
  s.bufferIdx = s.buffer.length

/-- The state inside a comment that started at rest in `base`, with the
characters `buf` buffered so far and the buffer index `n`. -/
def inComment {σ : Type} (base : St σ) (buf : Str) (n : Nat) : St σ :=
  { base with readingComment := true, buffer := buf, bufferIdx := n }

/-- While the interpreter regards itself as interpreting an instruction, the
instruction has at least one component. -/
def PendingHasComponents {σ : Type} (s : St σ) : Prop :=
  s.interpretingInstruction = true → s.currentInstructionComponents ≠ []

/-- A state at rest between tokens: free mode, empty buffer, no pending abort. -/
def Resting {σ : Type} (s : St σ) : Prop :=
  FreeMode s ∧ s.buffer = [] ∧ s.bufferIdx = 0 ∧ s.literalInEscapeSequence = false ∧
    s.literalOpenChar = none ∧ s.abort = false

/-- An executor without state: one variable `x` bound to `"north"`; a command
whose first component is `"abort"` requests an abort, and every command returns
a truthy result unless its first component is `"no"`. -/
def demoExecutor : GExecutor Unit :=
  { reset := fun u => u
    getVariable := fun u n =>
      (if n = "x".toList then JSValue.str "north".toList else JSValue.undefined, u)
    executeCommand := fun u i =>
      (⟨JSValue.bool (i.head? != some (JSValue.str "no".toList)),
        i.head? == some (JSValue.str "abort".toList)⟩, u) }

/-- An executor without state and without variables whose every command returns
a falsy result. -/
def falsyExecutor : GExecutor Unit :=
  { reset := fun u => u
    getVariable := fun u _ => (JSValue.undefined, u)
    executeCommand := fun u _ => (⟨JSValue.num 0, false⟩, u) }

/-- An executor without state and without variables whose every command requests
an abort. -/
def abortExecutor : GExecutor Unit :=
  { reset := fun u => u
    getVariable := fun u _ => (JSValue.undefined, u)
    executeCommand := fun u _ => (⟨JSValue.bool true, true⟩, u) }

/-- An executor without state whose values `JSON.stringify` rejects: the variable
`o` is a circular object and the variable `big` a BigInt; a command whose first
component is `"no"` is answered `false`; every other command is answered with a
circular object, together with an abort request when its first component is
`"abort"`. -/
def oddExecutor : GExecutor Unit :=
  { reset := fun u => u
    getVariable := fun u n =>
      (if n = "o".toList then JSValue.obj 0 false
        else if n = "big".toList then JSValue.bigint 0 else JSValue.undefined, u)
    executeCommand := fun u i =>
      (if i.head? = some (JSValue.str "no".toList) then ⟨JSValue.bool false, false⟩
        else ⟨JSValue.obj 1 false, i.head? == some (JSValue.str "abort".toList)⟩, u) }

/-- An executor without state and without variables whose every command is
answered with the BigInt zero: a falsy value that `JSON.stringify` rejects. -/
def bigintExecutor : GExecutor Unit :=
  { reset := fun u => u
    getVariable := fun u _ => (JSValue.undefined, u)
    executeCommand := fun u _ => (⟨JSValue.bigint 0, false⟩, u) }

/-- The state of `demoExecutor` after the guard `no ` has been scanned. -/
def demoBeforeOpen : St Unit := (scanLoop demoExecutor (initialState ()) "no ".toList).state

/-- The state after the context-open delimiter that follows the guard `no `. -/
def demoOpened : St Unit := (step demoExecutor demoBeforeOpen T_CONTEXT_OPEN).state

/-- The state of `demoExecutor` after the guard `check ` has been scanned. -/
def demoGuard : St Unit := (scanLoop demoExecutor (initialState ()) "check ".toList).state

/-- The state after the context-open delimiter that follows the guard `check `. -/
def demoInside : St Unit := (step demoExecutor demoGuard T_CONTEXT_OPEN).state

/-- The state after the block body ` a; no \x7b b; \x7d c; ` has been scanned. -/
def demoBody : St Unit :=
  (scanLoop demoExecutor demoInside " a; no \x7b b; \x7d c; ".toList).state

/-- The state after the context-close delimiter that ends the block. -/
def demoClosed : St Unit := (step demoExecutor demoBody T_CONTEXT_CLOSE).state

/-- The state in which `demoExecutor` ends the scan of `move;`. -/
def demoMoved : St Unit := (scanLoop demoExecutor (initialState ()) "move;".toList).state

/-- The state in which `demoExecutor` ends the scan of `abort;`. -/
def demoAborted : St Unit := (scanLoop demoExecutor (initialState ()) "abort;".toList).state

/-! # Theorems -/

/-! ## The call log -/

theorem execCalls_append (a b : List Call) : execCalls (a ++ b) = execCalls a ++ execCalls b := by
  induction a with
  | nil => rfl
  | cons c cs ih => cases c <;> simp [execCalls, ih]

theorem varCalls_append (a b : List Call) : varCalls (a ++ b) = varCalls a ++ varCalls b := by
  induction a with
  | nil => rfl
  | cons c cs ih => cases c <;> simp [execCalls, varCalls, ih]

/-! ## The scan loop -/

theorem scanLoop_of_abort {σ : Type} (E : GExecutor σ) (s : St σ) (cs : Str)
    (h : s.abort = true) : scanLoop E s cs = Res.ok s := by
  cases cs with
  | nil => rfl
  | cons c cs => simp [scanLoop, h]

theorem scanLoop_cons_ok {σ : Type} (E : GExecutor σ) (s s1 : St σ) (c : Char) (cs : Str)
    (ha : s.abort = false) (h : step E s c = Res.ok s1) :
    scanLoop E s (c :: cs) = scanLoop E s1 cs := by
  simp [scanLoop, ha, h]

theorem scanLoop_cons_thrown {σ : Type} (E : GExecutor σ) (s s1 : St σ) (c : Char) (cs : Str)
    (e : JSError) (ha : s.abort = false) (h : step E s c = Res.thrown e s1) :
    scanLoop E s (c :: cs) = Res.thrown e s1 := by
  simp [scanLoop, ha, h]

theorem scanLoop_append_ok {σ : Type} (E : GExecutor σ) (a b : Str) :
    ∀ (s s1 : St σ), scanLoop E s a = Res.ok s1 → scanLoop E s (a ++ b) = scanLoop E s1 b := by
  induction a with
  | nil => intro s s1 h; simp [scanLoop] at h; subst h; rfl
  | cons c cs ih =>
    intro s s1 h
    by_cases ha : s.abort = true
    · rw [scanLoop_of_abort E s _ ha] at h
      rw [scanLoop_of_abort E s _ ha]
      cases h
      exact (scanLoop_of_abort E s b ha).symm
    · have ha2 : s.abort = false := by simpa using ha
      cases hst : step E s c with
      | ok s2 =>
        rw [scanLoop_cons_ok E s s2 c cs ha2 hst] at h
        rw [List.cons_append, scanLoop_cons_ok E s s2 c _ ha2 hst]
        exact ih s2 s1 h
      | thrown e s2 =>
        rw [scanLoop_cons_thrown E s s2 c cs e ha2 hst] at h
        cases h

theorem scanLoop_append_thrown {σ : Type} (E : GExecutor σ) (a b : Str) (e : JSError) :
    ∀ (s s1 : St σ), scanLoop E s a = Res.thrown e s1 →
      scanLoop E s (a ++ b) = Res.thrown e s1 := by
  induction a with
  | nil => intro s s1 h; simp [scanLoop] at h
  | cons c cs ih =>
    intro s s1 h
    by_cases ha : s.abort = true
    · rw [scanLoop_of_abort E s _ ha] at h
      cases h
    · have ha2 : s.abort = false := by simpa using ha
      cases hst : step E s c with
      | ok s2 =>
        rw [scanLoop_cons_ok E s s2 c cs ha2 hst] at h
        rw [List.cons_append, scanLoop_cons_ok E s s2 c _ ha2 hst]
        exact ih s2 s1 h
      | thrown e2 s2 =>
        rw [scanLoop_cons_thrown E s s2 c cs e2 ha2 hst] at h
        rw [List.cons_append, scanLoop_cons_thrown E s s2 c _ e2 ha2 hst]
        exact h

/-! ## Effect of the helpers on the context part and on the call log -/

theorem state_toRes {α σ : Type} (r : Ret α σ) : r.toRes.state = r.state := by
  cases r <;> rfl

theorem ctxOf_finalizeBuffer {σ : Type} (s : St σ) (f : Bool) :
    ctxOf (_finalizeBuffer s f) = ctxOf s := by
  unfold _finalizeBuffer ctxOf
  split_ifs <;> rfl

theorem calls_finalizeBuffer {σ : Type} (s : St σ) (f : Bool) :
    (_finalizeBuffer s f).calls = s.calls := by
  unfold _finalizeBuffer
  split_ifs <;> rfl

theorem ctxOf_exec {σ : Type} (E : GExecutor σ) (s : St σ) (i : List JSValue) (c : Bool) :
    ctxOf (_exec E s i c).state = ctxOf s := by
  simp only [_exec]
  split_ifs <;> rfl

theorem exec_inactive_state {σ : Type} (E : GExecutor σ) (s : St σ) (i : List JSValue)
    (c : Bool) (h : s.contextIsActive = false) : (_exec E s i c).state = s := by
  simp only [_exec]
  rw [if_pos h]
  split_ifs <;> rfl

theorem exec_inactive {σ : Type} (E : GExecutor σ) (s : St σ) (i : List JSValue) (c : Bool)
    (hs : canStringifyAll i = true) (h : s.contextIsActive = false) :
    _exec E s i c = Ret.ret JSValue.null s := by
  simp only [_exec]
  rw [if_neg (by simp [hs]), if_pos h]

theorem exec_inactive_ret {σ : Type} (E : GExecutor σ) (s s1 : St σ) (i : List JSValue)
    (c : Bool) (v : JSValue) (h : s.contextIsActive = false)
    (hx : _exec E s i c = Ret.ret v s1) : v = JSValue.null := by
  simp only [_exec] at hx
  rw [if_pos h] at hx
  split_ifs at hx
  cases hx
  rfl

/-- The state `_finalizeInstructionToExec` ends in: the state it started in (no
instruction pending), the state `_exec` threw in, or the state `_exec` returned in
with the instruction reset. -/
theorem finalizeInstructionToExec_state {σ : Type} (E : GExecutor σ) (s : St σ) (c : Bool) :
    (_finalizeInstructionToExec E s c).state = s ∨
    (_finalizeInstructionToExec E s c).state = (_exec E s s.currentInstructionComponents c).state ∨
    (_finalizeInstructionToExec E s c).state =
      { (_exec E s s.currentInstructionComponents c).state with
        currentInstructionComponents := [], interpretingInstruction := false } := by
  unfold _finalizeInstructionToExec
  split_ifs with h
  · cases hx : _exec E s s.currentInstructionComponents c with
    | ret v s1 => right; right; rfl
    | thrown e s1 => right; left; rfl
  · left; rfl

theorem ctxOf_finalizeInstructionToExec {σ : Type} (E : GExecutor σ) (s : St σ) (c : Bool) :
    ctxOf (_finalizeInstructionToExec E s c).state = ctxOf s := by
  rcases finalizeInstructionToExec_state E s c with h | h | h
  · rw [h]
  · rw [h]; exact ctxOf_exec E s _ c
  · rw [h]; exact ctxOf_exec E s _ c

theorem calls_finalizeInstructionToExec_inactive {σ : Type} (E : GExecutor σ) (s : St σ)
    (c : Bool) (hi : s.contextIsActive = false) :
    (_finalizeInstructionToExec E s c).state.calls = s.calls := by
  rcases finalizeInstructionToExec_state E s c with h | h | h
  · rw [h]
  · rw [h, exec_inactive_state E s _ c hi]
  · rw [h, exec_inactive_state E s _ c hi]

/-- The two ways `_finalizeInstructionToExec` can end; in an inactive context a
returned value is `null`. -/
theorem finalizeInstructionToExec_cases {σ : Type} (E : GExecutor σ) (s : St σ) (c : Bool) :
    (∃ v s1, _finalizeInstructionToExec E s c = Ret.ret v s1 ∧
      (s.contextIsActive = false → v = JSValue.null)) ∨
    (∃ e s1, _finalizeInstructionToExec E s c = Ret.thrown e s1) := by
  unfold _finalizeInstructionToExec
  split_ifs with h
  · cases hx : _exec E s s.currentInstructionComponents c with
    | ret v s1 =>
      left
      exact ⟨_, _, rfl, fun hi => exec_inactive_ret E s s1 _ c v hi hx⟩
    | thrown e s1 => right; exact ⟨_, _, rfl⟩
  · right; exact ⟨_, _, rfl⟩

theorem ctxOf_stepVariableEnd {σ : Type} (E : GExecutor σ) (s : St σ) (c : Char) :
    ctxOf (stepVariableEnd E s c).state = ctxOf s := by
  have hb : ctxOf (_finalizeBuffer { s with readingLiteral := false } false) = ctxOf s := by
    rw [ctxOf_finalizeBuffer]; rfl
  unfold stepVariableEnd
  simp only [_eatBuffer]
  split_ifs with h1 h2
  · exact hb
  · rw [state_toRes, ctxOf_finalizeInstructionToExec]; exact hb
  · exact hb

theorem execCalls_stepVariableEnd_inactive {σ : Type} (E : GExecutor σ) (s : St σ) (c : Char)
    (hi : s.contextIsActive = false) :
    execCalls (stepVariableEnd E s c).state.calls = execCalls s.calls := by
  have hb : ctxOf (_finalizeBuffer { s with readingLiteral := false } false) = ctxOf s := by
    rw [ctxOf_finalizeBuffer]; rfl
  have hb2 : (_finalizeBuffer { s with readingLiteral := false } false).contextIsActive
      = false := by
    have := congrArg (fun x => x.2.2.2.2) hb
    simpa [ctxOf, hi] using this
  have hc : (_finalizeBuffer { s with readingLiteral := false } false).calls = s.calls := by
    rw [calls_finalizeBuffer]
  unfold stepVariableEnd
  simp only [_eatBuffer]
  split_ifs with h1 h2
  · simp only [Res.state, hc, execCalls_append, execCalls, List.append_nil]
  · rw [state_toRes, calls_finalizeInstructionToExec_inactive _ _ _ (by exact hb2)]
    simp only [hc, execCalls_append, execCalls, List.append_nil]
  · simp only [Res.state, hc, execCalls_append, execCalls, List.append_nil]

theorem ctxOf_writeToBuffer {σ : Type} (s : St σ) (c : Char) :
    ctxOf (writeToBuffer s c) = ctxOf s := rfl

theorem stepContextOpen_ctx_cases {σ : Type} (E : GExecutor σ) (s : St σ) :
    ctxOf (stepContextOpen E s).state = ctxOf s ∨
    (∃ b, OpenedFrom s (stepContextOpen E s).state b ∧ (s.contextIsActive = false → b = false)) := by
  unfold stepContextOpen
  split_ifs
  · left; rfl
  · have hc := ctxOf_finalizeInstructionToExec E s true
    rcases finalizeInstructionToExec_cases E s true with ⟨v, s1, h, hi⟩ | ⟨e, s1, h⟩
    · right
      rw [h] at hc ⊢
      refine ⟨v.truthy, ?_, ?_⟩
      · simp only [ctxOf, Ret.state, Prod.mk.injEq] at hc
        have hf := ctxOf_finalizeBuffer
          { s1 with
            contextIdGenerator := s1.contextIdGenerator + 1
            contextStack := s1.currentContextId :: s1.contextStack
            contextActivations := (s1.contextIdGenerator, v.truthy) :: s1.contextActivations
            currentContextId := s1.contextIdGenerator
            contextIsActive := v.truthy } false
        simp only [ctxOf, Prod.mk.injEq] at hf
        simp only [Res.state, OpenedFrom]
        rw [hf.1, hf.2.1, hf.2.2.1, hf.2.2.2.1, hf.2.2.2.2, hc.1, hc.2.1, hc.2.2.1, hc.2.2.2.1]
        exact ⟨rfl, rfl, rfl, rfl, rfl⟩
      · intro hina
        rw [hi hina]; rfl
    · left; rw [h] at hc ⊢; exact hc

theorem stepContextClose_ctx_cases {σ : Type} (s : St σ) :
    ctxOf (stepContextClose s).state = ctxOf s ∨ ClosedFrom s (stepContextClose s).state := by
  unfold stepContextClose
  split
  · left; rfl
  · right
    rename_i p rest hs
    refine ⟨p, rest, hs, ?_⟩
    have hf := ctxOf_finalizeBuffer
      { s with
        contextStack := rest
        currentContextId := p
        contextIsActive := (lookupActivation s.contextActivations p).getD false } false
    simp only [ctxOf, Prod.mk.injEq] at hf
    simp only [Res.state]
    rw [hf.1, hf.2.1, hf.2.2.1, hf.2.2.2.1, hf.2.2.2.2]
    exact ⟨rfl, rfl, rfl, rfl, rfl⟩

theorem stepFree_ctx_cases {σ : Type} (E : GExecutor σ) (s : St σ) (c : Char) :
    ctxOf (stepFree E s c).state = ctxOf s ∨
    (∃ b, OpenedFrom s (stepFree E s c).state b ∧ (s.contextIsActive = false → b = false)) ∨
    ClosedFrom s (stepFree E s c).state := by
  unfold stepFree
  by_cases h1 : c = T_INSTRUCTION_END
  · rw [if_pos h1]; left
    rw [state_toRes, ctxOf_finalizeInstructionToExec, ctxOf_finalizeBuffer]
  rw [if_neg h1]
  by_cases h2 : c = T_NEW_LINE
  · rw [if_pos h2]; left; split_ifs <;> rfl
  rw [if_neg h2]
  by_cases h3 : c = T_COMMENT
  · rw [if_pos h3]; left; split_ifs <;> rfl
  rw [if_neg h3]
  by_cases h4 : c = T_CONTEXT_OPEN
  · rw [if_pos h4]
    rcases stepContextOpen_ctx_cases E s with h | h
    · exact Or.inl h
    · exact Or.inr (Or.inl h)
  rw [if_neg h4]
  by_cases h5 : c = T_CONTEXT_CLOSE
  · rw [if_pos h5]
    rcases stepContextClose_ctx_cases s with h | h
    · exact Or.inl h
    · exact Or.inr (Or.inr h)
  rw [if_neg h5]
  by_cases h6 : c = T_STRING_DOUBLE_QUOTE ∨ c = T_STRING_SINGLE_QUOTE
  · rw [if_pos h6]; left; rfl
  rw [if_neg h6]
  by_cases h7 : c = T_SPACE
  · rw [if_pos h7]; left; exact ctxOf_finalizeBuffer s true
  rw [if_neg h7]
  by_cases h8 : c = T_VARIABLE_INDICATOR
  · rw [if_pos h8]; left; split_ifs <;> rfl
  rw [if_neg h8]
  left; rfl

theorem step_ctx_cases {σ : Type} (E : GExecutor σ) (s : St σ) (c : Char) :
    ctxOf (step E s c).state = ctxOf s ∨
    (∃ b, OpenedFrom s (step E s c).state b ∧ (s.contextIsActive = false → b = false)) ∨
    ClosedFrom s (step E s c).state := by
  unfold step
  split_ifs
  · left; rfl
  · left; exact ctxOf_stepVariableEnd E s c
  · left; rfl
  · left; rfl
  · left; rfl
  · left; simp only [Res.state]; rw [ctxOf_finalizeBuffer]; rfl
  · left; rfl
  · left; simp only [Res.state]; rw [ctxOf_finalizeBuffer]
  · left; rfl
  · exact stepFree_ctx_cases E s c

theorem stepFree_execCalls_inactive {σ : Type} (E : GExecutor σ) (s : St σ) (c : Char)
    (hi : s.contextIsActive = false) :
    execCalls (stepFree E s c).state.calls = execCalls s.calls := by
  unfold stepFree
  by_cases h1 : c = T_INSTRUCTION_END
  · rw [if_pos h1]
    have h1 : (_finalizeBuffer s true).contextIsActive = false := by
      have := congrArg (fun x => x.2.2.2.2) (ctxOf_finalizeBuffer s true)
      simpa [ctxOf, hi] using this
    rw [state_toRes, calls_finalizeInstructionToExec_inactive _ _ _ h1, calls_finalizeBuffer]
  rw [if_neg h1]
  by_cases h2 : c = T_NEW_LINE
  · rw [if_pos h2]; split_ifs <;> rfl
  rw [if_neg h2]
  by_cases h3 : c = T_COMMENT
  · rw [if_pos h3]; split_ifs <;> rfl
  rw [if_neg h3]
  by_cases h4 : c = T_CONTEXT_OPEN
  · rw [if_pos h4]
    unfold stepContextOpen
    split_ifs
    · rfl
    · have hc := calls_finalizeInstructionToExec_inactive E s true hi
      rcases finalizeInstructionToExec_cases E s true with ⟨v, s1, h, -⟩ | ⟨e, s1, h⟩
      · rw [h] at hc ⊢
        simp only [Res.state, Ret.state] at hc ⊢
        rw [calls_finalizeBuffer]
        exact congrArg execCalls hc
      · rw [h] at hc ⊢
        exact congrArg execCalls hc
  rw [if_neg h4]
  by_cases h5 : c = T_CONTEXT_CLOSE
  · rw [if_pos h5]
    unfold stepContextClose
    split
    · rfl
    · simp only [Res.state]; rw [calls_finalizeBuffer]
  rw [if_neg h5]
  by_cases h6 : c = T_STRING_DOUBLE_QUOTE ∨ c = T_STRING_SINGLE_QUOTE
  · rw [if_pos h6]; rfl
  rw [if_neg h6]
  by_cases h7 : c = T_SPACE
  · rw [if_pos h7]; simp only [Res.state]; rw [calls_finalizeBuffer]
  rw [if_neg h7]
  by_cases h8 : c = T_VARIABLE_INDICATOR
  · rw [if_pos h8]; split_ifs <;> rfl
  rw [if_neg h8]
  rfl

theorem step_execCalls_inactive {σ : Type} (E : GExecutor σ) (s : St σ) (c : Char)
    (hi : s.contextIsActive = false) :
    execCalls (step E s c).state.calls = execCalls s.calls := by
  unfold step
  split_ifs
  · rfl
  · exact execCalls_stepVariableEnd_inactive E s c hi
  · rfl
  · rfl
  · rfl
  · simp only [Res.state]; rw [calls_finalizeBuffer]
  · rfl
  · simp only [Res.state]; rw [calls_finalizeBuffer]
  · rfl
  · exact stepFree_execCalls_inactive E s c hi

/-! ## Inactive regions -/

theorem lookupActivation_cons_self (m : List (Nat × Bool)) (k : Nat) (v : Bool) :
    lookupActivation ((k, v) :: m) k = some v := by
  simp [lookupActivation]

theorem lookupActivation_cons_ne (m : List (Nat × Bool)) (k id : Nat) (v : Bool) (h : id ≠ k) :
    lookupActivation ((k, v) :: m) id = lookupActivation m id := by
  simp [lookupActivation, Ne.symm h]

theorem inactiveRegion_of_ctxOf_eq {σ : Type} (d : Nat) (s t : St σ) (h : ctxOf t = ctxOf s)
    (hs : InactiveRegion d s) : InactiveRegion d t := by
  simp only [ctxOf, Prod.mk.injEq] at h
  obtain ⟨h1, h2, h3, h4, h5⟩ := h
  unfold InactiveRegion at hs ⊢
  rw [h1, h2, h3, h4, h5]
  exact hs

theorem inactiveRegion_step {σ : Type} (E : GExecutor σ) (d : Nat) (s : St σ) (c : Char)
    (hs : InactiveRegion d s) (hd : d ≤ (step E s c).state.contextStack.length) :
    InactiveRegion d (step E s c).state := by
  rcases step_ctx_cases E s c with h | ⟨b, ho, hb⟩ | ⟨p, rest, hst, h1, h2, h3, h4, h5⟩
  · exact inactiveRegion_of_ctxOf_eq d s _ h hs
  · obtain ⟨ha, hl, hc, hlen, hall⟩ := hs
    obtain ⟨o1, o2, o3, o4, o5⟩ := ho
    have hbf : b = false := hb ha
    subst hbf
    refine ⟨o5, ?_, ?_, ?_, ?_⟩
    · rw [o2, o3]; exact lookupActivation_cons_self _ _ _
    · rw [o3, o4]; exact Nat.lt_succ_self _
    · rw [o1]; exact Nat.le_succ_of_le hlen
    · intro id hid
      rw [o1] at hid
      have hk : (s.currentContextId :: s.contextStack).length - d
          = (s.contextStack.length - d) + 1 := by
        simp only [List.length_cons]; omega
      rw [hk, List.take_succ_cons] at hid
      rw [o2, o4]
      rcases List.mem_cons.mp hid with hid | hid
      · subst hid
        rw [lookupActivation_cons_ne _ _ _ _ (Nat.ne_of_lt hc)]
        exact ⟨hl, Nat.lt_succ_of_lt hc⟩
      · have := hall id hid
        rw [lookupActivation_cons_ne _ _ _ _ (Nat.ne_of_lt this.2)]
        exact ⟨this.1, Nat.lt_succ_of_lt this.2⟩
  · obtain ⟨ha, hl, hc, hlen, hall⟩ := hs
    rw [h1] at hd
    have hk : s.contextStack.length - d = (rest.length - d) + 1 := by
      rw [hst]; simp only [List.length_cons]; omega
    have hp := hall p (by rw [hk, hst, List.take_succ_cons]; exact List.mem_cons_self _ _)
    refine ⟨?_, ?_, ?_, ?_, ?_⟩
    · rw [h5, hp.1]; rfl
    · rw [h2, h3]; exact hp.1
    · rw [h3, h4]; exact hp.2
    · rw [h1]; exact hd
    · intro id hid
      rw [h1] at hid
      rw [h2, h4]
      apply hall id
      rw [hk, hst, List.take_succ_cons]
      exact List.mem_cons_of_mem _ hid

theorem inactiveRegion_scanLoop {σ : Type} (E : GExecutor σ) (d : Nat) (body : Str) :
    ∀ s : St σ, InactiveRegion d s →
      (∀ k, k ≤ body.length → d ≤ (scanLoop E s (body.take k)).state.contextStack.length) →
      InactiveRegion d (scanLoop E s body).state ∧
        execCalls (scanLoop E s body).state.calls = execCalls s.calls := by
  induction body with
  | nil => intro s hs _; exact ⟨hs, rfl⟩
  | cons c rest ih =>
    intro s hs hd
    by_cases ha : s.abort = true
    · rw [scanLoop_of_abort E s _ ha]; exact ⟨hs, rfl⟩
    · have ha2 : s.abort = false := by simpa using ha
      have hcalls := step_execCalls_inactive E s c hs.1
      have h1 := hd 1 (by simp)
      cases hst : step E s c with
      | ok s1 =>
        rw [hst] at hcalls
        have hreg : InactiveRegion d s1 := by
          have := inactiveRegion_step E d s c hs
          rw [hst] at this
          apply this
          simpa [scanLoop, ha2, hst] using h1
        rw [scanLoop_cons_ok E s s1 c rest ha2 hst]
        have := ih s1 hreg (by
          intro k hk
          have := hd (k + 1) (by simpa using hk)
          rwa [List.take_succ_cons, scanLoop_cons_ok E s s1 c _ ha2 hst] at this)
        exact ⟨this.1, this.2.trans hcalls⟩
      | thrown e s1 =>
        rw [hst] at hcalls
        rw [scanLoop_cons_thrown E s s1 c rest e ha2 hst]
        refine ⟨?_, hcalls⟩
        have := inactiveRegion_step E d s c hs
        rw [hst] at this
        apply this
        simpa [scanLoop, ha2, hst] using h1

/-! ## Reading a character in free mode -/

theorem step_of_freeMode {σ : Type} (E : GExecutor σ) (s : St σ) (c : Char) (hf : FreeMode s)
    (h1 : c ≠ T_SPACE) (h2 : c ≠ T_RETURN) : step E s c = stepFree E s c := by
  obtain ⟨hv, hl, hc⟩ := hf
  unfold step
  rw [if_neg (by simp [h1, h2]), if_neg (by simp [hv]), if_neg (by simp [hl]),
    if_neg (by simp [hc])]

theorem step_space_of_freeMode {σ : Type} (E : GExecutor σ) (s : St σ) (hf : FreeMode s)
    (h1 : lastChar s ≠ some T_SPACE) : step E s T_SPACE = Res.ok (_finalizeBuffer s true) := by
  obtain ⟨hv, hl, hc⟩ := hf
  have hskip : ¬(s.readingLiteral = false ∧
      ((lastChar s = some T_SPACE ∧ T_SPACE = T_SPACE) ∨ T_SPACE = T_RETURN)) := by
    rintro ⟨-, ⟨h, -⟩ | h⟩
    · exact h1 h
    · exact absurd h (by decide)
  unfold step
  rw [if_neg hskip, if_neg (by simp [hv]), if_neg (by simp [hl]), if_neg (by simp [hc])]
  unfold stepFree
  rw [if_neg (by decide), if_neg (by decide), if_neg (by decide), if_neg (by decide),
    if_neg (by decide), if_neg (by decide), if_pos rfl]

theorem stepContextOpen_ok {σ : Type} (E : GExecutor σ) (s t : St σ)
    (h : stepContextOpen E s = Res.ok t) : OpenedFrom s t t.contextIsActive := by
  unfold stepContextOpen at h
  split_ifs at h with h1
  have h2 := ctxOf_finalizeInstructionToExec E s true
  rcases finalizeInstructionToExec_cases E s true with ⟨v, s1, hr, -⟩ | ⟨e, s1, hr⟩
  · rw [hr] at h h2
    simp only [Res.ok.injEq] at h
    have hf := ctxOf_finalizeBuffer
        { s1 with
          contextIdGenerator := s1.contextIdGenerator + 1
          contextStack := s1.currentContextId :: s1.contextStack
          contextActivations := (s1.contextIdGenerator, v.truthy) :: s1.contextActivations
          currentContextId := s1.contextIdGenerator
          contextIsActive := v.truthy } false
    rw [h] at hf
    simp only [ctxOf, Ret.state, Prod.mk.injEq] at hf h2
    unfold OpenedFrom
    rw [hf.1, hf.2.1, hf.2.2.1, hf.2.2.2.1, hf.2.2.2.2, h2.1, h2.2.1, h2.2.2.1, h2.2.2.2.1]
    exact ⟨rfl, rfl, rfl, rfl, rfl⟩
  · rw [hr] at h; cases h

theorem step_contextOpen_ok {σ : Type} (E : GExecutor σ) (s t : St σ) (hf : FreeMode s)
    (h : step E s T_CONTEXT_OPEN = Res.ok t) : OpenedFrom s t t.contextIsActive := by
  rw [step_of_freeMode E s _ hf (by decide) (by decide)] at h
  unfold stepFree at h
  rw [if_neg (by decide), if_neg (by decide), if_neg (by decide), if_pos rfl] at h
  exact stepContextOpen_ok E s t h

theorem inactiveRegion_of_opened {σ : Type} (s t : St σ) (h : OpenedFrom s t false) :
    InactiveRegion t.contextStack.length t := by
  obtain ⟨o1, o2, o3, o4, o5⟩ := h
  refine ⟨o5, ?_, ?_, Nat.le_refl _, ?_⟩
  · rw [o2, o3]; exact lookupActivation_cons_self _ _ _
  · rw [o3, o4]; exact Nat.lt_succ_self _
  · intro id hid
    simp at hid

/-! ## C1 -/

/-- C1 (amended). Every `executeCommand` call happens while the current context is
active: in an inactive context `_exec` leaves the state as it is, so it makes no
call, and it returns the falsy `null` whenever `JSON.stringify` accepts the
components of the instruction; a loop iteration that starts in an inactive context
adds no `executeCommand` call. Consequently, after a context-open delimiter read
in free mode that opens an inactive context, no `executeCommand` call is made for
as long as the scan stays inside that context (the stack never drops below its
height right after the open), at any nesting depth, and the current context is
still inactive there. -/
theorem inactive_context_never_reaches_executeCommand {σ : Type} (E : GExecutor σ) :
    (∀ (s : St σ) (instr : List JSValue) (conditional : Bool), s.contextIsActive = false →
      (_exec E s instr conditional).state = s ∧
      (canStringifyAll instr = true →
        _exec E s instr conditional = Ret.ret JSValue.null s) ∧
      JSValue.null.truthy = false) ∧
    (∀ (s : St σ) (c : Char), s.contextIsActive = false →
      execCalls (step E s c).state.calls = execCalls s.calls) ∧
    (∀ (s1 s2 : St σ) (body : Str), FreeMode s1 → step E s1 T_CONTEXT_OPEN = Res.ok s2 →
      s2.contextIsActive = false →
      (∀ k, k ≤ body.length →
        s2.contextStack.length ≤ (scanLoop E s2 (body.take k)).state.contextStack.length) →
      execCalls (scanLoop E s2 body).state.calls = execCalls s2.calls ∧
        (scanLoop E s2 body).state.contextIsActive = false) := by
  refine ⟨?_, ?_, ?_⟩
  · intro s instr conditional h
    exact ⟨exec_inactive_state E s instr conditional h,
      fun hs => exec_inactive E s instr conditional hs h, rfl⟩
  · intro s c h
    exact step_execCalls_inactive E s c h
  · intro s1 s2 body hf hstep hina hdepth
    have ho := step_contextOpen_ok E s1 s2 hf hstep
    rw [hina] at ho
    have hreg := inactiveRegion_of_opened s1 s2 ho
    have := inactiveRegion_scanLoop E _ body s2 hreg hdepth
    exact ⟨this.2, this.1.1⟩

/-- Counterexample for C1 as stated: with the variable `o` bound to a circular
object, the instruction `say $o;` inside the inactive block of `no \x7b say $o; \x7d`
does not dispatch with a falsy result: the run ends there with the `TypeError` of
`JSON.stringify`, in the inactive context, after the guard and the lookup of `o`. -/
theorem inactive_dispatch_counterexample :
    (run oddExecutor () "no \x7b say $o; \x7d".toList).error = some JSError.typeError ∧
      (run oddExecutor () "no \x7b say $o; \x7d".toList).state.calls =
        [Call.executeCommand [JSValue.str "no".toList], Call.getVariable "o".toList] ∧
      (run oddExecutor () "no \x7b say $o; \x7d".toList).state.contextIsActive = false := by
  decide

/-- Witness for C1: after `no ` and the context-open delimiter (the guard returns a
falsy result), the nested text ` a \x7b b; \x7d c; ` makes no `executeCommand` call. -/
theorem inactive_context_witness :
    execCalls (scanLoop demoExecutor demoOpened " a \x7b b; \x7d c; ".toList).state.calls
        = execCalls demoOpened.calls ∧
      (scanLoop demoExecutor demoOpened " a \x7b b; \x7d c; ".toList).state.contextIsActive
        = false :=
  (inactive_context_never_reaches_executeCommand demoExecutor).2.2 demoBeforeOpen demoOpened
    " a \x7b b; \x7d c; ".toList (by decide) (by rfl) (by decide) (by decide)

/-! ## Barewords and spaces in free mode -/

theorem isBarewordChar_spec (c : Char) (h : isBarewordChar c = true) :
    isWhiteSpace c = false ∧ c ≠ T_INSTRUCTION_END ∧ c ≠ T_COMMENT ∧ c ≠ T_CONTEXT_OPEN ∧
      c ≠ T_CONTEXT_CLOSE ∧ c ≠ T_STRING_DOUBLE_QUOTE ∧ c ≠ T_STRING_SINGLE_QUOTE ∧
      c ≠ T_VARIABLE_INDICATOR := by
  simpa [isBarewordChar, and_assoc] using h

theorem ne_of_not_whiteSpace (c d : Char) (h : isWhiteSpace c = false)
    (hd : isWhiteSpace d = true) : c ≠ d := by
  intro hcd; rw [hcd, hd] at h; cases h

theorem stepFree_bareword {σ : Type} (E : GExecutor σ) (s : St σ) (c : Char)
    (h : isBarewordChar c = true) : stepFree E s c = Res.ok (writeToBuffer s c) := by
  obtain ⟨hw, h1, h2, h3, h4, h5, h6, h7⟩ := isBarewordChar_spec c h
  have hn : c ≠ T_NEW_LINE := ne_of_not_whiteSpace c _ hw (by decide)
  have hs : c ≠ T_SPACE := ne_of_not_whiteSpace c _ hw (by decide)
  unfold stepFree
  rw [if_neg h1, if_neg hn, if_neg h2, if_neg h3, if_neg h4,
    if_neg (by rintro (h | h); exact h5 h; exact h6 h), if_neg hs, if_neg h7]

theorem step_bareword {σ : Type} (E : GExecutor σ) (s : St σ) (c : Char) (hf : FreeMode s)
    (h : isBarewordChar c = true) : step E s c = Res.ok (writeToBuffer s c) := by
  have hw := (isBarewordChar_spec c h).1
  rw [step_of_freeMode E s c hf (ne_of_not_whiteSpace c _ hw (by decide))
    (ne_of_not_whiteSpace c _ hw (by decide))]
  exact stepFree_bareword E s c h

theorem writeAll_nil {σ : Type} (s : St σ) : writeAll s [] = s := by
  cases s; simp [writeAll]

theorem writeAll_cons {σ : Type} (s : St σ) (c : Char) (w : Str) :
    writeAll s (c :: w) = writeAll (writeToBuffer s c) w := by
  simp [writeAll, writeToBuffer]
  omega

theorem scanLoop_bareword {σ : Type} (E : GExecutor σ) (w rest : Str) :
    ∀ s : St σ, FreeMode s → s.abort = false → (∀ c ∈ w, isBarewordChar c = true) →
      scanLoop E s (w ++ rest) = scanLoop E (writeAll s w) rest := by
  induction w with
  | nil => intro s _ _ _; rw [writeAll_nil]; rfl
  | cons c w ih =>
    intro s hf ha hw
    rw [List.cons_append, scanLoop_cons_ok E s _ c _ ha
      (step_bareword E s c hf (hw c (List.mem_cons_self _ _))), writeAll_cons]
    exact ih (writeToBuffer s c) hf ha (fun d hd => hw d (List.mem_cons_of_mem _ hd))

theorem lastChar_mem {σ : Type} (s : St σ) (c : Char) (h : lastChar s = some c) :
    c ∈ s.buffer := by
  unfold lastChar at h
  split_ifs at h
  exact List.get?_mem h

theorem lastChar_of_nil {σ : Type} (s : St σ) (h : s.buffer = []) : lastChar s = none := by
  unfold lastChar
  rw [if_neg (by simp [h])]

/-! ## Trimming -/

theorem trimStart_eq_self (u : Str) (h : ∀ c, u.head? = some c → isWhiteSpace c = false) :
    trimStart u = u := by
  cases u with
  | nil => rfl
  | cons c u =>
    unfold trimStart
    rw [List.dropWhile_cons_of_neg]
    rw [h c rfl]; simp

theorem trimEnd_eq_self (u : Str) (h : ∀ c, u.getLast? = some c → isWhiteSpace c = false) :
    trimEnd u = u := by
  unfold trimEnd
  have : u.reverse.dropWhile isWhiteSpace = u.reverse := by
    apply trimStart_eq_self
    intro c hc
    apply h c
    rwa [List.head?_reverse] at hc
  rw [this, List.reverse_reverse]

theorem trim_eq_self (u : Str) (h1 : ∀ c, u.head? = some c → isWhiteSpace c = false)
    (h2 : ∀ c, u.getLast? = some c → isWhiteSpace c = false) : trim u = u := by
  unfold trim
  rw [trimStart_eq_self u h1, trimEnd_eq_self u h2]

theorem trim_bareword (w : Str) (h : ∀ c ∈ w, isBarewordChar c = true) : trim w = w := by
  apply trim_eq_self
  · intro c hc
    exact (isBarewordChar_spec c (h c (List.mem_of_mem_head? hc))).1
  · intro c hc
    exact (isBarewordChar_spec c (h c (List.mem_of_getLast?_eq_some hc))).1

/-! ## Flushing a token -/

theorem finalizeBuffer_flush {σ : Type} (s : St σ) (h : (trim s.buffer) ≠ []) :
    _finalizeBuffer s true = withComponent s (JSValue.str (trim s.buffer)) := by
  unfold _finalizeBuffer _getJoinedBuffer
  rw [if_pos ⟨rfl, by simpa using h⟩]
  rfl

theorem finalizeBuffer_empty {σ : Type} (s : St σ) (f : Bool) (h : trim s.buffer = []) :
    _finalizeBuffer s f =
      { s with
        buffer := []
        bufferIdx := 0
        readingComment := false
        readingLiteral := false
        literalInEscapeSequence := false
        literalOpenChar := none } := by
  unfold _finalizeBuffer _getJoinedBuffer
  rw [if_neg (by simp [h])]

theorem finalizeBuffer_resting {σ : Type} (s : St σ) (f : Bool) (h : Resting s) :
    _finalizeBuffer s f = s := by
  obtain ⟨⟨-, h2, h3⟩, h4, h5, h6, h7, -⟩ := h
  rw [finalizeBuffer_empty s f (by rw [h4]; rfl)]
  cases s
  simp_all

theorem resting_withComponent {σ : Type} (s : St σ) (v : JSValue) (hv : s.readingVariable = false)
    (ha : s.abort = false) : Resting (withComponent s v) :=
  ⟨⟨hv, rfl, rfl⟩, rfl, rfl, rfl, rfl, ha⟩

theorem scanLoop_spaces_resting {σ : Type} (E : GExecutor σ) (k : Nat) (rest : Str) :
    ∀ s : St σ, Resting s → scanLoop E s (spaces k ++ rest) = scanLoop E s rest := by
  induction k with
  | zero => intro s _; rfl
  | succ k ih =>
    intro s hs
    have hstep : step E s T_SPACE = Res.ok s := by
      rw [step_space_of_freeMode E s hs.1 (by rw [lastChar_of_nil s hs.2.1]; simp),
        finalizeBuffer_resting s true hs]
    show scanLoop E s (T_SPACE :: (spaces k ++ rest)) = _
    rw [scanLoop_cons_ok E s s T_SPACE _ hs.2.2.2.2.2 hstep]
    exact ih s hs

/-- A bareword followed by one or more spaces, read at rest: the word becomes one
more component of the instruction under assembly. -/
theorem scanLoop_word_spaces {σ : Type} (E : GExecutor σ) (w : Str) (k : Nat) (rest : Str)
    (s : St σ) (hs : Resting s) (hw : Bareword w) :
    scanLoop E s (w ++ spaces (k + 1) ++ rest) =
      scanLoop E (withComponent s (JSValue.str w)) rest := by
  obtain ⟨hf, hb, hi, he, ho, ha⟩ := hs
  rw [List.append_assoc, scanLoop_bareword E w _ s hf ha hw.2]
  have hbuf : (writeAll s w).buffer = w := by simp [writeAll, hb]
  have hlast : lastChar (writeAll s w) ≠ some T_SPACE := by
    intro h
    have := lastChar_mem _ _ h
    rw [hbuf] at this
    exact absurd rfl (ne_of_not_whiteSpace _ T_SPACE (isBarewordChar_spec _ (hw.2 _ this)).1
      (by decide))
  have hstep : step E (writeAll s w) T_SPACE = Res.ok (withComponent s (JSValue.str w)) := by
    rw [step_space_of_freeMode E (writeAll s w) hf hlast, finalizeBuffer_flush _ (by
      rw [hbuf, trim_bareword w hw.2]; exact hw.1), hbuf, trim_bareword w hw.2]
    rfl
  show scanLoop E (writeAll s w) (T_SPACE :: (spaces k ++ rest)) = _
  rw [scanLoop_cons_ok E (writeAll s w) _ T_SPACE _ ha hstep]
  exact scanLoop_spaces_resting E k rest _ (resting_withComponent s _ hf.1 ha)

/-! ## Sequences of words -/

theorem withComponents_nil {σ : Type} (s : St σ) : withComponents s [] = s := by
  cases s; simp [withComponents]

theorem withComponent_eq {σ : Type} (s : St σ) (v : JSValue) (h : Resting s) :
    withComponent s v = withComponents s [v] := by
  obtain ⟨⟨-, h2, h3⟩, h4, h5, h6, h7, -⟩ := h
  cases s
  simp_all [withComponent, withComponents]

theorem withComponents_append {σ : Type} (s : St σ) (a b : List JSValue) :
    withComponents (withComponents s a) b = withComponents s (a ++ b) := by
  cases s
  cases a <;> cases b <;> simp [withComponents]

theorem resting_withComponents {σ : Type} (s : St σ) (vs : List JSValue) (h : Resting s) :
    Resting (withComponents s vs) := h

theorem scanLoop_spacedWords {σ : Type} (E : GExecutor σ) (ws : List (Str × Nat)) (rest : Str) :
    ∀ s : St σ, Resting s → (∀ p ∈ ws, Bareword p.1) →
      scanLoop E s (spacedWords ws ++ rest) =
        scanLoop E (withComponents s (ws.map (fun p => JSValue.str p.1))) rest := by
  induction ws with
  | nil => intro s _ _; rw [List.map_nil, withComponents_nil]; rfl
  | cons p ws ih =>
    intro s hs hw
    obtain ⟨w, k⟩ := p
    have h1 : spacedWords ((w, k) :: ws) ++ rest = w ++ spaces (k + 1) ++ (spacedWords ws ++ rest) := by
      simp [spacedWords, List.append_assoc]
    rw [h1, scanLoop_word_spaces E w k _ s hs (hw (w, k) (List.mem_cons_self _ _)),
      withComponent_eq s _ hs,
      ih _ (resting_withComponents s _ hs) (fun q hq => hw q (List.mem_cons_of_mem _ hq)),
      withComponents_append]
    rfl

/-! ## Dispatching an instruction -/

theorem canStringifyAll_append (a b : List JSValue) :
    canStringifyAll (a ++ b) = (canStringifyAll a && canStringifyAll b) := by
  simp [canStringifyAll]

theorem canStringifyAll_singleton (v : JSValue) : canStringifyAll [v] = v.canStringify := by
  simp [canStringifyAll]

theorem canStringifyAll_strs (ws : List Str) :
    canStringifyAll (ws.map JSValue.str) = true := by
  simp [canStringifyAll, JSValue.canStringify]

theorem canStringifyAll_words (ws : List (Str × Nat)) :
    canStringifyAll (ws.map (fun p => JSValue.str p.1)) = true := by
  rw [show (fun p : Str × Nat => JSValue.str p.1) = JSValue.str ∘ Prod.fst from rfl,
    ← List.map_map]
  exact canStringifyAll_strs _

theorem finalizeInstructionToExec_active {σ : Type} (E : GExecutor σ) (s : St σ)
    (conditional : Bool) (hi : s.interpretingInstruction = true)
    (ha : s.contextIsActive = true)
    (hstr : canStringifyAll s.currentInstructionComponents = true)
    (hres : (E.executeCommand s.ex s.currentInstructionComponents).1.opResult.canStringify
      = true) :
    _finalizeInstructionToExec E s conditional =
      Ret.ret
        (JSValue.bool
          (!(E.executeCommand s.ex s.currentInstructionComponents).1.abortExecution &&
            (E.executeCommand s.ex s.currentInstructionComponents).1.opResult.truthy))
        (dispatched E s conditional) := by
  unfold _finalizeInstructionToExec _exec dispatched
  rw [if_pos hi, if_neg (by simp [hstr]), if_neg (by simp [ha])]
  simp only []
  rw [if_neg (by simp [hres])]
  cases h1 : (E.executeCommand s.ex s.currentInstructionComponents).1.abortExecution <;>
    cases conditional <;> simp [h1]

/-- In an active context an instruction whose result the debug log cannot
serialise is handed to the executor, and the `TypeError` of line 72 follows. -/
theorem finalizeInstructionToExec_active_thrown {σ : Type} (E : GExecutor σ) (s : St σ)
    (conditional : Bool) (hi : s.interpretingInstruction = true)
    (ha : s.contextIsActive = true)
    (hstr : canStringifyAll s.currentInstructionComponents = true)
    (hres : (E.executeCommand s.ex s.currentInstructionComponents).1.opResult.canStringify
      = false) :
    _finalizeInstructionToExec E s conditional = Ret.thrown JSError.typeError (called E s) := by
  unfold _finalizeInstructionToExec _exec called
  rw [if_pos hi, if_neg (by simp [hstr]), if_neg (by simp [ha])]
  simp only []
  rw [if_pos hres]

/-- An instruction the debug log cannot serialise throws the `TypeError` of line 59
before the context is tested and before any call. -/
theorem finalizeInstructionToExec_unserialisable {σ : Type} (E : GExecutor σ) (s : St σ)
    (conditional : Bool) (hi : s.interpretingInstruction = true)
    (hstr : canStringifyAll s.currentInstructionComponents = false) :
    _finalizeInstructionToExec E s conditional = Ret.thrown JSError.typeError s := by
  unfold _finalizeInstructionToExec _exec
  rw [if_pos hi, if_pos hstr]

theorem finalizeInstructionToExec_toRes {σ : Type} (E : GExecutor σ) (s : St σ)
    (conditional : Bool) (hi : s.interpretingInstruction = true)
    (ha : s.contextIsActive = true)
    (hstr : canStringifyAll s.currentInstructionComponents = true) :
    (_finalizeInstructionToExec E s conditional).toRes = dispatchedRes E s conditional := by
  unfold dispatchedRes
  cases hres : (E.executeCommand s.ex s.currentInstructionComponents).1.opResult.canStringify
  · rw [finalizeInstructionToExec_active_thrown E s conditional hi ha hstr hres]
    rfl
  · rw [finalizeInstructionToExec_active E s conditional hi ha hstr hres]
    rfl

theorem finalizeBuffer_writeAll {σ : Type} (s : St σ) (w : Str) (hs : s.buffer = [])
    (hw : Bareword w) : _finalizeBuffer (writeAll s w) true = withComponent s (JSValue.str w) := by
  have hbuf : (writeAll s w).buffer = w := by simp [writeAll, hs]
  rw [finalizeBuffer_flush _ (by rw [hbuf, trim_bareword w hw.2]; exact hw.1), hbuf,
    trim_bareword w hw.2]
  rfl

theorem calls_dispatchedRes {σ : Type} (E : GExecutor σ) (s : St σ) (c : Bool) :
    (dispatchedRes E s c).state.calls =
      s.calls ++ [Call.executeCommand s.currentInstructionComponents] := by
  unfold dispatchedRes
  split_ifs <;> rfl

theorem error_dispatchedRes {σ : Type} (E : GExecutor σ) (s : St σ) (c : Bool)
    (hres : (E.executeCommand s.ex s.currentInstructionComponents).1.opResult.canStringify
      = true) : (dispatchedRes E s c).error = none := by
  unfold dispatchedRes
  rw [if_pos hres]
  rfl

theorem dispatchedRes_ok {σ : Type} (E : GExecutor σ) (s : St σ) (c : Bool)
    (hres : (E.executeCommand s.ex s.currentInstructionComponents).1.opResult.canStringify
      = true) : dispatchedRes E s c = Res.ok (dispatched E s c) := by
  unfold dispatchedRes
  rw [if_pos hres]

theorem canStringifyAll_withComponents {σ : Type} (s : St σ) (vs : List JSValue)
    (h1 : canStringifyAll s.currentInstructionComponents = true)
    (h2 : canStringifyAll vs = true) :
    canStringifyAll (withComponents s vs).currentInstructionComponents = true := by
  show canStringifyAll (s.currentInstructionComponents ++ vs) = true
  rw [canStringifyAll_append, h1, h2]
  rfl

/-- A bareword followed by `;`, read at rest in an active context: the instruction
completed by the word is handed to the executor; the step ends in the dispatch, or
in the `TypeError` of the debug log when the result cannot be serialised. -/
theorem step_word_end {σ : Type} (E : GExecutor σ) (w : Str) (s : St σ)
    (hs : Resting s) (hact : s.contextIsActive = true) (hw : Bareword w)
    (hstr : canStringifyAll s.currentInstructionComponents = true) :
    step E (writeAll s w) T_INSTRUCTION_END =
      dispatchedRes E (withComponents s [JSValue.str w]) false := by
  have hf := hs.1
  rw [step_of_freeMode E (writeAll s w) _ hf (by decide) (by decide)]
  unfold stepFree
  rw [if_pos rfl, finalizeBuffer_writeAll s w hs.2.1 hw, withComponent_eq s _ hs,
    finalizeInstructionToExec_toRes E (withComponents s [JSValue.str w]) false
      (by simp [withComponents]) hact (canStringifyAll_withComponents s _ hstr rfl)]

theorem scanLoop_word_end {σ : Type} (E : GExecutor σ) (w rest : Str) (s : St σ)
    (hs : Resting s) (hact : s.contextIsActive = true) (hw : Bareword w)
    (hstr : canStringifyAll s.currentInstructionComponents = true)
    (hres : (E.executeCommand s.ex
      (s.currentInstructionComponents ++ [JSValue.str w])).1.opResult.canStringify = true) :
    scanLoop E s (w ++ T_INSTRUCTION_END :: rest) =
      scanLoop E (dispatched E (withComponents s [JSValue.str w]) false) rest := by
  have hf := hs.1
  have ha := hs.2.2.2.2.2
  rw [scanLoop_bareword E w _ s hf ha hw.2]
  have hstep := step_word_end E w s hs hact hw hstr
  rw [dispatchedRes_ok E _ false hres] at hstep
  rw [scanLoop_cons_ok E (writeAll s w) _ _ _ ha hstep]

/-- A bareword followed by a final `;`: the scan ends in the outcome of the
dispatch. -/
theorem scanLoop_word_end_res {σ : Type} (E : GExecutor σ) (w : Str) (s : St σ)
    (hs : Resting s) (hact : s.contextIsActive = true) (hw : Bareword w)
    (hstr : canStringifyAll s.currentInstructionComponents = true) :
    scanLoop E s (w ++ [T_INSTRUCTION_END]) =
      dispatchedRes E (withComponents s [JSValue.str w]) false := by
  have hf := hs.1
  have ha := hs.2.2.2.2.2
  rw [scanLoop_bareword E w _ s hf ha hw.2]
  have hstep := step_word_end E w s hs hact hw hstr
  cases hr : dispatchedRes E (withComponents s [JSValue.str w]) false with
  | ok t =>
    rw [hr] at hstep
    rw [scanLoop_cons_ok E (writeAll s w) _ _ _ ha hstep]
    rfl
  | thrown e t =>
    rw [hr] at hstep
    rw [scanLoop_cons_thrown E (writeAll s w) _ _ _ e ha hstep]

/-! ## Variable references -/

theorem step_variable_start {σ : Type} (E : GExecutor σ) (s : St σ) (hs : Resting s) :
    step E s T_VARIABLE_INDICATOR = Res.ok { s with readingVariable := true } := by
  rw [step_of_freeMode E s _ hs.1 (by decide) (by decide)]
  unfold stepFree
  rw [if_neg (by decide), if_neg (by decide), if_neg (by decide), if_neg (by decide),
    if_neg (by decide), if_neg (by decide), if_neg (by decide), if_pos rfl, if_pos hs.2.2.1]

theorem isNameChar_spec (c : Char) (h : isNameChar c = true) :
    c ≠ T_SPACE ∧ c ≠ T_INSTRUCTION_END ∧ c ≠ T_RETURN ∧ c ≠ T_TAB := by
  simpa [isNameChar, and_assoc] using h

theorem step_variable_char {σ : Type} (E : GExecutor σ) (s : St σ) (c : Char)
    (hv : s.readingVariable = true) (hc : isNameChar c = true) :
    step E s c = Res.ok (writeToBuffer s c) := by
  obtain ⟨h1, h2, h3, -⟩ := isNameChar_spec c hc
  unfold step
  rw [if_neg (by rintro ⟨-, ⟨-, h⟩ | h⟩; exact h1 h; exact h3 h), if_pos hv,
    if_neg (by rintro (h | h); exact h1 h; exact h2 h)]

theorem scanLoop_variable_name {σ : Type} (E : GExecutor σ) (name rest : Str) :
    ∀ s : St σ, s.readingVariable = true → s.abort = false →
      (∀ c ∈ name, isNameChar c = true) →
      scanLoop E s (name ++ rest) = scanLoop E (writeAll s name) rest := by
  induction name with
  | nil => intro s _ _ _; rw [writeAll_nil]; rfl
  | cons c w ih =>
    intro s hv ha hw
    rw [List.cons_append, scanLoop_cons_ok E s _ c _ ha
      (step_variable_char E s c hv (hw c (List.mem_cons_self _ _))), writeAll_cons]
    exact ih (writeToBuffer s c) hv ha (fun d hd => hw d (List.mem_cons_of_mem _ hd))

theorem step_variable_end {σ : Type} (E : GExecutor σ) (s : St σ) (c : Char)
    (hv : s.readingVariable = true) (hl : lastChar s ≠ some T_SPACE)
    (hc : c = T_SPACE ∨ c = T_INSTRUCTION_END) : step E s c = stepVariableEnd E s c := by
  unfold step
  rw [if_neg (by
    rintro ⟨-, ⟨h, -⟩ | h⟩
    · exact hl h
    · rcases hc with hc | hc <;> (rw [hc] at h; exact absurd h (by decide))), if_pos hv, if_pos hc]

theorem stepVariableEnd_undefined {σ : Type} (E : GExecutor σ) (s : St σ) (c : Char)
    (h : (E.getVariable s.ex s.buffer).1 = JSValue.undefined) :
    stepVariableEnd E s c = Res.thrown (JSError.error (msgReference s.buffer)) (lookedUp E s) := by
  unfold stepVariableEnd _eatBuffer
  have hb := finalizeBuffer_empty { s with readingLiteral := false } false
  simp only [_finalizeBuffer, Bool.false_eq_true, false_and, if_false] at hb ⊢
  rw [if_pos h]
  rfl

theorem stepVariableEnd_defined_end {σ : Type} (E : GExecutor σ) (s : St σ)
    (h : (E.getVariable s.ex s.buffer).1 ≠ JSValue.undefined) :
    stepVariableEnd E s T_INSTRUCTION_END =
      (_finalizeInstructionToExec E (resolved E s) false).toRes := by
  unfold stepVariableEnd _eatBuffer
  simp only [_finalizeBuffer, Bool.false_eq_true, false_and, if_false]
  rw [if_neg h, if_pos trivial]
  rfl

theorem stepVariableEnd_defined_space {σ : Type} (E : GExecutor σ) (s : St σ)
    (h : (E.getVariable s.ex s.buffer).1 ≠ JSValue.undefined) :
    stepVariableEnd E s T_SPACE = Res.ok (resolved E s) := by
  unfold stepVariableEnd _eatBuffer
  simp only [_finalizeBuffer, Bool.false_eq_true, false_and, if_false]
  rw [if_neg h, if_neg (by decide)]
  rfl

/-! ## Preprocessing of scripts that need none -/

theorem replaceTabs_eq_self (u : Str) (h : ∀ c ∈ u, c ≠ T_TAB) : replaceTabs u = u := by
  unfold replaceTabs
  conv_rhs => rw [← List.map_id u]
  apply List.map_congr_left
  intro c hc
  simp [h c hc]

theorem preProcess_eq_self (u : Str) (h1 : ∀ c, u.head? = some c → isWhiteSpace c = false)
    (h2 : ∀ c, u.getLast? = some c → isWhiteSpace c = false) (h3 : ∀ c ∈ u, c ≠ T_TAB) :
    _preProcess u = u := by
  unfold _preProcess
  rw [trim_eq_self u h1 h2, replaceTabs_eq_self u h3]

theorem mem_spacedWords (ws : List (Str × Nat)) (c : Char) (h : c ∈ spacedWords ws) :
    c = T_SPACE ∨ ∃ p ∈ ws, c ∈ p.1 := by
  induction ws with
  | nil => simp [spacedWords] at h
  | cons p ws ih =>
    obtain ⟨w, k⟩ := p
    simp only [spacedWords, List.mem_append] at h
    rcases h with (h | h) | h
    · exact Or.inr ⟨(w, k), List.mem_cons_self _ _, h⟩
    · left
      unfold spaces at h
      exact (List.mem_replicate.mp h).2
    · rcases ih h with h | ⟨q, hq, hc⟩
      · exact Or.inl h
      · exact Or.inr ⟨q, List.mem_cons_of_mem _ hq, hc⟩

theorem bareword_ne_tab (c : Char) (h : isBarewordChar c = true) : c ≠ T_TAB :=
  ne_of_not_whiteSpace c _ (isBarewordChar_spec c h).1 (by decide)

theorem spacedWords_ne_tab (ws : List (Str × Nat)) (hws : ∀ p ∈ ws, Bareword p.1) (c : Char)
    (h : c ∈ spacedWords ws) : c ≠ T_TAB := by
  rcases mem_spacedWords ws c h with h | ⟨p, hp, hc⟩
  · rw [h]; decide
  · exact bareword_ne_tab c ((hws p hp).2 c hc)

theorem head_spacedWords_append (ws : List (Str × Nat)) (hws : ∀ p ∈ ws, Bareword p.1)
    (t : Str) (ht : ∀ c, t.head? = some c → isWhiteSpace c = false) (c : Char)
    (h : (spacedWords ws ++ t).head? = some c) : isWhiteSpace c = false := by
  cases ws with
  | nil => exact ht c h
  | cons p ws =>
    obtain ⟨w, k⟩ := p
    have hw := hws (w, k) (List.mem_cons_self _ _)
    cases w with
    | nil => exact absurd rfl hw.1
    | cons d w =>
      simp only [spacedWords, List.cons_append, List.head?_cons, Option.some.injEq] at h
      subst h
      exact (isBarewordChar_spec _ (hw.2 _ (List.mem_cons_self _ _))).1

theorem resting_initialState {σ : Type} (ex : σ) : Resting (initialState ex) :=
  ⟨⟨rfl, rfl, rfl⟩, rfl, rfl, rfl, rfl, rfl⟩

theorem isNameChar_of_isAlphanum (c : Char) (h : c.isAlphanum = true) : isNameChar c = true := by
  have h1 : c ≠ T_SPACE := by rintro rfl; exact absurd h (by decide)
  have h2 : c ≠ T_INSTRUCTION_END := by rintro rfl; exact absurd h (by decide)
  have h3 : c ≠ T_RETURN := by rintro rfl; exact absurd h (by decide)
  have h4 : c ≠ T_TAB := by rintro rfl; exact absurd h (by decide)
  simp [isNameChar, h1, h2, h3, h4]

/-! ## C4 -/

theorem run_eq_of_scan {σ : Type} (E : GExecutor σ) (ex0 : σ) (u : Str) (r : Res σ)
    (hp : _preProcess u = u) (hscan : scanLoop E (initialState (E.reset ex0)) u = r)
    (hb : r.state.buffer = []) (hi : r.state.interpretingInstruction = false) :
    run E ex0 u = r := by
  unfold run
  rw [hp, hscan]
  cases r with
  | ok t =>
    simp only [Res.state] at hb hi
    simp [evaluateState, hb, hi]
  | thrown e t => rfl

/-- A script that needs no preprocessing and whose scan ends in a dispatch ends in
the outcome of that dispatch: the end check passes when the dispatch returns. -/
theorem run_eq_of_scan_dispatched {σ : Type} (E : GExecutor σ) (ex0 : σ) (u : Str)
    (s : St σ) (c : Bool) (hp : _preProcess u = u)
    (hscan : scanLoop E (initialState (E.reset ex0)) u = dispatchedRes E s c)
    (hb : s.buffer = []) : run E ex0 u = dispatchedRes E s c := by
  unfold run
  rw [hp, hscan]
  unfold dispatchedRes
  split_ifs
  · simp [evaluateState, dispatched, hb]
  · rfl

/-- The scan of words separated by spaces and closed by `;`, from the initial state. -/
theorem scan_words_end {σ : Type} (E : GExecutor σ) (ex : σ) (ws : List (Str × Nat))
    (hws : ∀ p ∈ ws, Bareword p.1) (wn : Str) (hwn : Bareword wn) :
    scanLoop E (initialState ex) (spacedWords ws ++ wn ++ [T_INSTRUCTION_END]) =
      dispatchedRes E (withComponents (initialState ex)
        (ws.map (fun p => JSValue.str p.1) ++ [JSValue.str wn])) false := by
  rw [List.append_assoc, scanLoop_spacedWords E ws _ _ (resting_initialState ex) hws]
  rw [scanLoop_word_end_res E wn _ (resting_withComponents _ _ (resting_initialState ex)) rfl hwn
      (canStringifyAll_words ws),
    withComponents_append]

/-- The scan of words, each followed by spaces, then `$name;` with a defined
variable whose value can be serialised, from the initial state. -/
theorem scan_words_variable_end {σ : Type} (E : GExecutor σ) (ex : σ) (ws : List (Str × Nat))
    (hws : ∀ p ∈ ws, Bareword p.1) (hne : ws ≠ []) (name : Str)
    (hname : ∀ c ∈ name, isNameChar c = true)
    (hdef : (E.getVariable ex name).1 ≠ JSValue.undefined)
    (hser : (E.getVariable ex name).1.canStringify = true) :
    scanLoop E (initialState ex)
        (spacedWords ws ++ [T_VARIABLE_INDICATOR] ++ name ++ [T_INSTRUCTION_END]) =
      dispatchedRes E (resolved E (writeAll
        { withComponents (initialState ex) (ws.map (fun p => JSValue.str p.1)) with
          readingVariable := true } name)) false := by
  have hrest := resting_withComponents (initialState ex) (ws.map (fun p => JSValue.str p.1))
    (resting_initialState ex)
  rw [List.append_assoc, List.append_assoc,
    scanLoop_spacedWords E ws _ _ (resting_initialState ex) hws]
  show scanLoop E _ (T_VARIABLE_INDICATOR :: (name ++ [T_INSTRUCTION_END])) = _
  rw [scanLoop_cons_ok E _ _ _ _ rfl (step_variable_start E _ hrest),
    scanLoop_variable_name E name _ _ rfl rfl hname]
  have hl : lastChar (writeAll
      { withComponents (initialState ex) (ws.map (fun p => JSValue.str p.1)) with
        readingVariable := true } name) ≠ some T_SPACE := by
    intro h
    have hm := lastChar_mem _ _ h
    simp only [writeAll, withComponents, initialState, List.nil_append] at hm
    exact (isNameChar_spec _ (hname _ hm)).1 rfl
  have hbuf : (writeAll
      { withComponents (initialState ex) (ws.map (fun p => JSValue.str p.1)) with
        readingVariable := true } name).buffer = name := by
    simp [writeAll, withComponents, initialState]
  have hstep : step E (writeAll
      { withComponents (initialState ex) (ws.map (fun p => JSValue.str p.1)) with
        readingVariable := true } name) T_INSTRUCTION_END =
      dispatchedRes E (resolved E (writeAll
        { withComponents (initialState ex) (ws.map (fun p => JSValue.str p.1)) with
          readingVariable := true } name)) false := by
    rw [step_variable_end E _ _ rfl hl (Or.inr rfl), stepVariableEnd_defined_end E _ (by
      rw [hbuf]; exact hdef),
      finalizeInstructionToExec_toRes E _ false (by
        cases ws with
        | nil => exact absurd rfl hne
        | cons p ws => simp [resolved, lookedUp, writeAll, withComponents]) rfl (by
        show canStringifyAll (([] ++ ws.map (fun p => JSValue.str p.1)) ++
          [(E.getVariable ex (writeAll
            { withComponents (initialState ex) (ws.map (fun p => JSValue.str p.1)) with
              readingVariable := true } name).buffer).1]) = true
        rw [hbuf, List.nil_append, canStringifyAll_append, canStringifyAll_words,
          canStringifyAll_singleton, hser]
        rfl)]
  cases hr : dispatchedRes E (resolved E (writeAll
      { withComponents (initialState ex) (ws.map (fun p => JSValue.str p.1)) with
        readingVariable := true } name)) false with
  | ok t =>
    rw [hr] at hstep
    rw [scanLoop_cons_ok E _ _ _ _ rfl hstep]
    rfl
  | thrown e t =>
    rw [hr] at hstep
    rw [scanLoop_cons_thrown E _ _ _ _ e rfl hstep]

/-- C4 (amended). Barewords `w1 .. wn` (`n ≥ 1`) separated by one or more spaces each
and closed by `;` make exactly one executor call, `executeCommand [w1, .., wn]`, and
`run` returns without error when `JSON.stringify` accepts the `opResult` of that
call. When the words are instead followed by one or more spaces, `$name` and `;`,
with `name` non-empty alphanumeric and `getVariable(name)` a defined value `v` that
`JSON.stringify` accepts, the calls are `getVariable(name)` and then the single
`executeCommand [w1, .., wn, v]`, and again `run` returns without error when the
`opResult` can be serialised. -/
theorem words_dispatch_once {σ : Type} (E : GExecutor σ) (ex0 : σ) (ws : List (Str × Nat))
    (hws : ∀ p ∈ ws, Bareword p.1) :
    (∀ wn : Str, Bareword wn →
      (run E ex0 (spacedWords ws ++ wn ++ [T_INSTRUCTION_END])).state.calls =
        [Call.executeCommand (ws.map (fun p => JSValue.str p.1) ++ [JSValue.str wn])] ∧
      ((E.executeCommand (E.reset ex0)
          (ws.map (fun p => JSValue.str p.1) ++ [JSValue.str wn])).1.opResult.canStringify
          = true →
        (run E ex0 (spacedWords ws ++ wn ++ [T_INSTRUCTION_END])).error = none)) ∧
    (∀ (name : Str) (v : JSValue), ws ≠ [] → name ≠ [] →
      (∀ c ∈ name, c.isAlphanum = true) →
      (E.getVariable (E.reset ex0) name).1 = v → v ≠ JSValue.undefined →
      v.canStringify = true →
      (run E ex0
        (spacedWords ws ++ [T_VARIABLE_INDICATOR] ++ name ++ [T_INSTRUCTION_END])).state.calls =
        [Call.getVariable name,
          Call.executeCommand (ws.map (fun p => JSValue.str p.1) ++ [v])] ∧
      ((E.executeCommand (E.getVariable (E.reset ex0) name).2
          (ws.map (fun p => JSValue.str p.1) ++ [v])).1.opResult.canStringify = true →
        (run E ex0
          (spacedWords ws ++ [T_VARIABLE_INDICATOR] ++ name ++ [T_INSTRUCTION_END])).error
          = none)) := by
  constructor
  · intro wn hwn
    have hrun := run_eq_of_scan_dispatched E ex0 (spacedWords ws ++ wn ++ [T_INSTRUCTION_END])
      _ false
      (preProcess_eq_self _
        (by
          intro c hc
          rw [List.append_assoc] at hc
          refine head_spacedWords_append ws hws _ ?_ c hc
          intro d hd
          cases wn with
          | nil => exact absurd rfl hwn.1
          | cons a wn =>
            simp only [List.cons_append, List.head?_cons, Option.some.injEq] at hd
            subst hd
            exact (isBarewordChar_spec _ (hwn.2 _ (List.mem_cons_self _ _))).1)
        (by
          intro c hc
          rw [List.getLast?_append] at hc
          simp at hc
          subst hc; decide)
        (by
          intro c hc
          simp only [List.mem_append, List.mem_singleton] at hc
          rcases hc with (hc | hc) | hc
          · exact spacedWords_ne_tab ws hws c hc
          · exact bareword_ne_tab c (hwn.2 c hc)
          · rw [hc]; decide))
      (scan_words_end E (E.reset ex0) ws hws wn hwn) rfl
    rw [hrun]
    exact ⟨calls_dispatchedRes E _ false, fun hres => error_dispatchedRes E _ false hres⟩
  · intro name v hne hname halnum hv hdef hser
    have hnc : ∀ c ∈ name, isNameChar c = true :=
      fun c hc => isNameChar_of_isAlphanum c (halnum c hc)
    have hrun := run_eq_of_scan_dispatched E ex0
      (spacedWords ws ++ [T_VARIABLE_INDICATOR] ++ name ++ [T_INSTRUCTION_END]) _ false
      (preProcess_eq_self _
        (by
          intro c hc
          rw [List.append_assoc, List.append_assoc] at hc
          refine head_spacedWords_append ws hws _ ?_ c hc
          intro d hd
          simp only [List.singleton_append, List.head?_cons, Option.some.injEq] at hd
          subst hd; decide)
        (by
          intro c hc
          rw [List.getLast?_append] at hc
          simp at hc
          subst hc; decide)
        (by
          intro c hc
          simp only [List.mem_append, List.mem_singleton] at hc
          rcases hc with ((hc | hc) | hc) | hc
          · exact spacedWords_ne_tab ws hws c hc
          · rw [hc]; decide
          · exact (isNameChar_spec c (hnc c hc)).2.2.2
          · rw [hc]; decide))
      (scan_words_variable_end E (E.reset ex0) ws hws hne name hnc (by rw [hv]; exact hdef)
        (by rw [hv]; exact hser))
      rfl
    rw [hrun]
    refine ⟨?_, ?_⟩
    · rw [calls_dispatchedRes]
      simp [resolved, lookedUp, writeAll, withComponents, initialState, hv]
    · intro hres
      refine error_dispatchedRes E _ false ?_
      simpa [resolved, lookedUp, writeAll, withComponents, initialState, hv] using hres

/-- Witness for C4: `move $x;` with `x` bound to `"north"` dispatches `["move", "north"]`
and returns without error. -/
theorem words_dispatch_once_witness :
    (run demoExecutor () "move $x;".toList).state.calls =
        [Call.getVariable "x".toList,
          Call.executeCommand [JSValue.str "move".toList, JSValue.str "north".toList]] ∧
      (run demoExecutor () "move $x;".toList).error = none :=
  ⟨((words_dispatch_once demoExecutor () [("move".toList, 0)] (by decide)).2 "x".toList
      (JSValue.str "north".toList) (by decide) (by decide) (by decide) (by decide) (by decide)
      (by decide)).1,
    ((words_dispatch_once demoExecutor () [("move".toList, 0)] (by decide)).2 "x".toList
      (JSValue.str "north".toList) (by decide) (by decide) (by decide) (by decide) (by decide)
      (by decide)).2 (by decide)⟩

/-- Counterexample for C4 as stated: with the variable `o` bound to a defined value
that is a circular object, `say $o;` makes no `executeCommand` call at all and `run`
fails with the `TypeError` of `JSON.stringify`, as does `say $big;` with `big` bound
to a BigInt; and `say;`, answered with a circular `opResult`, makes its one call and
then fails with the same error. -/
theorem words_dispatch_counterexample :
    (oddExecutor.getVariable () "o".toList).1 ≠ JSValue.undefined ∧
      (run oddExecutor () "say $o;".toList).error = some JSError.typeError ∧
      (run oddExecutor () "say $o;".toList).state.calls = [Call.getVariable "o".toList] ∧
      (run oddExecutor () "say $big;".toList).error = some JSError.typeError ∧
      (run oddExecutor () "say $big;".toList).state.calls = [Call.getVariable "big".toList] ∧
      (run oddExecutor () "say;".toList).error = some JSError.typeError ∧
      (run oddExecutor () "say;".toList).state.calls =
        [Call.executeCommand [JSValue.str "say".toList]] := by
  decide

/-! ## C5 -/

theorem run_eq_of_scan_thrown {σ : Type} (E : GExecutor σ) (ex0 : σ) (u : Str) (e : JSError)
    (t : St σ) (hp : _preProcess u = u)
    (hscan : scanLoop E (initialState (E.reset ex0)) u = Res.thrown e t) :
    run E ex0 u = Res.thrown e t := by
  unfold run
  rw [hp, hscan]

/-- The scan of words, each followed by spaces, then `$name;` with an undefined
variable, from the initial state. -/
theorem scan_words_variable_undefined {σ : Type} (E : GExecutor σ) (ex : σ)
    (ws : List (Str × Nat)) (hws : ∀ p ∈ ws, Bareword p.1) (name : Str)
    (hname : ∀ c ∈ name, isNameChar c = true)
    (hundef : (E.getVariable ex name).1 = JSValue.undefined) :
    scanLoop E (initialState ex)
        (spacedWords ws ++ [T_VARIABLE_INDICATOR] ++ name ++ [T_INSTRUCTION_END]) =
      Res.thrown (JSError.error (msgReference name)) (lookedUp E (writeAll
        { withComponents (initialState ex) (ws.map (fun p => JSValue.str p.1)) with
          readingVariable := true } name)) := by
  have hrest := resting_withComponents (initialState ex) (ws.map (fun p => JSValue.str p.1))
    (resting_initialState ex)
  rw [List.append_assoc, List.append_assoc,
    scanLoop_spacedWords E ws _ _ (resting_initialState ex) hws]
  show scanLoop E _ (T_VARIABLE_INDICATOR :: (name ++ [T_INSTRUCTION_END])) = _
  rw [scanLoop_cons_ok E _ _ _ _ rfl (step_variable_start E _ hrest),
    scanLoop_variable_name E name _ _ rfl rfl hname]
  have hl : lastChar (writeAll
      { withComponents (initialState ex) (ws.map (fun p => JSValue.str p.1)) with
        readingVariable := true } name) ≠ some T_SPACE := by
    intro h
    have hm := lastChar_mem _ _ h
    simp only [writeAll, withComponents, initialState, List.nil_append] at hm
    exact (isNameChar_spec _ (hname _ hm)).1 rfl
  have hbuf : (writeAll
      { withComponents (initialState ex) (ws.map (fun p => JSValue.str p.1)) with
        readingVariable := true } name).buffer = name := by
    simp [writeAll, withComponents, initialState]
  rw [scanLoop_cons_thrown E _ _ _ _ _ rfl (by
    rw [step_variable_end E _ _ rfl hl (Or.inr rfl), stepVariableEnd_undefined E _ _ (by
      rw [hbuf]; exact hundef), hbuf])]

/-- C5. Barewords separated by spaces (one or more, and the proof needs none),
then spaces, `$name` and `;`, where `getVariable(name)` is `undefined`: `run`
throws the reference error whose message names the variable, after the single
call `getVariable(name)`; `executeCommand` is never called, so the instruction
is never dispatched. -/
theorem undefined_variable_reference_error {σ : Type} (E : GExecutor σ) (ex0 : σ)
    (ws : List (Str × Nat)) (name : Str) (hws : ∀ p ∈ ws, Bareword p.1)
    (hname : ∀ c ∈ name, isNameChar c = true)
    (hundef : (E.getVariable (E.reset ex0) name).1 = JSValue.undefined) :
    (run E ex0
      (spacedWords ws ++ [T_VARIABLE_INDICATOR] ++ name ++ [T_INSTRUCTION_END])).error =
      some (JSError.error ("Reference error. Referenced variable $".toList ++ name ++
        " is not defined.".toList)) ∧
    (run E ex0
      (spacedWords ws ++ [T_VARIABLE_INDICATOR] ++ name ++ [T_INSTRUCTION_END])).state.calls =
      [Call.getVariable name] ∧
    execCalls (run E ex0
      (spacedWords ws ++ [T_VARIABLE_INDICATOR] ++ name ++ [T_INSTRUCTION_END])).state.calls =
      [] := by
  have hrun := run_eq_of_scan_thrown E ex0
    (spacedWords ws ++ [T_VARIABLE_INDICATOR] ++ name ++ [T_INSTRUCTION_END]) _ _
    (preProcess_eq_self _
      (by
        intro c hc
        rw [List.append_assoc, List.append_assoc] at hc
        refine head_spacedWords_append ws hws _ ?_ c hc
        intro d hd
        simp only [List.singleton_append, List.head?_cons, Option.some.injEq] at hd
        subst hd; decide)
      (by
        intro c hc
        rw [List.getLast?_append] at hc
        simp at hc
        subst hc; decide)
      (by
        intro c hc
        simp only [List.mem_append, List.mem_singleton] at hc
        rcases hc with ((hc | hc) | hc) | hc
        · exact spacedWords_ne_tab ws hws c hc
        · rw [hc]; decide
        · exact (isNameChar_spec c (hname c hc)).2.2.2
        · rw [hc]; decide))
    (scan_words_variable_undefined E (E.reset ex0) ws hws name hname hundef)
  rw [hrun]
  have hcalls : (lookedUp E (writeAll
      { withComponents (initialState (E.reset ex0)) (ws.map (fun p => JSValue.str p.1)) with
        readingVariable := true } name)).calls = [Call.getVariable name] := by
    simp [lookedUp, writeAll, withComponents, initialState]
  refine ⟨?_, hcalls, ?_⟩
  · simp [Res.error, msgReference]
  · simp only [Res.state]; rw [hcalls]; rfl

/-- Witness for C5: `foo $bar;` with `bar` undefined. -/
theorem undefined_variable_witness :
    (run demoExecutor () "foo $bar;".toList).error =
      some (JSError.error "Reference error. Referenced variable $bar is not defined.".toList) ∧
    (run demoExecutor () "foo $bar;".toList).state.calls = [Call.getVariable "bar".toList] ∧
    execCalls (run demoExecutor () "foo $bar;".toList).state.calls = [] :=
  undefined_variable_reference_error demoExecutor () [("foo".toList, 0)] "bar".toList
    (by decide) (by decide) (by decide)

/-! ## Opening and closing contexts -/

theorem finalizeInstructionToExec_inactive {σ : Type} (E : GExecutor σ) (s : St σ)
    (conditional : Bool) (hi : s.interpretingInstruction = true)
    (ha : s.contextIsActive = false)
    (hstr : canStringifyAll s.currentInstructionComponents = true) :
    _finalizeInstructionToExec E s conditional = Ret.ret JSValue.null (skipped s) := by
  unfold _finalizeInstructionToExec
  rw [if_pos hi, exec_inactive E s _ conditional hstr ha]
  rfl

theorem finalizeBuffer_false {σ : Type} (s : St σ) :
    _finalizeBuffer s false =
      { s with
        buffer := []
        bufferIdx := 0
        readingComment := false
        readingLiteral := false
        literalInEscapeSequence := false
        literalOpenChar := none } := by
  unfold _finalizeBuffer
  rw [if_neg (by simp)]

theorem step_contextOpen_eq {σ : Type} (E : GExecutor σ) (s : St σ) (hf : FreeMode s) :
    step E s T_CONTEXT_OPEN = stepContextOpen E s := by
  rw [step_of_freeMode E s _ hf (by decide) (by decide)]
  unfold stepFree
  rw [if_neg (by decide), if_neg (by decide), if_neg (by decide), if_pos rfl]

/-- A context-open delimiter in free mode, guarded by a pending instruction, in an
active context: the guard is executed as a conditional. -/
theorem step_contextOpen_active {σ : Type} (E : GExecutor σ) (s : St σ) (hf : FreeMode s)
    (hi : s.interpretingInstruction = true) (ha : s.contextIsActive = true)
    (hstr : canStringifyAll s.currentInstructionComponents = true)
    (hres : (E.executeCommand s.ex s.currentInstructionComponents).1.opResult.canStringify
      = true) :
    step E s T_CONTEXT_OPEN =
      Res.ok (enterContext (dispatched E s true)
        (!(E.executeCommand s.ex s.currentInstructionComponents).1.abortExecution &&
          (E.executeCommand s.ex s.currentInstructionComponents).1.opResult.truthy)) := by
  rw [step_contextOpen_eq E s hf]
  unfold stepContextOpen
  rw [if_neg (by simp [hi]), finalizeInstructionToExec_active E s true hi ha hstr hres]
  simp only [JSValue.truthy]
  rw [finalizeBuffer_false]
  rfl

/-- A context-open delimiter in free mode, guarded by a pending instruction, in an
inactive context: the guard is skipped and the new context is inactive. -/
theorem step_contextOpen_inactive {σ : Type} (E : GExecutor σ) (s : St σ) (hf : FreeMode s)
    (hi : s.interpretingInstruction = true) (ha : s.contextIsActive = false)
    (hstr : canStringifyAll s.currentInstructionComponents = true) :
    step E s T_CONTEXT_OPEN = Res.ok (enterContext (skipped s) false) := by
  rw [step_contextOpen_eq E s hf]
  unfold stepContextOpen
  rw [if_neg (by simp [hi]), finalizeInstructionToExec_inactive E s true hi ha hstr]
  simp only [JSValue.truthy]
  rw [finalizeBuffer_false]
  rfl

theorem step_contextClose {σ : Type} (E : GExecutor σ) (s : St σ) (p : Nat) (rest : List Nat)
    (hf : FreeMode s) (hs : s.contextStack = p :: rest) :
    step E s T_CONTEXT_CLOSE = Res.ok (leaveContext s p rest) := by
  rw [step_of_freeMode E s _ hf (by decide) (by decide)]
  unfold stepFree
  rw [if_neg (by decide), if_neg (by decide), if_neg (by decide), if_neg (by decide), if_pos rfl]
  unfold stepContextClose
  rw [hs]
  simp only
  rw [finalizeBuffer_false]
  rfl

/-- A bareword followed by `;`, read at rest in an inactive context: the
instruction is dropped without any executor call. -/
theorem scanLoop_word_end_inactive {σ : Type} (E : GExecutor σ) (w rest : Str) (s : St σ)
    (hs : Resting s) (hact : s.contextIsActive = false) (hw : Bareword w)
    (hstr : canStringifyAll s.currentInstructionComponents = true) :
    scanLoop E s (w ++ T_INSTRUCTION_END :: rest) =
      scanLoop E (skipped (withComponents s [JSValue.str w])) rest := by
  have hf := hs.1
  have ha := hs.2.2.2.2.2
  rw [scanLoop_bareword E w _ s hf ha hw.2]
  have hstep : step E (writeAll s w) T_INSTRUCTION_END =
      Res.ok (skipped (withComponents s [JSValue.str w])) := by
    rw [step_of_freeMode E (writeAll s w) _ hf (by decide) (by decide)]
    unfold stepFree
    rw [if_pos rfl, finalizeBuffer_writeAll s w hs.2.1 hw, withComponent_eq s _ hs,
      finalizeInstructionToExec_inactive E (withComponents s [JSValue.str w]) false
        (by simp [withComponents]) hact (canStringifyAll_withComponents s _ hstr rfl)]
    rfl
  rw [scanLoop_cons_ok E (writeAll s w) _ _ _ ha hstep]

/-! ## C2 -/

theorem resting_enterContext {σ : Type} (s : St σ) (a : Bool) (hv : s.readingVariable = false)
    (ha : s.abort = false) : Resting (enterContext s a) :=
  ⟨⟨hv, rfl, rfl⟩, rfl, rfl, rfl, rfl, ha⟩

/-- The scan of `check 1 \x7b move 1; \x7d` from the initial state, for any executor
whose results the debug log can serialise. -/
theorem scan_check_move {σ : Type} (E : GExecutor σ) (ex : σ)
    (hres1 : (E.executeCommand ex [JSValue.str "check".toList,
      JSValue.str "1".toList]).1.opResult.canStringify = true)
    (hres2 : ((E.executeCommand ex [JSValue.str "check".toList,
          JSValue.str "1".toList]).1.abortExecution = false ∧
        (E.executeCommand ex [JSValue.str "check".toList,
          JSValue.str "1".toList]).1.opResult.truthy = true) →
      (E.executeCommand (E.executeCommand ex [JSValue.str "check".toList,
          JSValue.str "1".toList]).2
        [JSValue.str "move".toList, JSValue.str "1".toList]).1.opResult.canStringify = true) :
    ∃ t, scanLoop E (initialState ex) "check 1 \x7b move 1; \x7d".toList = Res.ok t ∧
      t.buffer = [] ∧ t.interpretingInstruction = false ∧
      execCalls t.calls =
        if (E.executeCommand ex [JSValue.str "check".toList,
              JSValue.str "1".toList]).1.abortExecution = false ∧
            (E.executeCommand ex [JSValue.str "check".toList,
              JSValue.str "1".toList]).1.opResult.truthy = true then
          [[JSValue.str "check".toList, JSValue.str "1".toList],
            [JSValue.str "move".toList, JSValue.str "1".toList]]
        else [[JSValue.str "check".toList, JSValue.str "1".toList]] := by
  have hscript : "check 1 \x7b move 1; \x7d".toList =
      spacedWords [("check".toList, 0), ("1".toList, 0)] ++ (T_CONTEXT_OPEN :: (spaces 1 ++
        (spacedWords [("move".toList, 0)] ++ ("1".toList ++ T_INSTRUCTION_END ::
          (spaces 1 ++ [T_CONTEXT_CLOSE]))))) := by decide
  rw [hscript, scanLoop_spacedWords E _ _ _ (resting_initialState ex) (by decide)]
  have h1 := resting_withComponents (initialState ex)
    [JSValue.str "check".toList, JSValue.str "1".toList] (resting_initialState ex)
  simp only [List.map_cons, List.map_nil]
  rw [scanLoop_cons_ok E _ _ _ _ rfl (step_contextOpen_active E _ h1.1 rfl rfl rfl hres1)]
  generalize hr : E.executeCommand ex [JSValue.str "check".toList, JSValue.str "1".toList] = r
  have hex : E.executeCommand
      (withComponents (initialState ex)
        [JSValue.str "check".toList, JSValue.str "1".toList]).ex
      (withComponents (initialState ex)
        [JSValue.str "check".toList, JSValue.str "1".toList]).currentInstructionComponents
      = r := hr
  rw [hex]
  have h2 : Resting (enterContext (dispatched E (withComponents (initialState ex)
      [JSValue.str "check".toList, JSValue.str "1".toList]) true)
      (!r.1.abortExecution && r.1.opResult.truthy)) :=
    resting_enterContext _ _ rfl (by simp [dispatched, withComponents, initialState])
  rw [scanLoop_spaces_resting E 1 _ _ h2,
    scanLoop_spacedWords E _ _ _ h2 (by decide)]
  simp only [List.map_cons, List.map_nil]
  have h3 := resting_withComponents _ [JSValue.str "move".toList] h2
  have hstack : (enterContext (dispatched E (withComponents (initialState ex)
      [JSValue.str "check".toList, JSValue.str "1".toList]) true)
      (!r.1.abortExecution && r.1.opResult.truthy)).contextStack = 0 :: [0] := rfl
  by_cases hact : r.1.abortExecution = false ∧ r.1.opResult.truthy = true
  · have ha : (!r.1.abortExecution && r.1.opResult.truthy) = true := by
      simp [hact.1, hact.2]
    rw [if_pos hact]
    rw [ha] at h2 h3 hstack ⊢
    have hact0 : (E.executeCommand ex [JSValue.str "check".toList,
          JSValue.str "1".toList]).1.abortExecution = false ∧
        (E.executeCommand ex [JSValue.str "check".toList,
          JSValue.str "1".toList]).1.opResult.truthy = true := by
      rw [hr]; exact hact
    rw [scanLoop_word_end E _ _ _ h3 rfl (by decide) rfl (hres2 hact0), withComponents_append]
    by_cases hab : (dispatched E (withComponents (enterContext (dispatched E
        (withComponents (initialState ex)
          [JSValue.str "check".toList, JSValue.str "1".toList]) true) true)
        ([JSValue.str "move".toList] ++ [JSValue.str "1".toList])) false).abort = true
    · rw [scanLoop_of_abort E _ _ hab]
      refine ⟨_, rfl, rfl, rfl, ?_⟩
      simp [dispatched, withComponents, enterContext, initialState, execCalls, hr]
    · have hab2 : (dispatched E (withComponents (enterContext (dispatched E
          (withComponents (initialState ex)
            [JSValue.str "check".toList, JSValue.str "1".toList]) true) true)
          ([JSValue.str "move".toList] ++ [JSValue.str "1".toList])) false).abort = false := by
        simpa using hab
      have h4 : Resting (dispatched E (withComponents (enterContext (dispatched E
          (withComponents (initialState ex)
            [JSValue.str "check".toList, JSValue.str "1".toList]) true) true)
          ([JSValue.str "move".toList] ++ [JSValue.str "1".toList])) false) :=
        ⟨⟨rfl, rfl, rfl⟩, rfl, rfl, rfl, rfl, hab2⟩
      rw [scanLoop_spaces_resting E 1 _ _ h4,
        scanLoop_cons_ok E _ _ _ _ hab2 (step_contextClose E _ 0 [0] h4.1 rfl)]
      refine ⟨_, rfl, rfl, rfl, ?_⟩
      simp [leaveContext, dispatched, withComponents, enterContext, initialState, execCalls, hr]
  · have ha : (!r.1.abortExecution && r.1.opResult.truthy) = false := by
      rcases Bool.eq_false_or_eq_true r.1.abortExecution with h | h <;>
        rcases Bool.eq_false_or_eq_true r.1.opResult.truthy with h' | h' <;> simp_all
    rw [if_neg hact]
    rw [ha] at h2 h3 hstack ⊢
    rw [scanLoop_word_end_inactive E _ _ _ h3 rfl (by decide) rfl, withComponents_append]
    have h4 : Resting (skipped (withComponents (enterContext (dispatched E
        (withComponents (initialState ex)
          [JSValue.str "check".toList, JSValue.str "1".toList]) true) false)
        ([JSValue.str "move".toList] ++ [JSValue.str "1".toList]))) := h2
    rw [scanLoop_spaces_resting E 1 _ _ h4,
      scanLoop_cons_ok E _ _ _ _ h4.2.2.2.2.2 (step_contextClose E _ 0 [0] h4.1 rfl)]
    refine ⟨_, rfl, rfl, rfl, ?_⟩
    simp [leaveContext, skipped, dispatched, withComponents, enterContext, initialState,
      execCalls, hr]

/-- C2 (amended). A context-open delimiter read in free mode in an active context,
with a pending instruction `I` all of whose tokens have been flushed (the buffer is
empty), where `JSON.stringify` accepts `I` and the `opResult` of the executor: it
calls `executeCommand` exactly once, with `I`; the context it opens is active if
and only if the result has `abortExecution = false` and a truthy `opResult`; the
abort flag is left as it was (a conditional abort is not propagated) and the scan
goes on in free mode. For the script `check 1 \x7b move 1; \x7d` and any executor
whose results can be serialised, `run` returns without error; the executor receives
`["check","1"]` and then `["move","1"]` when the first result is truthy and not an
abort, and only `["check","1"]` otherwise. -/
theorem conditional_open_executes_guard {σ : Type} (E : GExecutor σ) :
    (∀ s : St σ, FreeMode s → s.buffer = [] → s.interpretingInstruction = true →
      s.contextIsActive = true → canStringifyAll s.currentInstructionComponents = true →
      (E.executeCommand s.ex s.currentInstructionComponents).1.opResult.canStringify = true →
      ∃ t, step E s T_CONTEXT_OPEN = Res.ok t ∧
        t.calls = s.calls ++ [Call.executeCommand s.currentInstructionComponents] ∧
        (t.contextIsActive = true ↔
          ((E.executeCommand s.ex s.currentInstructionComponents).1.abortExecution = false ∧
            (E.executeCommand s.ex s.currentInstructionComponents).1.opResult.truthy = true)) ∧
        lookupActivation t.contextActivations t.currentContextId = some t.contextIsActive ∧
        t.currentContextId = s.contextIdGenerator ∧
        t.contextStack = s.currentContextId :: s.contextStack ∧
        t.abort = s.abort ∧ FreeMode t) ∧
    (∀ ex0 : σ,
      (E.executeCommand (E.reset ex0) [JSValue.str "check".toList,
        JSValue.str "1".toList]).1.opResult.canStringify = true →
      (((E.executeCommand (E.reset ex0) [JSValue.str "check".toList,
            JSValue.str "1".toList]).1.abortExecution = false ∧
          (E.executeCommand (E.reset ex0) [JSValue.str "check".toList,
            JSValue.str "1".toList]).1.opResult.truthy = true) →
        (E.executeCommand (E.executeCommand (E.reset ex0) [JSValue.str "check".toList,
            JSValue.str "1".toList]).2
          [JSValue.str "move".toList, JSValue.str "1".toList]).1.opResult.canStringify
          = true) →
      (run E ex0 "check 1 \x7b move 1; \x7d".toList).error = none ∧
      (((E.executeCommand (E.reset ex0) [JSValue.str "check".toList,
            JSValue.str "1".toList]).1.abortExecution = false ∧
          (E.executeCommand (E.reset ex0) [JSValue.str "check".toList,
            JSValue.str "1".toList]).1.opResult.truthy = true) →
        execCalls (run E ex0 "check 1 \x7b move 1; \x7d".toList).state.calls =
          [[JSValue.str "check".toList, JSValue.str "1".toList],
            [JSValue.str "move".toList, JSValue.str "1".toList]]) ∧
      (¬((E.executeCommand (E.reset ex0) [JSValue.str "check".toList,
            JSValue.str "1".toList]).1.abortExecution = false ∧
          (E.executeCommand (E.reset ex0) [JSValue.str "check".toList,
            JSValue.str "1".toList]).1.opResult.truthy = true) →
        execCalls (run E ex0 "check 1 \x7b move 1; \x7d".toList).state.calls =
          [[JSValue.str "check".toList, JSValue.str "1".toList]])) := by
  constructor
  · intro s hf _ hi ha hstr hres
    refine ⟨_, step_contextOpen_active E s hf hi ha hstr hres, rfl, ?_, ?_, rfl, rfl, ?_,
      ⟨hf.1, rfl, rfl⟩⟩
    · simp [enterContext]
    · simp [enterContext, lookupActivation]
    · simp [enterContext, dispatched]
  · intro ex0 hres1 hres2
    obtain ⟨t, hscan, hb, hi, hcalls⟩ := scan_check_move E (E.reset ex0) hres1 hres2
    have hrun := run_eq_of_scan E ex0 "check 1 \x7b move 1; \x7d".toList (Res.ok t)
      (by decide) hscan hb hi
    rw [hrun]
    refine ⟨rfl, ?_, ?_⟩
    · intro h
      simp only [Res.state]
      rw [hcalls, if_pos h]
    · intro h
      simp only [Res.state]
      rw [hcalls, if_neg h]

/-- Witness for C2: the script `check 1 \x7b move 1; \x7d` under an executor that
answers truthy, one that answers falsy and one that requests an abort. -/
theorem conditional_open_witness :
    execCalls (run demoExecutor () "check 1 \x7b move 1; \x7d".toList).state.calls =
        [[JSValue.str "check".toList, JSValue.str "1".toList],
          [JSValue.str "move".toList, JSValue.str "1".toList]] ∧
      execCalls (run falsyExecutor () "check 1 \x7b move 1; \x7d".toList).state.calls =
        [[JSValue.str "check".toList, JSValue.str "1".toList]] ∧
      execCalls (run abortExecutor () "check 1 \x7b move 1; \x7d".toList).state.calls =
        [[JSValue.str "check".toList, JSValue.str "1".toList]] ∧
      (run abortExecutor () "check 1 \x7b move 1; \x7d".toList).error = none :=
  ⟨((conditional_open_executes_guard demoExecutor).2 () (by decide) (by decide)).2.1
      (by decide),
    ((conditional_open_executes_guard falsyExecutor).2 () (by decide) (by decide)).2.2
      (by decide),
    ((conditional_open_executes_guard abortExecutor).2 () (by decide) (by decide)).2.2
      (by decide),
    ((conditional_open_executes_guard abortExecutor).2 () (by decide) (by decide)).1⟩

/-- Counterexample for C2 as stated: an executor that answers `check 1` with a truthy
`opResult` that is a circular object and no abort. The script
`check 1 \x7b move 1; \x7d` then fails with the `TypeError` of `JSON.stringify`
right after the call `["check","1"]`: no context is opened and `["move","1"]` is
never received. -/
theorem conditional_open_counterexample :
    (oddExecutor.executeCommand ()
        [JSValue.str "check".toList, JSValue.str "1".toList]).1.opResult.truthy = true ∧
      (oddExecutor.executeCommand ()
        [JSValue.str "check".toList, JSValue.str "1".toList]).1.abortExecution = false ∧
      (run oddExecutor () "check 1 \x7b move 1; \x7d".toList).error
        = some JSError.typeError ∧
      (run oddExecutor () "check 1 \x7b move 1; \x7d".toList).state.calls =
        [Call.executeCommand [JSValue.str "check".toList, JSValue.str "1".toList]] ∧
      (run oddExecutor () "check 1 \x7b move 1; \x7d".toList).state.contextStack = [0] := by
  decide

/-! ## C3 -/

theorem wellFormed_initialState {σ : Type} (ex : σ) : ContextsWellFormed (initialState ex) := by
  refine ⟨?_, rfl, ?_, rfl⟩
  · intro id b h
    simp only [initialState, lookupActivation] at h
    split_ifs at h with h0
    subst h0; exact Nat.zero_lt_one
  · intro id hid
    simp only [initialState, List.mem_singleton] at hid
    subst hid
    exact ⟨true, rfl⟩

theorem wellFormed_of_ctxOf_eq {σ : Type} (s t : St σ) (h : ctxOf t = ctxOf s)
    (hs : ContextsWellFormed s) : ContextsWellFormed t := by
  simp only [ctxOf, Prod.mk.injEq] at h
  obtain ⟨h1, h2, h3, h4, h5⟩ := h
  unfold ContextsWellFormed at hs ⊢
  rw [h1, h2, h3, h4, h5]
  exact hs

theorem wellFormed_step {σ : Type} (E : GExecutor σ) (s : St σ) (c : Char)
    (hs : ContextsWellFormed s) : ContextsWellFormed (step E s c).state := by
  rcases step_ctx_cases E s c with h | ⟨b, ⟨o1, o2, o3, o4, o5⟩, -⟩ |
    ⟨p, rest, hst, h1, h2, h3, h4, h5⟩
  · exact wellFormed_of_ctxOf_eq s _ h hs
  · obtain ⟨w1, w2, w3, w4⟩ := hs
    have hcur : s.currentContextId < s.contextIdGenerator := w1 _ _ w2
    refine ⟨?_, ?_, ?_, ?_⟩
    · intro id b' h
      rw [o2] at h
      rw [o4]
      by_cases hid : id = s.contextIdGenerator
      · rw [hid]; exact Nat.lt_succ_self _
      · rw [lookupActivation_cons_ne _ _ _ _ hid] at h
        exact Nat.lt_succ_of_lt (w1 id b' h)
    · rw [o2, o3, o5]; exact lookupActivation_cons_self _ _ _
    · intro id hid
      rw [o1] at hid
      rw [o2]
      rcases List.mem_cons.mp hid with hid | hid
      · subst hid
        rw [lookupActivation_cons_ne _ _ _ _ (Nat.ne_of_lt hcur)]
        exact ⟨_, w2⟩
      · obtain ⟨b', hb'⟩ := w3 id hid
        rw [lookupActivation_cons_ne _ _ _ _ (Nat.ne_of_lt (w1 id b' hb'))]
        exact ⟨b', hb'⟩
    · rw [o2, lookupActivation_cons_ne _ _ _ _ (Nat.ne_of_lt (w1 0 true w4))]
      exact w4
  · obtain ⟨w1, w2, w3, w4⟩ := hs
    obtain ⟨b, hb⟩ := w3 p (by rw [hst]; exact List.mem_cons_self _ _)
    refine ⟨?_, ?_, ?_, ?_⟩
    · rw [h2, h4]; exact w1
    · rw [h2, h3, h5, hb]; rfl
    · intro id hid
      rw [h1] at hid
      rw [h2]
      exact w3 id (by rw [hst]; exact List.mem_cons_of_mem _ hid)
    · rw [h2]; exact w4

theorem recorded_step {σ : Type} (E : GExecutor σ) (s : St σ) (c : Char)
    (hs : ContextsWellFormed s) (id : Nat) (b : Bool)
    (h : lookupActivation s.contextActivations id = some b) :
    lookupActivation (step E s c).state.contextActivations id = some b := by
  rcases step_ctx_cases E s c with h0 | ⟨b', ⟨o1, o2, o3, o4, o5⟩, -⟩ |
    ⟨p, rest, hst, h1, h2, h3, h4, h5⟩
  · simp only [ctxOf, Prod.mk.injEq] at h0
    rw [h0.2.1]; exact h
  · rw [o2, lookupActivation_cons_ne _ _ _ _ (Nat.ne_of_lt (hs.1 id b h))]
    exact h
  · rw [h2]; exact h

theorem wellFormed_recorded_scanLoop {σ : Type} (E : GExecutor σ) (cs : Str) :
    ∀ s : St σ, ContextsWellFormed s →
      ContextsWellFormed (scanLoop E s cs).state ∧
      ∀ id b, lookupActivation s.contextActivations id = some b →
        lookupActivation (scanLoop E s cs).state.contextActivations id = some b := by
  induction cs with
  | nil => intro s hs; exact ⟨hs, fun _ _ h => h⟩
  | cons c cs ih =>
    intro s hs
    by_cases ha : s.abort = true
    · rw [scanLoop_of_abort E s _ ha]; exact ⟨hs, fun _ _ h => h⟩
    · have ha2 : s.abort = false := by simpa using ha
      have hw := wellFormed_step E s c hs
      have hr := recorded_step E s c hs
      cases hst : step E s c with
      | ok s1 =>
        rw [hst] at hw hr
        rw [scanLoop_cons_ok E s s1 c cs ha2 hst]
        have := ih s1 hw
        exact ⟨this.1, fun id b h => this.2 id b (hr id b h)⟩
      | thrown e s1 =>
        rw [hst] at hw hr
        rw [scanLoop_cons_thrown E s s1 c cs e ha2 hst]
        exact ⟨hw, hr⟩

theorem stackBase_step {σ : Type} (E : GExecutor σ) (d : Nat) (base : List Nat) (s : St σ)
    (c : Char) (hd : d ≤ s.contextStack.length)
    (hb : s.contextStack.drop (s.contextStack.length - d) = base)
    (hd2 : d ≤ (step E s c).state.contextStack.length) :
    (step E s c).state.contextStack.drop ((step E s c).state.contextStack.length - d) = base := by
  rcases step_ctx_cases E s c with h0 | ⟨b', ⟨o1, o2, o3, o4, o5⟩, -⟩ |
    ⟨p, rest, hst, h1, h2, h3, h4, h5⟩
  · simp only [ctxOf, Prod.mk.injEq] at h0
    rw [h0.1]; exact hb
  · rw [o1]
    have hk : (s.currentContextId :: s.contextStack).length - d
        = (s.contextStack.length - d) + 1 := by
      simp only [List.length_cons]; omega
    rw [hk, List.drop_succ_cons]
    exact hb
  · rw [h1] at hd2 ⊢
    have hk : s.contextStack.length - d = (rest.length - d) + 1 := by
      rw [hst]; simp only [List.length_cons]; omega
    rw [hk, hst, List.drop_succ_cons] at hb
    exact hb

theorem stackBase_scanLoop {σ : Type} (E : GExecutor σ) (d : Nat) (base : List Nat)
    (body : Str) :
    ∀ s : St σ, s.contextStack.drop (s.contextStack.length - d) = base →
      (∀ k, k ≤ body.length → d ≤ (scanLoop E s (body.take k)).state.contextStack.length) →
      (scanLoop E s body).state.contextStack.drop
        ((scanLoop E s body).state.contextStack.length - d) = base := by
  induction body with
  | nil => intro s hs _; exact hs
  | cons c rest ih =>
    intro s hs hd
    have h0 : d ≤ s.contextStack.length := hd 0 (Nat.zero_le _)
    by_cases ha : s.abort = true
    · rw [scanLoop_of_abort E s _ ha]; exact hs
    · have ha2 : s.abort = false := by simpa using ha
      have h1 := hd 1 (by simp)
      have hstep := stackBase_step E d base s c h0 hs
      cases hst : step E s c with
      | ok s1 =>
        rw [hst] at hstep
        rw [scanLoop_cons_ok E s s1 c rest ha2 hst]
        apply ih s1 (hstep (by simpa [scanLoop, ha2, hst] using h1))
        intro k hk
        have := hd (k + 1) (by simpa using hk)
        rwa [List.take_succ_cons, scanLoop_cons_ok E s s1 c _ ha2 hst] at this
      | thrown e s1 =>
        rw [hst] at hstep
        rw [scanLoop_cons_thrown E s s1 c rest e ha2 hst]
        exact hstep (by simpa [scanLoop, ha2, hst] using h1)

/-- C3. In any state `s1` the scan reaches from the initial state: every recorded
activation keeps its value over any continuation of the scan, the root context 0
is recorded active, and the current flag is the recorded activation of the
current context. When a context-open delimiter read in free mode leads from `s1`
to `s2`, the new identifier had no activation before and now has the one computed
at the open; and when the block body keeps the stack at least as high as right
after the open and ends at that height, the context-close delimiter that follows
restores the context that was current in `s1`, the stack of `s1` and the
activation flag of `s1`, which is still the recorded activation of that
context. -/
theorem context_activation_recorded_once_and_restored {σ : Type} (E : GExecutor σ) (ex0 : σ)
    (pre : Str) (s1 : St σ) (hreach : scanLoop E (initialState ex0) pre = Res.ok s1) :
    (∀ (cs : Str) (id : Nat) (b : Bool),
      lookupActivation s1.contextActivations id = some b →
      lookupActivation (scanLoop E s1 cs).state.contextActivations id = some b) ∧
    lookupActivation s1.contextActivations 0 = some true ∧
    lookupActivation s1.contextActivations s1.currentContextId = some s1.contextIsActive ∧
    (∀ (s2 s3 s4 : St σ) (body : Str), FreeMode s1 →
      step E s1 T_CONTEXT_OPEN = Res.ok s2 →
      scanLoop E s2 body = Res.ok s3 →
      (∀ k, k ≤ body.length →
        s2.contextStack.length ≤ (scanLoop E s2 (body.take k)).state.contextStack.length) →
      s3.contextStack.length = s2.contextStack.length →
      FreeMode s3 →
      step E s3 T_CONTEXT_CLOSE = Res.ok s4 →
      lookupActivation s1.contextActivations s2.currentContextId = none ∧
      lookupActivation s2.contextActivations s2.currentContextId = some s2.contextIsActive ∧
      s4.currentContextId = s1.currentContextId ∧
      s4.contextStack = s1.contextStack ∧
      s4.contextIsActive = s1.contextIsActive ∧
      lookupActivation s4.contextActivations s1.currentContextId = some s1.contextIsActive ∧
      lookupActivation s4.contextActivations s2.currentContextId = some s2.contextIsActive) := by
  have hw1 : ContextsWellFormed s1 := by
    have := (wellFormed_recorded_scanLoop E pre _ (wellFormed_initialState ex0)).1
    rwa [hreach] at this
  refine ⟨fun cs id b h => (wellFormed_recorded_scanLoop E cs s1 hw1).2 id b h, hw1.2.2.2,
    hw1.2.1, ?_⟩
  intro s2 s3 s4 body hf1 hopen hbody hdepth hlen hf3 hclose
  have ho := step_contextOpen_ok E s1 s2 hf1 hopen
  obtain ⟨o1, o2, o3, o4, o5⟩ := ho
  have hw2 : ContextsWellFormed s2 := by
    have := wellFormed_step E s1 T_CONTEXT_OPEN hw1
    rwa [hopen] at this
  have hrec3 := (wellFormed_recorded_scanLoop E body s2 hw2).2
  rw [hbody] at hrec3
  simp only [Res.state] at hrec3
  have hstack3 : s3.contextStack = s1.currentContextId :: s1.contextStack := by
    have := stackBase_scanLoop E s2.contextStack.length s2.contextStack body s2 (by simp) hdepth
    rw [hbody] at this
    simp only [Res.state] at this
    rw [hlen] at this
    simpa [o1] using this
  have hclose2 := step_contextClose E s3 _ _ hf3 hstack3
  rw [hclose] at hclose2
  simp only [Res.ok.injEq] at hclose2
  have hfresh : lookupActivation s1.contextActivations s2.currentContextId = none := by
    rw [o3]
    cases h : lookupActivation s1.contextActivations s1.contextIdGenerator with
    | none => rfl
    | some b => exact absurd (hw1.1 _ b h) (Nat.lt_irrefl _)
  have hrec12 : lookupActivation s2.contextActivations s1.currentContextId
      = some s1.contextIsActive := by
    have := recorded_step E s1 T_CONTEXT_OPEN hw1 _ _ hw1.2.1
    rwa [hopen] at this
  have hp := hrec3 _ _ hrec12
  refine ⟨hfresh, hw2.2.1, ?_, ?_, ?_, ?_, ?_⟩
  · rw [hclose2]; rfl
  · rw [hclose2]; rfl
  · rw [hclose2]
    show (lookupActivation s3.contextActivations s1.currentContextId).getD false = _
    rw [hp]; rfl
  · rw [hclose2]; exact hp
  · rw [hclose2]; exact hrec3 _ _ hw2.2.1

/-- Witness for C3: the guard `check ` answers truthy; the block body
` a; no \x7b b; \x7d c; ` opens and closes a nested inactive block; the closing
delimiter restores the root context, which is active. -/
theorem context_restored_witness :
    lookupActivation demoGuard.contextActivations demoInside.currentContextId = none ∧
      lookupActivation demoInside.contextActivations demoInside.currentContextId
        = some demoInside.contextIsActive ∧
      demoClosed.currentContextId = demoGuard.currentContextId ∧
      demoClosed.contextStack = demoGuard.contextStack ∧
      demoClosed.contextIsActive = demoGuard.contextIsActive ∧
      lookupActivation demoClosed.contextActivations demoGuard.currentContextId
        = some demoGuard.contextIsActive ∧
      lookupActivation demoClosed.contextActivations demoInside.currentContextId
        = some demoInside.contextIsActive :=
  (context_activation_recorded_once_and_restored demoExecutor () "check ".toList demoGuard
    (by rfl)).2.2.2 demoInside demoBody demoClosed " a; no \x7b b; \x7d c; ".toList
    (by decide) (by rfl) (by rfl) (by decide) (by decide) (by decide) (by rfl)

/-! ## C6 -/

theorem getLast?_trimStart (p : Str) (c : Char) (h : p.getLast? = some c)
    (hc : isWhiteSpace c = false) : (trimStart p).getLast? = some c ∧ trimStart p ≠ [] := by
  induction p with
  | nil => simp at h
  | cons a p ih =>
    unfold trimStart
    by_cases ha : isWhiteSpace a = true
    · rw [List.dropWhile_cons_of_pos ha]
      cases p with
      | nil =>
        simp only [List.getLast?_singleton, Option.some.injEq] at h
        rw [h, hc] at ha; cases ha
      | cons b p =>
        rw [List.getLast?_cons_cons] at h
        exact ih h
    · rw [List.dropWhile_cons_of_neg ha]
      exact ⟨h, List.cons_ne_nil _ _⟩

theorem trimStart_append (p r : Str) (c : Char) (h : p.getLast? = some c)
    (hc : isWhiteSpace c = false) : trimStart (p ++ r) = trimStart p ++ r := by
  have hne := (getLast?_trimStart p c h hc).2
  unfold trimStart at hne ⊢
  rw [List.dropWhile_append, if_neg (by simpa using hne)]

theorem trimEnd_append (u r : Str) (c : Char) (h : u.getLast? = some c)
    (hc : isWhiteSpace c = false) : trimEnd (u ++ r) = u ++ trimEnd r := by
  have hu : u.reverse.dropWhile isWhiteSpace = u.reverse := by
    apply trimStart_eq_self
    intro d hd
    rw [List.head?_reverse, h] at hd
    cases hd; exact hc
  unfold trimEnd
  rw [List.reverse_append, List.dropWhile_append]
  split_ifs with hemp
  · rw [hu, List.reverse_reverse]
    have : List.dropWhile isWhiteSpace r.reverse = [] := by simpa using hemp
    rw [this]; simp
  · rw [List.reverse_append, List.reverse_reverse]

theorem replaceTabs_append (a b : Str) : replaceTabs (a ++ b) = replaceTabs a ++ replaceTabs b := by
  unfold replaceTabs
  exact List.map_append _ _ _

theorem mem_replaceTabs (b : Str) (c : Char) (h : c ∈ replaceTabs b) : c = T_SPACE ∨ c ∈ b := by
  unfold replaceTabs at h
  obtain ⟨d, hd, hcd⟩ := List.mem_map.mp h
  by_cases ht : d = T_TAB
  · rw [if_pos ht] at hcd
    exact Or.inl hcd.symm
  · rw [if_neg ht] at hcd
    rw [← hcd]; exact Or.inr hd

/-- Preprocessing a text that continues a prefix ending in a non-whitespace
character: the preprocessed prefix, followed by the preprocessed continuation. -/
theorem preProcess_append (p r : Str) (c : Char) (h : p.getLast? = some c)
    (hc : isWhiteSpace c = false) :
    _preProcess (p ++ r) = _preProcess p ++ replaceTabs (trimEnd r) := by
  have h1 := getLast?_trimStart p c h hc
  unfold _preProcess trim
  rw [trimStart_append p r c h hc, trimEnd_append _ r c h1.1 hc, replaceTabs_append,
    trimEnd_eq_self (trimStart p) (by
      intro d hd
      rw [h1.1] at hd
      cases hd; exact hc)]

/-- Once the scan of a prefix ending in `;` has set the abort flag, `run` on any
continuation of the prefix ends in the state the scan of the prefix ended in. -/
theorem run_of_abort {σ : Type} (E : GExecutor σ) (ex0 : σ) (p r : Str)
    (s2 : St σ) (hlast : p.getLast? = some T_INSTRUCTION_END)
    (hscan : scanLoop E (initialState (E.reset ex0)) (_preProcess p) = Res.ok s2)
    (habort : s2.abort = true) :
    run E ex0 (p ++ r) = Res.ok s2 ∧ run E ex0 p = Res.ok s2 := by
  have hev : evaluateState s2 = Res.ok s2 := by
    unfold evaluateState
    rw [if_neg (by simp [habort])]
  constructor
  · unfold run
    rw [preProcess_append p r _ hlast (by decide), scanLoop_append_ok E _ _ _ _ hscan,
      scanLoop_of_abort E s2 _ habort]
    exact hev
  · unfold run
    rw [hscan]
    exact hev

theorem preProcess_words_end (ws : List (Str × Nat)) (hws : ∀ p ∈ ws, Bareword p.1)
    (wn : Str) (hwn : Bareword wn) :
    _preProcess (spacedWords ws ++ wn ++ [T_INSTRUCTION_END]) =
      spacedWords ws ++ wn ++ [T_INSTRUCTION_END] := by
  refine preProcess_eq_self _ ?_ ?_ ?_
  · intro c hc
    rw [List.append_assoc] at hc
    refine head_spacedWords_append ws hws _ ?_ c hc
    intro d hd
    cases wn with
    | nil => exact absurd rfl hwn.1
    | cons a wn =>
      simp only [List.cons_append, List.head?_cons, Option.some.injEq] at hd
      subst hd
      exact (isBarewordChar_spec _ (hwn.2 _ (List.mem_cons_self _ _))).1
  · intro c hc
    rw [List.getLast?_append] at hc
    simp at hc
    subst hc; decide
  · intro c hc
    simp only [List.mem_append, List.mem_singleton] at hc
    rcases hc with (hc | hc) | hc
    · exact spacedWords_ne_tab ws hws c hc
    · exact bareword_ne_tab c (hwn.2 c hc)
    · rw [hc]; decide

/-- C6 (amended). First, let the script prefix `p` end in `;` and let its scan end
with the abort flag set. Then for every continuation `r`, well-formed or not,
`run (p ++ r)` returns normally in the very state in which the scan of `p` ended:
no error is raised and the executor calls, `getVariable` and `executeCommand`
alike, are those of the scan of `p`. Second, the flag is set by a non-conditional
dispatch in an active context that `executeCommand` answers with
`abortExecution = true`, provided `JSON.stringify` accepts the instruction and the
`opResult` of the answer. Third, for barewords `w1 .. wn` closed by `;` whose
dispatch is answered that way, `run` on the instruction followed by any `r` returns
normally with the single call `[w1, .., wn]`, as `run` on the instruction alone. -/
theorem abort_ignores_rest_of_script {σ : Type} (E : GExecutor σ) (ex0 : σ) :
    (∀ (p r : Str) (s2 : St σ), p.getLast? = some T_INSTRUCTION_END →
      scanLoop E (initialState (E.reset ex0)) (_preProcess p) = Res.ok s2 →
      s2.abort = true →
      run E ex0 (p ++ r) = Res.ok s2 ∧ run E ex0 p = Res.ok s2 ∧
        (run E ex0 (p ++ r)).error = none ∧
        (run E ex0 (p ++ r)).state.calls = s2.calls) ∧
    (∀ s : St σ, s.interpretingInstruction = true → s.contextIsActive = true →
      canStringifyAll s.currentInstructionComponents = true →
      (E.executeCommand s.ex s.currentInstructionComponents).1.opResult.canStringify = true →
      (E.executeCommand s.ex s.currentInstructionComponents).1.abortExecution = true →
      ∃ t, _finalizeInstructionToExec E s false = Ret.ret (JSValue.bool false) t ∧
        t.abort = true ∧
        t.calls = s.calls ++ [Call.executeCommand s.currentInstructionComponents]) ∧
    (∀ (ws : List (Str × Nat)) (wn r : Str), (∀ p ∈ ws, Bareword p.1) → Bareword wn →
      (E.executeCommand (E.reset ex0)
        (ws.map (fun p => JSValue.str p.1) ++ [JSValue.str wn])).1.abortExecution = true →
      (E.executeCommand (E.reset ex0)
        (ws.map (fun p => JSValue.str p.1) ++ [JSValue.str wn])).1.opResult.canStringify
        = true →
      run E ex0 (spacedWords ws ++ wn ++ [T_INSTRUCTION_END] ++ r) =
        run E ex0 (spacedWords ws ++ wn ++ [T_INSTRUCTION_END]) ∧
      (run E ex0 (spacedWords ws ++ wn ++ [T_INSTRUCTION_END] ++ r)).error = none ∧
      (run E ex0 (spacedWords ws ++ wn ++ [T_INSTRUCTION_END] ++ r)).state.abort = true ∧
      (run E ex0 (spacedWords ws ++ wn ++ [T_INSTRUCTION_END] ++ r)).state.calls =
        [Call.executeCommand (ws.map (fun p => JSValue.str p.1) ++ [JSValue.str wn])]) := by
  refine ⟨?_, ?_, ?_⟩
  · intro p r s2 hlast hscan habort
    obtain ⟨h1, h2⟩ := run_of_abort E ex0 p r s2 hlast hscan habort
    refine ⟨h1, h2, ?_, ?_⟩
    · rw [h1]; rfl
    · rw [h1]; rfl
  · intro s hi ha hstr hres hab
    refine ⟨dispatched E s false, ?_, ?_, rfl⟩
    · rw [finalizeInstructionToExec_active E s false hi ha hstr hres, hab]
      rfl
    · simp [dispatched, hab]
  · intro ws wn r hws hwn hab hres
    have hscan := scan_words_end E (E.reset ex0) ws hws wn hwn
    rw [dispatchedRes_ok E _ false hres, ← preProcess_words_end ws hws wn hwn] at hscan
    have habort : (dispatched E (withComponents (initialState (E.reset ex0))
        (ws.map (fun p => JSValue.str p.1) ++ [JSValue.str wn])) false).abort = true := by
      have hab2 : (E.executeCommand (withComponents (initialState (E.reset ex0))
          (ws.map (fun p => JSValue.str p.1) ++ [JSValue.str wn])).ex
          (withComponents (initialState (E.reset ex0))
            (ws.map (fun p => JSValue.str p.1) ++
              [JSValue.str wn])).currentInstructionComponents).1.abortExecution = true := hab
      simp [dispatched, hab2]
    obtain ⟨h1, h2⟩ := run_of_abort E ex0 (spacedWords ws ++ wn ++ [T_INSTRUCTION_END]) r _
      (by rw [List.getLast?_append]; simp) hscan habort
    rw [h1, h2]
    exact ⟨rfl, rfl, habort, rfl⟩

/-- Witness for C6: after `abort;` the malformed rest (an unterminated literal,
stray braces, an undefined variable, no closing `;`) is never looked at. -/
theorem abort_ignores_rest_witness :
    run demoExecutor () ("abort;".toList ++ " \"open \x7d \x7b $nope".toList) = Res.ok demoAborted ∧
      run demoExecutor () "abort;".toList = Res.ok demoAborted ∧
      (run demoExecutor () ("abort;".toList ++ " \"open \x7d \x7b $nope".toList)).error = none ∧
      (run demoExecutor () ("abort;".toList ++ " \"open \x7d \x7b $nope".toList)).state.calls
        = demoAborted.calls :=
  (abort_ignores_rest_of_script demoExecutor ()).1 "abort;".toList
    " \"open \x7d \x7b $nope".toList demoAborted (by decide) (by rfl) (by decide)

/-- Counterexample for C6 as stated: an executor that answers `abort;` with
`abortExecution = true` and an `opResult` that is a circular object. The `;` makes
the non-conditional dispatch and the answer asks for an abort, yet `run` does not
return normally: it fails with the `TypeError` of `JSON.stringify`, with or without
a continuation, and the abort flag is never set. -/
theorem abort_counterexample :
    (oddExecutor.executeCommand () [JSValue.str "abort".toList]).1.abortExecution = true ∧
      (run oddExecutor () "abort;".toList).error = some JSError.typeError ∧
      (run oddExecutor () "abort;".toList).state.abort = false ∧
      (run oddExecutor () ("abort;".toList ++ " move;".toList)).error
        = some JSError.typeError ∧
      (run oddExecutor () ("abort;".toList ++ " move;".toList)).state.calls =
        [Call.executeCommand [JSValue.str "abort".toList]] := by
  decide

/-! ## C7 -/

theorem readingVariable_finalizeBuffer {σ : Type} (s : St σ) (f : Bool) :
    (_finalizeBuffer s f).readingVariable = s.readingVariable := by
  unfold _finalizeBuffer
  split_ifs <;> rfl

theorem readingVariable_finalizeInstructionToExec {σ : Type} (E : GExecutor σ) (s : St σ)
    (c : Bool) : (_finalizeInstructionToExec E s c).state.readingVariable = s.readingVariable := by
  unfold _finalizeInstructionToExec
  split_ifs with h
  · simp only [_exec, Ret.state]
    split_ifs <;> simp
  · rfl

theorem readingVariable_stepVariableEnd {σ : Type} (E : GExecutor σ) (s : St σ) (c : Char) :
    (stepVariableEnd E s c).state.readingVariable = s.readingVariable := by
  have hb : (_finalizeBuffer { s with readingLiteral := false } false).readingVariable
      = s.readingVariable := by
    rw [readingVariable_finalizeBuffer]
  unfold stepVariableEnd
  simp only [_eatBuffer]
  split_ifs with h1 h2
  · exact hb
  · rw [state_toRes, readingVariable_finalizeInstructionToExec]; exact hb
  · exact hb

/-- C7 (code at the failing input). Once `readingVariable` is set no loop
iteration clears it: line 162 resets `readingLiteral` instead. So in `say $x hi;`
the text after the variable reference is read as a second variable name:
`getVariable` is called for `x` and then for `hi`, and `run` throws the reference
error for `$hi` without any `executeCommand` call; in `say $x; hi;` the
instruction `["say", "north"]` is dispatched and the space after `;` ends an
empty variable name. -/
theorem variable_mode_is_never_left :
    (∀ (σ : Type) (E : GExecutor σ) (s : St σ) (c : Char), s.readingVariable = true →
      (step E s c).state.readingVariable = true) ∧
    (run demoExecutor () "say $x hi;".toList).error =
      some (JSError.error "Reference error. Referenced variable $hi is not defined.".toList) ∧
    (run demoExecutor () "say $x hi;".toList).state.calls =
      [Call.getVariable "x".toList, Call.getVariable "hi".toList] ∧
    (run demoExecutor () "say $x; hi;".toList).error =
      some (JSError.error "Reference error. Referenced variable $ is not defined.".toList) ∧
    (run demoExecutor () "say $x; hi;".toList).state.calls =
      [Call.getVariable "x".toList,
        Call.executeCommand [JSValue.str "say".toList, JSValue.str "north".toList],
        Call.getVariable []] := by
  refine ⟨?_, by decide, by decide, by decide, by decide⟩
  intro σ E s c hv
  unfold step
  split_ifs
  · exact hv
  · rw [readingVariable_stepVariableEnd]; exact hv
  · exact hv

/-! ## C8 -/

/-- C8 (code at the failing input). The context stack starts as `[0]`, so a
context-close delimiter read at the root finds a non-empty stack: the scripts
`\x7d` and `move; \x7d` return normally, the stack is left empty, and only a
second stray delimiter raises the error. -/
theorem stray_close_at_root_is_accepted :
    (run demoExecutor () "\x7d".toList).error = none ∧
    (run demoExecutor () "\x7d".toList).state.contextStack = [] ∧
    (run demoExecutor () "move; \x7d".toList).error = none ∧
    (run demoExecutor () "move; \x7d".toList).state.contextStack = [] ∧
    (run demoExecutor () "move; \x7d".toList).state.calls =
      [Call.executeCommand [JSValue.str "move".toList]] ∧
    (run demoExecutor () "\x7d \x7d".toList).error = some (JSError.error msgContextClose) := by
  decide

/-! ## C9 -/

/-- C9 (code at the failing input). The end-of-input check looks at the reading
mode only when the buffer is non-empty or an instruction is pending: the
one-character script `"` ends in literal mode and returns normally, and so does
`move; "`; the script `move "unterminated` throws the unterminated-literal
error. -/
theorem empty_unterminated_literal_is_accepted :
    (run demoExecutor () "\"".toList).error = none ∧
    (run demoExecutor () "\"".toList).state.readingLiteral = true ∧
    (run demoExecutor () "\"".toList).state.abort = false ∧
    (run demoExecutor () "move; \"".toList).error = none ∧
    (run demoExecutor () "move; \"".toList).state.readingLiteral = true ∧
    (run demoExecutor () "move \"unterminated".toList).error =
      some (JSError.error msgLiteral) := by
  decide

/-! ## Literals -/

theorem step_literal_open {σ : Type} (E : GExecutor σ) (s : St σ) (q : Char) (hs : Resting s)
    (hq : q = T_STRING_DOUBLE_QUOTE ∨ q = T_STRING_SINGLE_QUOTE) :
    step E s q = Res.ok (inLiteral s q false []) := by
  have h1 : q ≠ T_SPACE := by rcases hq with h | h <;> (rw [h]; decide)
  have h2 : q ≠ T_RETURN := by rcases hq with h | h <;> (rw [h]; decide)
  have h3 : q ≠ T_INSTRUCTION_END := by rcases hq with h | h <;> (rw [h]; decide)
  have h4 : q ≠ T_NEW_LINE := by rcases hq with h | h <;> (rw [h]; decide)
  have h5 : q ≠ T_COMMENT := by rcases hq with h | h <;> (rw [h]; decide)
  have h6 : q ≠ T_CONTEXT_OPEN := by rcases hq with h | h <;> (rw [h]; decide)
  have h7 : q ≠ T_CONTEXT_CLOSE := by rcases hq with h | h <;> (rw [h]; decide)
  rw [step_of_freeMode E s q hs.1 h1 h2]
  unfold stepFree
  rw [if_neg h3, if_neg h4, if_neg h5, if_neg h6, if_neg h7, if_pos hq]
  obtain ⟨-, hb, hi, he, -, -⟩ := hs
  cases s
  simp_all [inLiteral]

theorem step_literal_escaped {σ : Type} (E : GExecutor σ) (base : St σ) (q c : Char) (buf : Str)
    (hv : base.readingVariable = false) :
    step E (inLiteral base q true buf) c = Res.ok (inLiteral base q false (buf ++ [c])) := by
  unfold step
  rw [if_neg (by simp [inLiteral]), if_neg (by simp [inLiteral, hv]),
    if_pos (by simp [inLiteral]), if_pos (by simp [inLiteral])]
  simp [inLiteral, writeToBuffer]

theorem step_literal_escape {σ : Type} (E : GExecutor σ) (base : St σ) (q : Char) (buf : Str)
    (hv : base.readingVariable = false) :
    step E (inLiteral base q false buf) T_ESCAPE = Res.ok (inLiteral base q true buf) := by
  unfold step
  rw [if_neg (by simp [inLiteral]), if_neg (by simp [inLiteral, hv]),
    if_pos (by simp [inLiteral]), if_neg (by simp [inLiteral]), if_pos rfl]
  rfl

theorem step_literal_char {σ : Type} (E : GExecutor σ) (base : St σ) (q c : Char) (buf : Str)
    (hv : base.readingVariable = false) (h1 : c ≠ T_ESCAPE) (h2 : c ≠ q) :
    step E (inLiteral base q false buf) c = Res.ok (inLiteral base q false (buf ++ [c])) := by
  unfold step
  rw [if_neg (by simp [inLiteral]), if_neg (by simp [inLiteral, hv]),
    if_pos (by simp [inLiteral]), if_neg (by simp [inLiteral]), if_neg h1,
    if_neg (by simp [inLiteral, h2])]
  simp [inLiteral, writeToBuffer]

theorem step_literal_close {σ : Type} (E : GExecutor σ) (base : St σ) (q : Char) (buf : Str)
    (hv : base.readingVariable = false) (hq : q ≠ T_ESCAPE) (hb : trim buf ≠ []) :
    step E (inLiteral base q false buf) q =
      Res.ok (withComponent base (JSValue.str (trim buf))) := by
  unfold step
  rw [if_neg (by simp [inLiteral]), if_neg (by simp [inLiteral, hv]),
    if_pos (by simp [inLiteral]), if_neg (by simp [inLiteral]), if_neg hq,
    if_pos (by simp [inLiteral]), finalizeBuffer_flush _ (by simpa [inLiteral] using hb)]
  rfl

/-- The scan of a literal body follows the reference unescape function. -/
theorem scanLoop_literal_body {σ : Type} (E : GExecutor σ) (base : St σ) (q : Char)
    (hv : base.readingVariable = false) (ha : base.abort = false) (rest : Str) (b : Str) :
    ∀ (e : Bool) (buf : Str), closedFrom q e b = true →
      scanLoop E (inLiteral base q e buf) (b ++ rest) =
        scanLoop E (inLiteral base q false (buf ++ unescapeFrom e b)) rest := by
  induction b with
  | nil =>
    intro e buf hc
    cases e with
    | true => simp [closedFrom] at hc
    | false => simp [unescapeFrom]
  | cons c cs ih =>
    intro e buf hc
    cases e with
    | true =>
      simp only [closedFrom] at hc
      rw [List.cons_append, scanLoop_cons_ok E (inLiteral base q true buf) _ c _ ha
        (step_literal_escaped E base q c buf hv),
        ih false _ hc]
      simp [unescapeFrom]
    | false =>
      by_cases hesc : c = T_ESCAPE
      · simp only [closedFrom, if_pos hesc] at hc
        subst hesc
        rw [List.cons_append,
          scanLoop_cons_ok E (inLiteral base q false buf) _ _ _ ha
            (step_literal_escape E base q buf hv), ih true _ hc]
        simp [unescapeFrom]
      · simp only [closedFrom, if_neg hesc, Bool.and_eq_true, bne_iff_ne, ne_eq] at hc
        rw [List.cons_append,
          scanLoop_cons_ok E (inLiteral base q false buf) _ c _ ha
            (step_literal_char E base q c buf hv hesc hc.1),
          ih false _ hc.2]
        simp [unescapeFrom, hesc]

theorem length_unescapeFrom (b : Str) :
    ∀ e : Bool, (unescapeFrom e b).length + escapesFrom e b = b.length := by
  induction b with
  | nil => intro e; cases e <;> rfl
  | cons c cs ih =>
    intro e
    cases e with
    | true =>
      simp only [unescapeFrom, escapesFrom, List.length_cons]
      have := ih false; omega
    | false =>
      by_cases hesc : c = T_ESCAPE
      · simp only [unescapeFrom, escapesFrom, if_pos hesc, List.length_cons]
        have := ih true; omega
      · simp only [unescapeFrom, escapesFrom, if_neg hesc, List.length_cons]
        have := ih false; omega

/-- An instruction end read at rest, with a pending instruction, in an active
context. -/
theorem scanLoop_end_resting {σ : Type} (E : GExecutor σ) (s : St σ)
    (hs : Resting s) (hi : s.interpretingInstruction = true) (hact : s.contextIsActive = true)
    (hstr : canStringifyAll s.currentInstructionComponents = true) :
    scanLoop E s [T_INSTRUCTION_END] = dispatchedRes E s false := by
  have hstep : step E s T_INSTRUCTION_END = dispatchedRes E s false := by
    rw [step_of_freeMode E s _ hs.1 (by decide) (by decide)]
    unfold stepFree
    rw [if_pos rfl, finalizeBuffer_resting s true hs,
      finalizeInstructionToExec_toRes E s false hi hact hstr]
  cases hr : dispatchedRes E s false with
  | ok t =>
    rw [hr] at hstep
    rw [scanLoop_cons_ok E s _ _ _ hs.2.2.2.2.2 hstep]
    rfl
  | thrown e t =>
    rw [hr] at hstep
    rw [scanLoop_cons_thrown E s _ _ _ e hs.2.2.2.2.2 hstep]

/-! ## C10 -/

/-- A script whose preprocessed text scans to a dispatch ends in the outcome of
that dispatch. -/
theorem run_eq_of_scan_preProcessed_dispatched {σ : Type} (E : GExecutor σ) (ex0 : σ)
    (u pp : Str) (s : St σ) (c : Bool) (hp : _preProcess u = pp)
    (hscan : scanLoop E (initialState (E.reset ex0)) pp = dispatchedRes E s c)
    (hb : s.buffer = []) : run E ex0 u = dispatchedRes E s c := by
  unfold run
  rw [hp, hscan]
  unfold dispatchedRes
  split_ifs
  · simp [evaluateState, dispatched, hb]
  · rfl

/-- Preprocessing of a word, a space and a quoted body closed by `;`: only the
tabs of the body change. -/
theorem preProcess_quoted (w b : Str) (q : Char) (hw : Bareword w)
    (hq : q = T_STRING_DOUBLE_QUOTE ∨ q = T_STRING_SINGLE_QUOTE) :
    _preProcess (w ++ [T_SPACE] ++ [q] ++ b ++ [q] ++ [T_INSTRUCTION_END]) =
      w ++ spaces 1 ++ (q :: (replaceTabs b ++ q :: T_INSTRUCTION_END :: [])) := by
  have hqt : q ≠ T_TAB := by rcases hq with h | h <;> (rw [h]; decide)
  have hwt : replaceTabs w = w := replaceTabs_eq_self w (fun c hc => bareword_ne_tab c (hw.2 c hc))
  unfold _preProcess
  rw [trim_eq_self _
    (by
      intro c hc
      cases w with
      | nil => exact absurd rfl hw.1
      | cons a w =>
        simp only [List.cons_append, List.head?_cons, Option.some.injEq] at hc
        subst hc
        exact (isBarewordChar_spec _ (hw.2 _ (List.mem_cons_self _ _))).1)
    (by
      intro c hc
      rw [List.getLast?_append] at hc
      simp at hc
      subst hc; decide)]
  simp only [replaceTabs_append, hwt]
  have hst : T_INSTRUCTION_END ≠ T_TAB := by decide
  simp [replaceTabs, spaces, hqt, hst]

/-- The scan of a word, a space and a quoted body closed by `;`, from the initial
state. -/
theorem scan_quoted {σ : Type} (E : GExecutor σ) (ex : σ) (w b : Str) (q : Char)
    (hw : Bareword w) (hq : q = T_STRING_DOUBLE_QUOTE ∨ q = T_STRING_SINGLE_QUOTE)
    (hclosed : closedFrom q false b = true) (hne : unescape b ≠ [])
    (hhead : ∀ c, (unescape b).head? = some c → isWhiteSpace c = false)
    (hlast : ∀ c, (unescape b).getLast? = some c → isWhiteSpace c = false) :
    scanLoop E (initialState ex) (w ++ spaces 1 ++ (q :: (b ++ q :: T_INSTRUCTION_END :: []))) =
      dispatchedRes E (withComponents (initialState ex)
        [JSValue.str w, JSValue.str (unescape b)]) false := by
  have hqe : q ≠ T_ESCAPE := by rcases hq with h | h <;> (rw [h]; decide)
  have h0 := resting_initialState ex
  have h1 := resting_withComponents (initialState ex) [JSValue.str w] h0
  have htrim : trim (unescape b) = unescape b := trim_eq_self _ hhead hlast
  rw [scanLoop_word_spaces E w 0 _ _ h0 hw, withComponent_eq _ _ h0,
    scanLoop_cons_ok E _ _ q _ rfl (step_literal_open E _ q h1 hq),
    scanLoop_literal_body E _ q rfl rfl _ b false [] hclosed, List.nil_append,
    scanLoop_cons_ok E (inLiteral (withComponents (initialState ex) [JSValue.str w]) q false
        (unescapeFrom false b)) _ q _ rfl
      (step_literal_close E _ q _ rfl hqe (by
        show trim (unescape b) ≠ []
        rw [htrim]; exact hne))]
  show scanLoop E (withComponent _ (JSValue.str (trim (unescape b)))) _ = _
  rw [htrim, withComponent_eq _ _ h1, withComponents_append,
    scanLoop_end_resting E (withComponents (initialState ex)
      ([JSValue.str w] ++ [JSValue.str (unescape b)])) (resting_withComponents _ _ h0) rfl rfl
      rfl]
  rfl

/-- C10 (amended). Preprocessing replaces every tab of the script by a space,
also inside a literal, so the body the scanner reads is `replaceTabs b`. For every
bareword `w`, quote character `q` and body `b` such that `replaceTabs b` holds no
unescaped `q`, does not end in an unescaped backslash, and has a non-empty
unescape `u` without leading or trailing whitespace, the script `w q b q ;`
(word, space, quoted body, `;`) makes the single call `executeCommand [w, u]`,
and returns without error when `JSON.stringify` accepts the `opResult` of that
call; `u` is shorter than `b` by the number of escaping backslashes; and a body
without tabs is read as it stands. -/
theorem literal_escapes_follow_unescape {σ : Type} (E : GExecutor σ) (ex0 : σ) (w b : Str)
    (q : Char) (hw : Bareword w)
    (hq : q = T_STRING_DOUBLE_QUOTE ∨ q = T_STRING_SINGLE_QUOTE)
    (hclosed : closedFrom q false (replaceTabs b) = true)
    (hne : unescape (replaceTabs b) ≠ [])
    (hhead : ∀ c, (unescape (replaceTabs b)).head? = some c → isWhiteSpace c = false)
    (hlast : ∀ c, (unescape (replaceTabs b)).getLast? = some c → isWhiteSpace c = false) :
    ((E.executeCommand (E.reset ex0)
        [JSValue.str w, JSValue.str (unescape (replaceTabs b))]).1.opResult.canStringify = true →
      (run E ex0 (w ++ [T_SPACE] ++ [q] ++ b ++ [q] ++ [T_INSTRUCTION_END])).error = none) ∧
    (run E ex0 (w ++ [T_SPACE] ++ [q] ++ b ++ [q] ++ [T_INSTRUCTION_END])).state.calls =
      [Call.executeCommand [JSValue.str w, JSValue.str (unescape (replaceTabs b))]] ∧
    (unescape (replaceTabs b)).length = b.length - escapesFrom false (replaceTabs b) ∧
    ((∀ c ∈ b, c ≠ T_TAB) → replaceTabs b = b) := by
  have hrun := run_eq_of_scan_preProcessed_dispatched E ex0 _ _ _ false
    (preProcess_quoted w b q hw hq)
    (scan_quoted E (E.reset ex0) w (replaceTabs b) q hw hq hclosed hne hhead hlast) rfl
  rw [hrun]
  refine ⟨fun hres => error_dispatchedRes E _ false hres, calls_dispatchedRes E _ false, ?_,
    replaceTabs_eq_self b⟩
  have h := length_unescapeFrom (replaceTabs b) false
  have hl : (replaceTabs b).length = b.length := by simp [replaceTabs]
  unfold unescape
  omega

/-- Witness for C10: the first example of the doc comment of `T_ESCAPE` as the
body of a literal, and the other two examples under the reference unescape. -/
theorem literal_escapes_witness :
    ((run demoExecutor () "say \"I like \\\"poop\\\"\";".toList).error = none ∧
      (run demoExecutor () "say \"I like \\\"poop\\\"\";".toList).state.calls =
        [Call.executeCommand [JSValue.str "say".toList, JSValue.str "I like \"poop\"".toList]] ∧
      "I like \"poop\"".toList.length = "I like \\\"poop\\\"".toList.length - 2 ∧
      ((∀ c ∈ "I like \\\"poop\\\"".toList, c ≠ T_TAB) →
        replaceTabs "I like \\\"poop\\\"".toList = "I like \\\"poop\\\"".toList)) ∧
    unescape "I escape \\\\ twice".toList = "I escape \\ twice".toList ∧
    unescape "I escape \\\\\\\\\\\\\\ lots".toList = "I escape \\\\\\ lots".toList :=
  ⟨(fun h => ⟨h.1 (by decide), h.2⟩)
      (literal_escapes_follow_unescape demoExecutor () "say".toList
        "I like \\\"poop\\\"".toList
        T_STRING_DOUBLE_QUOTE (by decide) (by decide) (by decide) (by decide)
        (fun c h => by
          have h2 : some 'I' = some c := h
          cases h2; decide)
        (fun c h => by
          have h2 : some '"' = some c := h
          cases h2; decide)),
    by decide, by decide⟩

/-- Counterexample to C10 as stated: the body `a<TAB>b` holds no quote and no
backslash, and its unescape is the body itself, without leading or trailing
whitespace; yet the script dispatches `["say", "a b"]`, with a space for the
tab. -/
theorem literal_tab_counterexample :
    closedFrom T_STRING_DOUBLE_QUOTE false "a\tb".toList = true ∧
    unescape "a\tb".toList = "a\tb".toList ∧
    isWhiteSpace 'a' = false ∧ isWhiteSpace 'b' = false ∧
    (run demoExecutor () "say \"a\tb\";".toList).state.calls =
      [Call.executeCommand [JSValue.str "say".toList, JSValue.str "a b".toList]] ∧
    (run demoExecutor () "say \"a\tb\";".toList).state.calls ≠
      [Call.executeCommand [JSValue.str "say".toList,
        JSValue.str (unescape "a\tb".toList)]] := by
  decide

/-! ## C11 -/

theorem step_literal_close_blank {σ : Type} (E : GExecutor σ) (base : St σ) (q : Char)
    (buf : Str) (hs : Resting base) (hq : q ≠ T_ESCAPE) (hb : trim buf = []) :
    step E (inLiteral base q false buf) q = Res.ok base := by
  have hv := hs.1.1
  unfold step
  rw [if_neg (by simp [inLiteral]), if_neg (by simp [inLiteral, hv]),
    if_pos (by simp [inLiteral]), if_neg (by simp [inLiteral]), if_neg hq,
    if_pos (by simp [inLiteral]), finalizeBuffer_empty _ true (by simpa [inLiteral] using hb)]
  obtain ⟨⟨-, h2, h3⟩, h4, h5, h6, h7, -⟩ := hs
  cases base
  simp_all [inLiteral]

/-- The scan of a word, a space and an empty quoted body closed by `;`, from the
initial state: the literal adds no component. -/
theorem scan_quoted_empty {σ : Type} (E : GExecutor σ) (ex : σ) (w : Str) (q : Char)
    (hw : Bareword w) (hq : q = T_STRING_DOUBLE_QUOTE ∨ q = T_STRING_SINGLE_QUOTE) :
    scanLoop E (initialState ex) (w ++ spaces 1 ++ (q :: ([] ++ q :: T_INSTRUCTION_END :: []))) =
      dispatchedRes E (withComponents (initialState ex) [JSValue.str w]) false := by
  have hqe : q ≠ T_ESCAPE := by rcases hq with h | h <;> (rw [h]; decide)
  have h0 := resting_initialState ex
  have h1 := resting_withComponents (initialState ex) [JSValue.str w] h0
  rw [scanLoop_word_spaces E w 0 _ _ h0 hw, withComponent_eq _ _ h0,
    scanLoop_cons_ok E _ _ q _ rfl (step_literal_open E _ q h1 hq),
    scanLoop_literal_body E _ q rfl rfl _ [] false [] rfl, List.nil_append,
    scanLoop_cons_ok E (inLiteral (withComponents (initialState ex) [JSValue.str w]) q false
        (unescapeFrom false [])) _ q _ rfl
      (step_literal_close_blank E _ q _ h1 hqe rfl),
    scanLoop_end_resting E (withComponents (initialState ex) [JSValue.str w]) h1 rfl rfl rfl]

/-- C11 (amended). Closing a literal appends a component only when there is a body
to append: `_finalizeBuffer` pushes under the guard `finalizedBuffer.length`. At
rest before the literal, the closing quote of an empty body leaves the state as it
was before the literal, so nothing is appended; the closing quote of a non-empty
body without whitespace at either end appends that body as one component. For
every bareword `w` the script `w "";` makes the single call `executeCommand [w]`,
and returns without error when `JSON.stringify` accepts the `opResult` of that
call. -/
theorem literal_close_skips_empty_body {σ : Type} (E : GExecutor σ) :
    (∀ (base : St σ) (q : Char), Resting base → q ≠ T_ESCAPE →
      step E (inLiteral base q false []) q = Res.ok base) ∧
    (∀ (base : St σ) (q : Char) (buf : Str), Resting base → q ≠ T_ESCAPE → buf ≠ [] →
      (∀ c, buf.head? = some c → isWhiteSpace c = false) →
      (∀ c, buf.getLast? = some c → isWhiteSpace c = false) →
      step E (inLiteral base q false buf) q = Res.ok (withComponent base (JSValue.str buf))) ∧
    (∀ (ex0 : σ) (w : Str), Bareword w →
      (run E ex0 (w ++ [T_SPACE] ++ [T_STRING_DOUBLE_QUOTE] ++ [] ++ [T_STRING_DOUBLE_QUOTE] ++
        [T_INSTRUCTION_END])).state.calls = [Call.executeCommand [JSValue.str w]] ∧
      ((E.executeCommand (E.reset ex0) [JSValue.str w]).1.opResult.canStringify = true →
        (run E ex0 (w ++ [T_SPACE] ++ [T_STRING_DOUBLE_QUOTE] ++ [] ++
          [T_STRING_DOUBLE_QUOTE] ++ [T_INSTRUCTION_END])).error = none)) := by
  refine ⟨?_, ?_, ?_⟩
  · intro base q hs hq
    exact step_literal_close_blank E base q [] hs hq rfl
  · intro base q buf hs hq hne hhead hlast
    have htrim : trim buf = buf := trim_eq_self buf hhead hlast
    have h := step_literal_close E base q buf hs.1.1 hq (by rw [htrim]; exact hne)
    rw [htrim] at h
    exact h
  · intro ex0 w hw
    have hrun := run_eq_of_scan_preProcessed_dispatched E ex0 _ _ _ false
      (preProcess_quoted w [] T_STRING_DOUBLE_QUOTE hw (Or.inl rfl))
      (scan_quoted_empty E (E.reset ex0) w T_STRING_DOUBLE_QUOTE hw (Or.inl rfl)) rfl
    rw [hrun]
    exact ⟨calls_dispatchedRes E _ false, fun hres => error_dispatchedRes E _ false hres⟩

/-- Witness for C11: `say "";` dispatches `["say"]` and returns without error. -/
theorem literal_close_witness :
    (run demoExecutor () "say \"\";".toList).state.calls =
        [Call.executeCommand [JSValue.str "say".toList]] ∧
      (run demoExecutor () "say \"\";".toList).error = none :=
  ⟨((literal_close_skips_empty_body demoExecutor).2.2 () "say".toList (by decide)).1,
    ((literal_close_skips_empty_body demoExecutor).2.2 () "say".toList (by decide)).2
      (by decide)⟩

/-- Counterexample to C11 as stated: `say "";` dispatches the one component
`["say"]`, not `["say", ""]`. -/
theorem empty_literal_counterexample :
    (run demoExecutor () "say \"\";".toList).state.calls =
      [Call.executeCommand [JSValue.str "say".toList]] ∧
    (run demoExecutor () "say \"\";".toList).state.calls ≠
      [Call.executeCommand [JSValue.str "say".toList, JSValue.str []]] := by
  decide

/-! ## C12 -/

/-- C12 (code at the failing input). The closing quote of a literal flushes the
buffer through `_getJoinedBuffer`, the `buffer.join('').trim()` shared with
barewords, so the component is the trimmed body. In `say "  a  b  ";` the two
leading and the two trailing spaces of the body are lost and `["say", "a  b"]` is
dispatched (the repeated interior spaces are kept); in `say "\ a";` the escaped
space, which the escape is documented to keep uninterpreted, is lost as well and
`["say", "a"]` is dispatched. -/
theorem literal_edge_spaces_are_trimmed :
    (∀ (σ : Type) (E : GExecutor σ) (base : St σ) (q : Char) (buf : Str),
      base.readingVariable = false → q ≠ T_ESCAPE → trim buf ≠ [] →
      step E (inLiteral base q false buf) q =
        Res.ok (withComponent base (JSValue.str (trim buf)))) ∧
    (run demoExecutor () "say \"  a  b  \";".toList).error = none ∧
    (run demoExecutor () "say \"  a  b  \";".toList).state.calls =
      [Call.executeCommand [JSValue.str "say".toList, JSValue.str "a  b".toList]] ∧
    (run demoExecutor () "say \"  a  b  \";".toList).state.calls ≠
      [Call.executeCommand [JSValue.str "say".toList, JSValue.str "  a  b  ".toList]] ∧
    unescape "\\ a".toList = " a".toList ∧
    (run demoExecutor () "say \"\\ a\";".toList).state.calls =
      [Call.executeCommand [JSValue.str "say".toList, JSValue.str "a".toList]] := by
  refine ⟨?_, by decide, by decide, by decide, by decide, by decide⟩
  intro σ E base q buf hv hq hb
  exact step_literal_close E base q buf hv hq hb

/-! ## C13 -/

/-- C13 (code at the failing input). A newline read in free mode is turned into a
space and then written to the buffer (the branch is one arm of the `else if`
chain, so the arm for a space, which flushes the token, is not reached). In
`a` LF `b;` the two words end up in one component `"a b"`, where `a b;`
dispatches the two components `["a", "b"]`. -/
theorem newline_is_buffered_not_a_separator :
    (∀ (σ : Type) (E : GExecutor σ) (s : St σ), FreeMode s → lastChar s ≠ some T_SPACE →
      step E s T_NEW_LINE = Res.ok (writeToBuffer s T_SPACE)) ∧
    (run demoExecutor () "a\nb;".toList).error = none ∧
    (run demoExecutor () "a\nb;".toList).state.calls =
      [Call.executeCommand [JSValue.str "a b".toList]] ∧
    (run demoExecutor () "a b;".toList).state.calls =
      [Call.executeCommand [JSValue.str "a".toList, JSValue.str "b".toList]] := by
  refine ⟨?_, by decide, by decide, by decide⟩
  intro σ E s hf hl
  rw [step_of_freeMode E s _ hf (by decide) (by decide)]
  unfold stepFree
  rw [if_neg (by decide), if_pos rfl, if_neg hl]

/-! ## C14 -/

/-- C14 (code at the failing input). With no instruction pending,
`_finalizeInstructionToExec` evaluates the undeclared identifier `Logger`
(line 125; the module binds `logging`) and throws a `ReferenceError`. The script
`;` throws it without any executor call, and `move;;` throws it at the second
`;`, after the dispatch of `["move"]`. -/
theorem blank_instruction_end_throws :
    (∀ (σ : Type) (E : GExecutor σ) (s : St σ) (conditional : Bool),
      s.interpretingInstruction = false →
      _finalizeInstructionToExec E s conditional =
        Ret.thrown (JSError.referenceError msgLogger) s) ∧
    (run demoExecutor () ";".toList).error =
      some (JSError.referenceError "Logger is not defined".toList) ∧
    (run demoExecutor () ";".toList).state.calls = [] ∧
    (run demoExecutor () "move;;".toList).error =
      some (JSError.referenceError "Logger is not defined".toList) ∧
    (run demoExecutor () "move;;".toList).state.calls =
      [Call.executeCommand [JSValue.str "move".toList]] := by
  refine ⟨?_, by decide, by decide, by decide, by decide⟩
  intro σ E s conditional hi
  unfold _finalizeInstructionToExec
  rw [if_neg (by simp [hi])]

/-! ## C15 -/

/-- C15 (code at the failing input). The push of a resolved variable value
(line 175) does not set `interpretingInstruction`, which `_finalizeBuffer` does
set when it pushes a token. In `$x;` the value `"north"` is the only component,
so the `;` finds no instruction pending and `_finalizeInstructionToExec` throws
the `ReferenceError` for `Logger`: `executeCommand` is never called. -/
theorem variable_only_instruction_is_not_dispatched :
    (∀ (σ : Type) (E : GExecutor σ) (s : St σ),
      (resolved E s).interpretingInstruction = s.interpretingInstruction) ∧
    (run demoExecutor () "$x;".toList).error =
      some (JSError.referenceError "Logger is not defined".toList) ∧
    (run demoExecutor () "$x;".toList).state.calls = [Call.getVariable "x".toList] ∧
    (run demoExecutor () "$x;".toList).state.currentInstructionComponents =
      [JSValue.str "north".toList] ∧
    (run demoExecutor () "$x;".toList).state.interpretingInstruction = false := by
  refine ⟨?_, by decide, by decide, by decide, by decide⟩
  intro σ E s
  rfl

/-! ## C16 -/

/-- C16 (code at the failing input). The comment delimiter is refused only when
`interpretingInstruction` is set, that is after a first token has been flushed;
the end-of-input check also counts a non-empty buffer as an instruction in
progress. In `move#c` LF `foo;` the word `move` is still in the buffer, the
comment starts, the newline clears the buffer, and only `["foo"]` is dispatched;
`move 1 #c` throws the error. -/
theorem comment_after_first_word_is_accepted :
    (∀ (σ : Type) (E : GExecutor σ) (s : St σ), FreeMode s →
      s.interpretingInstruction = false →
      step E s T_COMMENT = Res.ok { s with readingComment := true }) ∧
    (run demoExecutor () "move#c\nfoo;".toList).error = none ∧
    (run demoExecutor () "move#c\nfoo;".toList).state.calls =
      [Call.executeCommand [JSValue.str "foo".toList]] ∧
    (run demoExecutor () "move 1 #c".toList).error = some (JSError.error msgComment) := by
  refine ⟨?_, by decide, by decide, by decide⟩
  intro σ E s hf hi
  rw [step_of_freeMode E s _ hf (by decide) (by decide)]
  unfold stepFree
  rw [if_neg (by decide), if_neg (by decide), if_pos rfl, if_neg (by simp [hi])]

/-! ## C18 -/

theorem pending_finalizeBuffer {σ : Type} (s : St σ) (f : Bool) (h : PendingHasComponents s) :
    PendingHasComponents (_finalizeBuffer s f) := by
  cases f with
  | false => rw [finalizeBuffer_false]; exact fun hi => h hi
  | true =>
    by_cases ht : trim s.buffer = []
    · rw [finalizeBuffer_empty s true ht]; exact fun hi => h hi
    · rw [finalizeBuffer_flush s ht]
      intro _
      show s.currentInstructionComponents ++ [_] ≠ []
      simp

theorem pending_exec {σ : Type} (E : GExecutor σ) (s : St σ) (i : List JSValue) (c : Bool)
    (h : PendingHasComponents s) : PendingHasComponents (_exec E s i c).state := by
  simp only [_exec]
  split_ifs <;> exact fun hi => h hi

theorem pending_finalizeInstructionToExec {σ : Type} (E : GExecutor σ) (s : St σ) (c : Bool)
    (h : PendingHasComponents s) :
    PendingHasComponents (_finalizeInstructionToExec E s c).state := by
  rcases finalizeInstructionToExec_state E s c with k | k | k
  · rw [k]; exact h
  · rw [k]; exact pending_exec E s _ c h
  · rw [k]; exact fun hi => by cases hi

theorem pending_writeToBuffer {σ : Type} (s : St σ) (c : Char) (h : PendingHasComponents s) :
    PendingHasComponents (writeToBuffer s c) := fun hi => h hi

theorem pending_stepVariableEnd {σ : Type} (E : GExecutor σ) (s : St σ) (c : Char)
    (h : PendingHasComponents s) : PendingHasComponents (stepVariableEnd E s c).state := by
  have hb := pending_finalizeBuffer { s with readingLiteral := false } false (fun hi => h hi)
  unfold stepVariableEnd
  simp only [_eatBuffer]
  split_ifs with h1 h2
  · exact fun hi => hb hi
  · rw [state_toRes]
    refine pending_finalizeInstructionToExec E _ false ?_
    intro _
    simp
  · intro _
    simp [Res.state]

theorem pending_stepContextOpen {σ : Type} (E : GExecutor σ) (s : St σ)
    (h : PendingHasComponents s) : PendingHasComponents (stepContextOpen E s).state := by
  unfold stepContextOpen
  split_ifs
  · exact h
  · have hm := pending_finalizeInstructionToExec E s true h
    rcases finalizeInstructionToExec_cases E s true with ⟨v, s1, k, -⟩ | ⟨e, s1, k⟩
    · rw [k] at hm ⊢
      exact pending_finalizeBuffer _ false (fun hi => hm hi)
    · rw [k] at hm ⊢
      exact hm

theorem pending_stepContextClose {σ : Type} (s : St σ) (h : PendingHasComponents s) :
    PendingHasComponents (stepContextClose s).state := by
  unfold stepContextClose
  split
  · exact h
  · exact pending_finalizeBuffer _ false (fun hi => h hi)

theorem pending_stepFree {σ : Type} (E : GExecutor σ) (s : St σ) (c : Char)
    (h : PendingHasComponents s) : PendingHasComponents (stepFree E s c).state := by
  unfold stepFree
  by_cases h1 : c = T_INSTRUCTION_END
  · rw [if_pos h1, state_toRes]
    exact pending_finalizeInstructionToExec E _ false (pending_finalizeBuffer s true h)
  rw [if_neg h1]
  by_cases h2 : c = T_NEW_LINE
  · rw [if_pos h2]
    split_ifs
    · exact h
    · exact pending_writeToBuffer s _ h
  rw [if_neg h2]
  by_cases h3 : c = T_COMMENT
  · rw [if_pos h3]
    split_ifs
    · exact h
    · exact fun hi => h hi
  rw [if_neg h3]
  by_cases h4 : c = T_CONTEXT_OPEN
  · rw [if_pos h4]; exact pending_stepContextOpen E s h
  rw [if_neg h4]
  by_cases h5 : c = T_CONTEXT_CLOSE
  · rw [if_pos h5]; exact pending_stepContextClose s h
  rw [if_neg h5]
  by_cases h6 : c = T_STRING_DOUBLE_QUOTE ∨ c = T_STRING_SINGLE_QUOTE
  · rw [if_pos h6]; exact fun hi => h hi
  rw [if_neg h6]
  by_cases h7 : c = T_SPACE
  · rw [if_pos h7]; exact pending_finalizeBuffer s true h
  rw [if_neg h7]
  by_cases h8 : c = T_VARIABLE_INDICATOR
  · rw [if_pos h8]
    split_ifs
    · exact fun hi => h hi
    · exact h
  rw [if_neg h8]
  exact pending_writeToBuffer s c h

theorem pending_step {σ : Type} (E : GExecutor σ) (s : St σ) (c : Char)
    (h : PendingHasComponents s) : PendingHasComponents (step E s c).state := by
  unfold step
  split_ifs with h1 h2 h3 h4 h5 h6 h7 h8 h9
  · exact h
  · exact pending_stepVariableEnd E s c h
  · exact pending_writeToBuffer s c h
  · exact fun hi => h hi
  · exact fun hi => h hi
  · exact pending_finalizeBuffer _ true (fun hi => h hi)
  · exact pending_writeToBuffer s c h
  · exact pending_finalizeBuffer s false h
  · exact pending_writeToBuffer s c h
  · exact pending_stepFree E s c h

theorem pending_scanLoop {σ : Type} (E : GExecutor σ) (cs : Str) :
    ∀ s : St σ, PendingHasComponents s → PendingHasComponents (scanLoop E s cs).state := by
  induction cs with
  | nil => intro s hs; exact hs
  | cons c cs ih =>
    intro s hs
    by_cases ha : s.abort = true
    · rw [scanLoop_of_abort E s _ ha]; exact hs
    · have ha2 : s.abort = false := by simpa using ha
      have hst := pending_step E s c hs
      cases hstep : step E s c with
      | ok s1 =>
        rw [hstep] at hst
        rw [scanLoop_cons_ok E s s1 c cs ha2 hstep]
        exact ih s1 hst
      | thrown e s1 =>
        rw [hstep] at hst
        rw [scanLoop_cons_thrown E s s1 c cs e ha2 hstep]
        exact hst

theorem pending_initialState {σ : Type} (ex : σ) : PendingHasComponents (initialState ex) :=
  fun hi => by cases hi

/-- C18 (amended). A context-open delimiter read in free mode when the guarding
instruction body is empty (nothing buffered and no components accumulated, no
instruction pending) throws the syntax error 'Unexpected "\x7b" - no preceding
conditional statement.'; the state is left as it was, so no executor call is made
and no context is opened. In a state the scan of a script has reached, an empty
buffer and an empty component list suffice: no instruction is pending there. For
every executor the script `\x7b move; \x7d` throws that error in the initial state. -/
theorem context_open_without_guard_is_an_error {σ : Type} (E : GExecutor σ) :
    (∀ s : St σ, FreeMode s → s.buffer = [] → s.currentInstructionComponents = [] →
      s.interpretingInstruction = false →
      step E s T_CONTEXT_OPEN = Res.thrown (JSError.error msgContextOpen) s) ∧
    (∀ (ex0 : σ) (u : Str) (s : St σ),
      scanLoop E (initialState (E.reset ex0)) u = Res.ok s → s.abort = false →
      FreeMode s → s.buffer = [] → s.currentInstructionComponents = [] →
      scanLoop E (initialState (E.reset ex0)) (u ++ [T_CONTEXT_OPEN]) =
        Res.thrown (JSError.error msgContextOpen) s) ∧
    (∀ ex0 : σ,
      run E ex0 "\x7b move; \x7d".toList =
        Res.thrown (JSError.error msgContextOpen) (initialState (E.reset ex0)) ∧
      (run E ex0 "\x7b move; \x7d".toList).state.calls = []) := by
  have hstep : ∀ s : St σ, FreeMode s → s.interpretingInstruction = false →
      step E s T_CONTEXT_OPEN = Res.thrown (JSError.error msgContextOpen) s := by
    intro s hf hi
    rw [step_contextOpen_eq E s hf]
    unfold stepContextOpen
    rw [if_pos hi]
  refine ⟨fun s hf _ _ hi => hstep s hf hi, ?_, ?_⟩
  · intro ex0 u s hscan ha hf _ hc
    have hp := pending_scanLoop E u _ (pending_initialState (E.reset ex0))
    rw [hscan] at hp
    have hi : s.interpretingInstruction = false := by
      cases hk : s.interpretingInstruction with
      | false => rfl
      | true => exact absurd hc (hp hk)
    rw [scanLoop_append_ok E u _ _ s hscan,
      scanLoop_cons_thrown E s s T_CONTEXT_OPEN [] _ ha (hstep s hf hi)]
  · intro ex0
    have hrun := run_eq_of_scan_thrown E ex0 "\x7b move; \x7d".toList _ _ (by decide)
      (scanLoop_cons_thrown E (initialState (E.reset ex0)) _ T_CONTEXT_OPEN " move; \x7d".toList _
        rfl (hstep _ (resting_initialState _).1 rfl))
    rw [hrun]
    exact ⟨rfl, rfl⟩

/-- Witness for C18: `\x7b move; \x7d` under `demoExecutor`, and a context-open
delimiter directly after the `;` of `move;`. -/
theorem context_open_without_guard_witness :
    (run demoExecutor () "\x7b move; \x7d".toList =
        Res.thrown (JSError.error msgContextOpen) (initialState ()) ∧
      (run demoExecutor () "\x7b move; \x7d".toList).state.calls = []) ∧
    scanLoop demoExecutor (initialState ()) ("move;".toList ++ [T_CONTEXT_OPEN]) =
      Res.thrown (JSError.error msgContextOpen) demoMoved :=
  ⟨(context_open_without_guard_is_an_error demoExecutor).2.2 (),
    (context_open_without_guard_is_an_error demoExecutor).2.1 () "move;".toList demoMoved
      (by rfl) (by decide) (by decide) (by decide) (by decide)⟩

/-- Counterexample to C18 as stated: `\x7b move; \x7d` does not return normally,
it throws the syntax error for a context-open without a guard. -/
theorem context_open_without_guard_counterexample :
    (run demoExecutor () "\x7b move; \x7d".toList).error =
      some (JSError.error
        "Syntax error. Unexpected \"\x7b\" - no preceding conditional statement.".toList) ∧
    (run demoExecutor () "\x7b move; \x7d".toList).error ≠ none ∧
    (run demoExecutor () "\x7b move; \x7d".toList).state.contextStack = [0] := by
  decide

/-! ## C20 -/

theorem calls_stepVariableEnd_inactive {σ : Type} (E : GExecutor σ) (s : St σ) (c : Char)
    (hi : s.contextIsActive = false) :
    (stepVariableEnd E s c).state.calls = s.calls ++ [Call.getVariable s.buffer] := by
  have hb2 : (_finalizeBuffer { s with readingLiteral := false } false).contextIsActive
      = false := by
    have := congrArg (fun x => x.2.2.2.2)
      (ctxOf_finalizeBuffer { s with readingLiteral := false } false)
    simpa [ctxOf, hi] using this
  have hc : (_finalizeBuffer { s with readingLiteral := false } false).calls = s.calls := by
    rw [calls_finalizeBuffer]
  unfold stepVariableEnd
  simp only [_eatBuffer]
  split_ifs with h1 h2
  · simp only [Res.state, hc]
  · rw [state_toRes, calls_finalizeInstructionToExec_inactive _ _ _ (by exact hb2)]
    simp only [hc]
  · simp only [Res.state, hc]

/-- The scan of `check \x7b foo $bar; \x7d` from the initial state, when the guard
is answered falsy (or with an abort), with a result the debug log can serialise,
and `bar` is undefined afterwards. -/
theorem scan_check_foo_bar {σ : Type} (E : GExecutor σ) (ex : σ)
    (hres : (E.executeCommand ex [JSValue.str "check".toList]).1.opResult.canStringify = true)
    (hfalsy : ¬((E.executeCommand ex [JSValue.str "check".toList]).1.abortExecution = false ∧
      (E.executeCommand ex [JSValue.str "check".toList]).1.opResult.truthy = true))
    (hundef : (E.getVariable (E.executeCommand ex [JSValue.str "check".toList]).2
      "bar".toList).1 = JSValue.undefined) :
    ∃ t, scanLoop E (initialState ex) "check \x7b foo $bar; \x7d".toList =
        Res.thrown (JSError.error (msgReference "bar".toList)) t ∧
      t.calls = [Call.executeCommand [JSValue.str "check".toList],
        Call.getVariable "bar".toList] ∧
      t.contextIsActive = false := by
  have hscript : "check \x7b foo $bar; \x7d".toList =
      spacedWords [("check".toList, 0)] ++ (T_CONTEXT_OPEN :: (spaces 1 ++
        (spacedWords [("foo".toList, 0)] ++ (T_VARIABLE_INDICATOR :: ("bar".toList ++
          T_INSTRUCTION_END :: " \x7d".toList))))) := by decide
  rw [hscript, scanLoop_spacedWords E _ _ _ (resting_initialState ex) (by decide)]
  have h1 := resting_withComponents (initialState ex) [JSValue.str "check".toList]
    (resting_initialState ex)
  simp only [List.map_cons, List.map_nil]
  rw [scanLoop_cons_ok E _ _ _ _ rfl (step_contextOpen_active E _ h1.1 rfl rfl rfl hres)]
  generalize hr : E.executeCommand ex [JSValue.str "check".toList] = r at hfalsy
  have hex : E.executeCommand
      (withComponents (initialState ex) [JSValue.str "check".toList]).ex
      (withComponents (initialState ex)
        [JSValue.str "check".toList]).currentInstructionComponents = r := hr
  rw [hex]
  have ha : (!r.1.abortExecution && r.1.opResult.truthy) = false := by
    rcases Bool.eq_false_or_eq_true r.1.abortExecution with h | h <;>
      rcases Bool.eq_false_or_eq_true r.1.opResult.truthy with h' | h' <;> simp_all
  rw [ha]
  have h2 : Resting (enterContext (dispatched E (withComponents (initialState ex)
      [JSValue.str "check".toList]) true) false) :=
    resting_enterContext _ _ rfl (by simp [dispatched, withComponents, initialState])
  rw [scanLoop_spaces_resting E 1 _ _ h2, scanLoop_spacedWords E _ _ _ h2 (by decide)]
  simp only [List.map_cons, List.map_nil]
  have h3 := resting_withComponents _ [JSValue.str "foo".toList] h2
  rw [scanLoop_cons_ok E _ _ _ _ h3.2.2.2.2.2 (step_variable_start E _ h3),
    scanLoop_variable_name E "bar".toList _
      { withComponents (enterContext (dispatched E (withComponents (initialState ex)
          [JSValue.str "check".toList]) true) false) [JSValue.str "foo".toList] with
        readingVariable := true } rfl h3.2.2.2.2.2 (by decide)]
  have hl : lastChar (writeAll
      { withComponents (enterContext (dispatched E (withComponents (initialState ex)
          [JSValue.str "check".toList]) true) false) [JSValue.str "foo".toList] with
        readingVariable := true } "bar".toList) ≠ some T_SPACE := by
    intro h
    have hm := lastChar_mem _ _ h
    simp only [writeAll, withComponents, enterContext, dispatched, initialState,
      List.nil_append] at hm
    exact absurd hm (by decide)
  rw [scanLoop_cons_thrown E (writeAll
      { withComponents (enterContext (dispatched E (withComponents (initialState ex)
          [JSValue.str "check".toList]) true) false) [JSValue.str "foo".toList] with
        readingVariable := true } "bar".toList) _ _ _ _ h3.2.2.2.2.2 (by
    rw [step_variable_end E _ _ rfl hl (Or.inr rfl), stepVariableEnd_undefined E _ _ hundef])]
  refine ⟨_, rfl, ?_, rfl⟩
  simp [lookedUp, writeAll, withComponents, enterContext, dispatched, initialState]

/-- C20 (amended). Variable resolution is not skipped in an inactive context: when
a space or `;` ends a variable name while the current context is inactive, the loop
iteration makes exactly the call `getVariable(name)` and no other, and when the
value is `undefined` it throws the reference error for the name. For the script
`check \x7b foo $bar; \x7d`, an executor that answers `["check"]` with a falsy result
(or an abort) that `JSON.stringify` accepts and has no `bar`: `run` throws the
reference error for `$bar` after the calls `executeCommand ["check"]` and
`getVariable("bar")`. -/
theorem variable_lookup_in_inactive_context {σ : Type} (E : GExecutor σ) :
    (∀ (s : St σ) (c : Char), s.readingVariable = true → s.contextIsActive = false →
      (c = T_SPACE ∨ c = T_INSTRUCTION_END) → lastChar s ≠ some T_SPACE →
      (step E s c).state.calls = s.calls ++ [Call.getVariable s.buffer] ∧
      ((E.getVariable s.ex s.buffer).1 = JSValue.undefined →
        step E s c = Res.thrown (JSError.error (msgReference s.buffer)) (lookedUp E s))) ∧
    (∀ ex0 : σ,
      (E.executeCommand (E.reset ex0) [JSValue.str "check".toList]).1.opResult.canStringify
        = true →
      ¬((E.executeCommand (E.reset ex0) [JSValue.str "check".toList]).1.abortExecution = false ∧
        (E.executeCommand (E.reset ex0)
          [JSValue.str "check".toList]).1.opResult.truthy = true) →
      (E.getVariable (E.executeCommand (E.reset ex0) [JSValue.str "check".toList]).2
        "bar".toList).1 = JSValue.undefined →
      (run E ex0 "check \x7b foo $bar; \x7d".toList).error =
        some (JSError.error
          "Reference error. Referenced variable $bar is not defined.".toList) ∧
      (run E ex0 "check \x7b foo $bar; \x7d".toList).state.calls =
        [Call.executeCommand [JSValue.str "check".toList], Call.getVariable "bar".toList] ∧
      (run E ex0 "check \x7b foo $bar; \x7d".toList).state.contextIsActive = false) := by
  constructor
  · intro s c hv hi hc hl
    rw [step_variable_end E s c hv hl hc]
    exact ⟨calls_stepVariableEnd_inactive E s c hi, stepVariableEnd_undefined E s c⟩
  · intro ex0 hres hfalsy hundef
    obtain ⟨t, hscan, hcalls, hact⟩ := scan_check_foo_bar E (E.reset ex0) hres hfalsy hundef
    rw [run_eq_of_scan_thrown E ex0 _ _ _ (by decide) hscan]
    exact ⟨rfl, hcalls, hact⟩

/-- Witness for C20: `check \x7b foo $bar; \x7d` under the executor that answers
every command with a falsy result and has no variables. -/
theorem variable_lookup_in_inactive_context_witness :
    (run falsyExecutor () "check \x7b foo $bar; \x7d".toList).error =
        some (JSError.error
          "Reference error. Referenced variable $bar is not defined.".toList) ∧
      (run falsyExecutor () "check \x7b foo $bar; \x7d".toList).state.calls =
        [Call.executeCommand [JSValue.str "check".toList], Call.getVariable "bar".toList] ∧
      (run falsyExecutor () "check \x7b foo $bar; \x7d".toList).state.contextIsActive = false :=
  (variable_lookup_in_inactive_context falsyExecutor).2 () (by decide) (by decide) (by decide)

/-- Counterexample for C20 as stated: an executor that answers `["check"]` with the
falsy `opResult` `0n`, a BigInt, and has no `bar`. The script
`check \x7b foo $bar; \x7d` does not reach the variable: `run` fails with the
`TypeError` of `JSON.stringify` right after the call `["check"]`, not with the
reference error for `$bar`, and `getVariable` is never called. -/
theorem variable_lookup_counterexample :
    (bigintExecutor.executeCommand () [JSValue.str "check".toList]).1.opResult.truthy = false ∧
      (bigintExecutor.getVariable () "bar".toList).1 = JSValue.undefined ∧
      (run bigintExecutor () "check \x7b foo $bar; \x7d".toList).error
        = some JSError.typeError ∧
      (run bigintExecutor () "check \x7b foo $bar; \x7d".toList).state.calls =
        [Call.executeCommand [JSValue.str "check".toList]] := by
  decide

/-! ## C19 -/

theorem modeInvariant_congr {σ : Type} (s t : St σ) (h : modeOf t = modeOf s)
    (hs : ModeInvariant s) : ModeInvariant t := by
  simp only [modeOf, Prod.mk.injEq] at h
  obtain ⟨h1, h2, h3, h4, h5, h6, h7⟩ := h
  unfold ModeInvariant at hs ⊢
  rw [h1, h2, h3, h4, h5, h6, h7]
  exact hs

theorem modeInvariant_initialState {σ : Type} (ex : σ) : ModeInvariant (initialState ex) :=
  ⟨rfl, rfl, rfl, (fun h => by cases h), ⟨fun h => absurd rfl h, (fun h => by cases h)⟩, rfl⟩

theorem modeInvariant_finalizeBuffer {σ : Type} (s : St σ) (f : Bool) :
    ModeInvariant (_finalizeBuffer s f) :=
  ⟨rfl, rfl, rfl, (fun h => by cases h), ⟨fun h => absurd rfl h, (fun h => by cases h)⟩, rfl⟩

theorem modeInvariant_writeToBuffer {σ : Type} (s : St σ) (c : Char) (hs : ModeInvariant s) :
    ModeInvariant (writeToBuffer s c) := by
  obtain ⟨h1, h2, h3, h4, h5, h6⟩ := hs
  refine ⟨h1, h2, h3, h4, h5, ?_⟩
  show s.bufferIdx + 1 = (s.buffer ++ [c]).length
  rw [h6, List.length_append]; rfl

theorem modeOf_exec {σ : Type} (E : GExecutor σ) (s : St σ) (i : List JSValue) (c : Bool) :
    modeOf (_exec E s i c).state = modeOf s := by
  simp only [_exec]
  split_ifs <;> rfl

theorem modeOf_finalizeInstructionToExec {σ : Type} (E : GExecutor σ) (s : St σ) (c : Bool) :
    modeOf (_finalizeInstructionToExec E s c).state = modeOf s := by
  rcases finalizeInstructionToExec_state E s c with h | h | h
  · rw [h]
  · rw [h]; exact modeOf_exec E s _ c
  · rw [h]; exact modeOf_exec E s _ c

theorem modeInvariant_stepVariableEnd {σ : Type} (E : GExecutor σ) (s : St σ) (c : Char) :
    ModeInvariant (stepVariableEnd E s c).state := by
  have hb := modeInvariant_finalizeBuffer { s with readingLiteral := false } false
  unfold stepVariableEnd
  simp only [_eatBuffer]
  split_ifs with h1 h2
  · exact hb
  · rw [state_toRes]
    exact modeInvariant_congr _ _ (modeOf_finalizeInstructionToExec E _ false) hb
  · exact hb

theorem modeInvariant_stepContextOpen {σ : Type} (E : GExecutor σ) (s : St σ)
    (hs : ModeInvariant s) : ModeInvariant (stepContextOpen E s).state := by
  unfold stepContextOpen
  split_ifs
  · exact hs
  · have hm := modeOf_finalizeInstructionToExec E s true
    rcases finalizeInstructionToExec_cases E s true with ⟨v, s1, h, -⟩ | ⟨e, s1, h⟩
    · rw [h]
      exact modeInvariant_finalizeBuffer _ false
    · rw [h] at hm ⊢
      exact modeInvariant_congr _ _ hm hs

theorem modeInvariant_stepContextClose {σ : Type} (s : St σ) (hs : ModeInvariant s) :
    ModeInvariant (stepContextClose s).state := by
  unfold stepContextClose
  split
  · exact hs
  · exact modeInvariant_finalizeBuffer _ false

theorem modeInvariant_stepFree {σ : Type} (E : GExecutor σ) (s : St σ) (c : Char)
    (hs : ModeInvariant s) (hv : s.readingVariable = false) (hl : s.readingLiteral = false)
    (hc : s.readingComment = false) : ModeInvariant (stepFree E s c).state := by
  unfold stepFree
  by_cases h1 : c = T_INSTRUCTION_END
  · rw [if_pos h1, state_toRes]
    exact modeInvariant_congr _ _ (modeOf_finalizeInstructionToExec E _ false)
      (modeInvariant_finalizeBuffer s true)
  rw [if_neg h1]
  by_cases h2 : c = T_NEW_LINE
  · rw [if_pos h2]
    split_ifs
    · exact hs
    · exact modeInvariant_writeToBuffer s _ hs
  rw [if_neg h2]
  by_cases h3 : c = T_COMMENT
  · rw [if_pos h3]
    split_ifs
    · exact hs
    · obtain ⟨-, -, -, k4, k5, k6⟩ := hs
      exact ⟨by simp [Res.state, hl], by simp [Res.state, hv], by simp [Res.state, hl], k4, k5, k6⟩
  rw [if_neg h3]
  by_cases h4 : c = T_CONTEXT_OPEN
  · rw [if_pos h4]; exact modeInvariant_stepContextOpen E s hs
  rw [if_neg h4]
  by_cases h5 : c = T_CONTEXT_CLOSE
  · rw [if_pos h5]; exact modeInvariant_stepContextClose s hs
  rw [if_neg h5]
  by_cases h6 : c = T_STRING_DOUBLE_QUOTE ∨ c = T_STRING_SINGLE_QUOTE
  · rw [if_pos h6]
    obtain ⟨-, -, -, -, -, k6⟩ := hs
    exact ⟨by simp [Res.state, hc], by simp [Res.state, hc], by simp [Res.state, hv],
      fun _ => rfl, ⟨fun _ => rfl, (fun _ => by simp [Res.state])⟩, k6⟩
  rw [if_neg h6]
  by_cases h7 : c = T_SPACE
  · rw [if_pos h7]; exact modeInvariant_finalizeBuffer s true
  rw [if_neg h7]
  by_cases h8 : c = T_VARIABLE_INDICATOR
  · rw [if_pos h8]
    split_ifs
    · obtain ⟨-, -, -, k4, k5, k6⟩ := hs
      exact ⟨by simp [Res.state, hc], by simp [Res.state, hc], by simp [Res.state, hl], k4, k5, k6⟩
    · exact hs
  rw [if_neg h8]
  exact modeInvariant_writeToBuffer s c hs

theorem modeInvariant_step {σ : Type} (E : GExecutor σ) (s : St σ) (c : Char)
    (hs : ModeInvariant s) : ModeInvariant (step E s c).state := by
  unfold step
  split_ifs with h1 h2 h3 h4 h5 h6 h7 h8 h9
  · exact hs
  · exact modeInvariant_stepVariableEnd E s c
  · exact modeInvariant_writeToBuffer s c hs
  · have hw := modeInvariant_writeToBuffer s c hs
    obtain ⟨k1, k2, k3, -, k5, k6⟩ := hw
    exact ⟨k1, k2, k3, (fun h => by cases h), k5, k6⟩
  · obtain ⟨k1, k2, k3, -, k5, k6⟩ := hs
    exact ⟨k1, k2, k3, fun _ => h4, k5, k6⟩
  · exact modeInvariant_finalizeBuffer _ true
  · exact modeInvariant_writeToBuffer s c hs
  · exact modeInvariant_finalizeBuffer s false
  · exact modeInvariant_writeToBuffer s c hs
  · exact modeInvariant_stepFree E s c hs (by simpa using h2) (by simpa using h4)
      (by simpa using h8)

theorem modeInvariant_scanLoop {σ : Type} (E : GExecutor σ) (cs : Str) :
    ∀ s : St σ, ModeInvariant s → ModeInvariant (scanLoop E s cs).state := by
  induction cs with
  | nil => intro s hs; exact hs
  | cons c cs ih =>
    intro s hs
    by_cases ha : s.abort = true
    · rw [scanLoop_of_abort E s _ ha]; exact hs
    · have ha2 : s.abort = false := by simpa using ha
      have hst := modeInvariant_step E s c hs
      cases hstep : step E s c with
      | ok s1 =>
        rw [hstep] at hst
        rw [scanLoop_cons_ok E s s1 c cs ha2 hstep]
        exact ih s1 hst
      | thrown e s1 =>
        rw [hstep] at hst
        rw [scanLoop_cons_thrown E s s1 c cs e ha2 hstep]
        exact hst

theorem state_run {σ : Type} (E : GExecutor σ) (ex0 : σ) (scriptText : Str) :
    (run E ex0 scriptText).state =
      (scanLoop E (initialState (E.reset ex0)) (_preProcess scriptText)).state := by
  unfold run
  cases scanLoop E (initialState (E.reset ex0)) (_preProcess scriptText) with
  | ok s =>
    simp only [evaluateState]
    split_ifs <;> rfl
  | thrown e s => rfl

/-- C19. The reading modes are exclusive throughout the scan: for every script and
executor, the state at the start of every loop iteration (the state after any
number `k` of characters of the preprocessed text) and the state `run` ends in
satisfy `ModeInvariant`: at most one of `readingComment`, `readingLiteral` and
`readingVariable` is set, the escape flag is set only while `readingLiteral` is,
the opening quote is remembered if and only if `readingLiteral` is set, and
`bufferIdx` equals the length of the buffer. -/
theorem reading_modes_are_exclusive {σ : Type} (E : GExecutor σ) (ex0 : σ) (scriptText : Str) :
    (∀ k : Nat, ModeInvariant
      (scanLoop E (initialState (E.reset ex0)) ((_preProcess scriptText).take k)).state) ∧
    ModeInvariant (run E ex0 scriptText).state := by
  refine ⟨fun k => modeInvariant_scanLoop E _ _ (modeInvariant_initialState _), ?_⟩
  rw [state_run]
  exact modeInvariant_scanLoop E _ _ (modeInvariant_initialState _)

/-! ## C17 -/

theorem step_comment_start {σ : Type} (E : GExecutor σ) (s : St σ) (hs : Resting s)
    (hi : s.interpretingInstruction = false) :
    step E s T_COMMENT = Res.ok (inComment s [] 0) := by
  rw [step_of_freeMode E s _ hs.1 (by decide) (by decide)]
  unfold stepFree
  rw [if_neg (by decide), if_neg (by decide), if_pos rfl, if_neg (by simp [hi])]
  obtain ⟨-, hb, hx, -, -, -⟩ := hs
  cases s
  simp_all [inComment]

theorem step_comment_char {σ : Type} (E : GExecutor σ) (base : St σ) (buf : Str) (n : Nat)
    (c : Char) (hv : base.readingVariable = false) (hl : base.readingLiteral = false)
    (hc : c ≠ T_NEW_LINE) :
    ∃ buf1 n1, step E (inComment base buf n) c = Res.ok (inComment base buf1 n1) := by
  unfold step
  by_cases hskip : (inComment base buf n).readingLiteral = false ∧
      ((lastChar (inComment base buf n) = some T_SPACE ∧ c = T_SPACE) ∨ c = T_RETURN)
  · rw [if_pos hskip]
    exact ⟨buf, n, rfl⟩
  · rw [if_neg hskip, if_neg (by simp [inComment, hv]), if_neg (by simp [inComment, hl]),
      if_pos (by simp [inComment]), if_neg hc]
    exact ⟨buf ++ [c], n + 1, rfl⟩

theorem scanLoop_comment {σ : Type} (E : GExecutor σ) (base : St σ) (rest : Str)
    (hv : base.readingVariable = false) (hl : base.readingLiteral = false)
    (ha : base.abort = false) (cs : Str) :
    ∀ (buf : Str) (n : Nat), (∀ c ∈ cs, c ≠ T_NEW_LINE) →
      ∃ buf1 n1, scanLoop E (inComment base buf n) (cs ++ rest) =
        scanLoop E (inComment base buf1 n1) rest := by
  induction cs with
  | nil => intro buf n _; exact ⟨buf, n, rfl⟩
  | cons c cs ih =>
    intro buf n hcs
    obtain ⟨buf1, n1, hstep⟩ :=
      step_comment_char E base buf n c hv hl (hcs c (List.mem_cons_self _ _))
    obtain ⟨buf2, n2, hrest⟩ := ih buf1 n1 (fun d hd => hcs d (List.mem_cons_of_mem _ hd))
    refine ⟨buf2, n2, ?_⟩
    rw [List.cons_append, scanLoop_cons_ok E (inComment base buf n) _ c _ ha hstep]
    exact hrest

theorem step_comment_end {σ : Type} (E : GExecutor σ) (base : St σ) (buf : Str) (n : Nat)
    (hs : Resting base) : step E (inComment base buf n) T_NEW_LINE = Res.ok base := by
  unfold step
  rw [if_neg (by
      rintro ⟨-, ⟨-, h⟩ | h⟩
      · exact absurd h (by decide)
      · exact absurd h (by decide)),
    if_neg (by simp [inComment, hs.1.1]), if_neg (by simp [inComment, hs.1.2.1]),
    if_pos (by simp [inComment]), if_pos rfl, finalizeBuffer_false]
  obtain ⟨⟨-, h2, h3⟩, h4, h5, h6, h7, -⟩ := hs
  cases base
  simp_all [inComment]

/-- A comment line read at rest with no instruction pending leaves the state as
it was. -/
theorem scanLoop_comment_line {σ : Type} (E : GExecutor σ) (s : St σ) (c rest : Str)
    (hs : Resting s) (hi : s.interpretingInstruction = false)
    (hc : ∀ ch ∈ c, ch ≠ T_NEW_LINE) :
    scanLoop E s (T_COMMENT :: (c ++ T_NEW_LINE :: rest)) = scanLoop E s rest := by
  have ha := hs.2.2.2.2.2
  rw [scanLoop_cons_ok E s _ _ _ ha (step_comment_start E s hs hi)]
  obtain ⟨buf1, n1, h⟩ := scanLoop_comment E s (T_NEW_LINE :: rest) hs.1.1 hs.1.2.1 ha c [] 0 hc
  rw [h, scanLoop_cons_ok E (inComment s buf1 n1) _ _ _ ha (step_comment_end E s buf1 n1 hs)]

theorem trimEnd_append_whiteSpace (u : Str) (d : Char) (hd : isWhiteSpace d = true) :
    trimEnd (u ++ [d]) = trimEnd u := by
  unfold trimEnd
  rw [List.reverse_append, List.reverse_singleton, List.singleton_append,
    List.dropWhile_cons_of_pos hd]

theorem mem_trimEnd (u : Str) (x : Char) (h : x ∈ trimEnd u) : x ∈ u := by
  unfold trimEnd at h
  rw [List.mem_reverse] at h
  exact List.mem_reverse.mp (List.dropWhile_subset _ h)

theorem replaceTabs_ne_newline (c : Str) (hc : ∀ ch ∈ c, ch ≠ T_NEW_LINE) :
    ∀ ch ∈ replaceTabs c, ch ≠ T_NEW_LINE := by
  intro ch h
  rcases mem_replaceTabs c ch h with h1 | h1
  · rw [h1]; decide
  · exact hc ch h1

/-- Preprocessing of a comment line followed by a trimmed, non-empty script. -/
theorem preProcess_comment_line (c s : Str) (hne : s ≠ [])
    (hlast : ∀ ch, s.getLast? = some ch → isWhiteSpace ch = false) :
    _preProcess ([T_COMMENT] ++ c ++ [T_NEW_LINE] ++ s) =
      T_COMMENT :: (replaceTabs c ++ T_NEW_LINE :: replaceTabs s) := by
  unfold _preProcess
  rw [trim_eq_self _
    (by
      intro ch h
      simp only [List.singleton_append, List.cons_append, List.head?_cons,
        Option.some.injEq] at h
      subst h; decide)
    (by
      intro ch h
      rw [List.getLast?_append_of_ne_nil _ hne] at h
      exact hlast ch h)]
  have h1 : T_COMMENT ≠ T_TAB := by decide
  have h2 : T_NEW_LINE ≠ T_TAB := by decide
  simp only [replaceTabs_append]
  simp [replaceTabs, h1, h2]

/-- Preprocessing of a comment line alone: the newline and the whitespace before
it are trimmed away. -/
theorem preProcess_comment_only (c : Str) :
    _preProcess ([T_COMMENT] ++ c ++ [T_NEW_LINE]) = T_COMMENT :: replaceTabs (trimEnd c) := by
  unfold _preProcess trim
  rw [trimStart_eq_self _
    (by
      intro ch h
      simp only [List.singleton_append, List.cons_append, List.head?_cons,
        Option.some.injEq] at h
      subst h; decide),
    List.append_assoc, trimEnd_append [T_COMMENT] (c ++ [T_NEW_LINE]) T_COMMENT rfl (by decide),
    trimEnd_append_whiteSpace c T_NEW_LINE (by decide), replaceTabs_append]
  have h1 : T_COMMENT ≠ T_TAB := by decide
  simp [replaceTabs, h1]

/-- C17. A leading comment line is discarded without any effect: for every
comment text `c` without a newline, every trimmed script `s` and every executor,
`run` on `#` ++ `c` ++ LF ++ `s` ends with the same outcome as `run` on `s`
(normal return or the same error), after the same executor calls and in the same
executor state; when `s` is not empty the two runs end in the very same state. -/
theorem leading_comment_line_is_discarded {σ : Type} (E : GExecutor σ) (ex0 : σ) (c s : Str)
    (hc : ∀ ch ∈ c, ch ≠ T_NEW_LINE)
    (hhead : ∀ ch, s.head? = some ch → isWhiteSpace ch = false)
    (hlast : ∀ ch, s.getLast? = some ch → isWhiteSpace ch = false) :
    (run E ex0 ([T_COMMENT] ++ c ++ [T_NEW_LINE] ++ s)).error = (run E ex0 s).error ∧
    (run E ex0 ([T_COMMENT] ++ c ++ [T_NEW_LINE] ++ s)).state.calls = (run E ex0 s).state.calls ∧
    (run E ex0 ([T_COMMENT] ++ c ++ [T_NEW_LINE] ++ s)).state.ex = (run E ex0 s).state.ex ∧
    (s ≠ [] → run E ex0 ([T_COMMENT] ++ c ++ [T_NEW_LINE] ++ s) = run E ex0 s) := by
  have h0 := resting_initialState (E.reset ex0)
  by_cases hne : s = []
  · subst hne
    have hrunB : run E ex0 [] = Res.ok (initialState (E.reset ex0)) := rfl
    have hcs : ∀ ch ∈ replaceTabs (trimEnd c), ch ≠ T_NEW_LINE :=
      replaceTabs_ne_newline _ (fun ch h => hc ch (mem_trimEnd c ch h))
    obtain ⟨buf1, n1, hscan⟩ := scanLoop_comment E (initialState (E.reset ex0)) [] rfl rfl rfl
      (replaceTabs (trimEnd c)) [] 0 hcs
    have hrunA : run E ex0 ([T_COMMENT] ++ c ++ [T_NEW_LINE] ++ []) =
        Res.ok (inComment (initialState (E.reset ex0)) buf1 n1) := by
      unfold run
      rw [List.append_nil, preProcess_comment_only,
        scanLoop_cons_ok E _ _ _ _ rfl (step_comment_start E _ h0 rfl)]
      rw [List.append_nil] at hscan
      rw [hscan]
      simp [scanLoop, evaluateState, inComment]
    rw [hrunA, hrunB]
    exact ⟨rfl, rfl, rfl, fun h => absurd rfl h⟩
  · have hpB : _preProcess s = replaceTabs s := by
      unfold _preProcess
      rw [trim_eq_self s hhead hlast]
    have heq : run E ex0 ([T_COMMENT] ++ c ++ [T_NEW_LINE] ++ s) = run E ex0 s := by
      unfold run
      rw [preProcess_comment_line c s hne hlast, hpB,
        scanLoop_comment_line E _ _ _ h0 rfl (replaceTabs_ne_newline c hc)]
    rw [heq]
    exact ⟨rfl, rfl, rfl, fun _ => rfl⟩

/-- Witness for C17: `#comment` LF `move;` ends as `move;` does, with the single
call `executeCommand ["move"]`. -/
theorem leading_comment_line_witness :
    ((run demoExecutor () "#comment\nmove;".toList).error
        = (run demoExecutor () "move;".toList).error ∧
      (run demoExecutor () "#comment\nmove;".toList).state.calls
        = (run demoExecutor () "move;".toList).state.calls ∧
      (run demoExecutor () "#comment\nmove;".toList).state.ex
        = (run demoExecutor () "move;".toList).state.ex ∧
      ("move;".toList ≠ [] →
        run demoExecutor () "#comment\nmove;".toList = run demoExecutor () "move;".toList)) ∧
    (run demoExecutor () "#comment\nmove;".toList).state.calls =
      [Call.executeCommand [JSValue.str "move".toList]] :=
  ⟨leading_comment_line_is_discarded demoExecutor () "comment".toList "move;".toList
      (by decide)
      (fun ch h => by
        have h2 : some 'm' = some ch := h
        cases h2; decide)
      (fun ch h => by
        have h2 : some ';' = some ch := h
        cases h2; decide),
    by decide⟩

end GInterpreter
